import Mathlib

/-!
# VAST PCAP source: a shallow embedding of `pcap_state::extract`

The definitions follow `libvast/src/actor/source/pcap.cpp`.  Machine integers
are natural numbers with explicit reduction modulo `2 ^ 32` or `2 ^ 64`; the
counts of `std::chrono` durations are integers kept within the signed 64-bit
range (`wrap_i64`).  The hash map `flows_` is an association list; its keys
are pairwise distinct in every state that is reached from the empty table
(`extract_nodup`).  The values delivered by libpcap, by the file system and by
the random number generator are inputs of each call (`world`).  A call that
runs into undefined behaviour (a null handle, a division by zero) ends in
`outcome.undefined`.
-/

namespace vast

/-! ## Unsigned machine arithmetic -/

/-- Subtraction of `uint64_t` operands, wrapping modulo `2 ^ 64`. -/
def sub_u64 (a b : Nat) : Nat := (a % 2 ^ 64 + 2 ^ 64 - b % 2 ^ 64) % 2 ^ 64

/-- Addition of `uint64_t` operands, wrapping modulo `2 ^ 64`. -/
def add_u64 (a b : Nat) : Nat := (a + b) % 2 ^ 64

/-- Subtraction of 32-bit unsigned operands, wrapping modulo `2 ^ 32`. -/
def sub_u32 (a b : Nat) : Nat := (a % 2 ^ 32 + 2 ^ 32 - b % 2 ^ 32) % 2 ^ 32

/-- Conversion of a 64-bit unsigned value to a 32-bit unsigned one. -/
def to_u32 (a : Nat) : Nat := a % 2 ^ 32

/-! ## Data model -/

/-- Address family discriminator (`address::ipv4`, `address::ipv6`). -/
inductive family where
  | ipv4
  | ipv6
deriving DecidableEq, Repr

/-- Modelled from the spec: the class `address` of `vast/address.hpp`, which is
not among the sources: a tagged value holding the raw address bytes in network
byte order plus a family discriminator. -/
structure address where
  fam : family
  bytes : List Nat
deriving DecidableEq, Repr

/-- Transport protocol tag of a port (`port::tcp`, `port::udp`, `port::icmp`,
`port::unknown`). -/
inductive port_type where
  | unknown
  | tcp
  | udp
  | icmp
deriving DecidableEq, Repr

/-- Modelled from the spec: the class `port` of `vast/port.hpp`, which is not
among the sources: a 16-bit number and a protocol tag. -/
structure port where
  number : Nat
  type : port_type
deriving DecidableEq, Repr

/-- The connection key `detail::connection`: equality is on all four fields. -/
structure connection where
  src : address
  dst : address
  sport : port
  dport : port
deriving DecidableEq, Repr

/-- The per-flow record `connection_state{bytes, last}`. -/
structure connection_state where
  bytes : Nat
  last : Nat
deriving DecidableEq, Repr

/-- The map `flows_` (a `std::unordered_map`): an association list. -/
abbrev flow_table := List (connection × connection_state)

/-- The libpcap packet header `pcap_pkthdr`: capture time, captured length and
length on the wire. -/
structure pcap_pkthdr where
  tv_sec : Int
  tv_usec : Int
  caplen : Nat
  len : Nat

/-- A frame as `pcap_next_ex` hands it over: the header and the memory behind
the pointer `data`, `data i` being the byte stored at address `data + i`. -/
structure frame where
  header : pcap_pkthdr
  data : Nat → Nat

/-- The byte `*(data + i)`. -/
def frame.byte (f : frame) (i : Nat) : Nat := f.data i % 256

/-- A 16-bit value read at `data + i` and converted from network to host byte
order (`util::byte_swap<network_endian, host_endian>`). -/
def frame.be16 (f : frame) (i : Nat) : Nat := f.byte i * 256 + f.byte (i + 1)

/-- The `n` bytes starting at `data + i`. -/
def frame.slice (f : frame) (i n : Nat) : List Nat := (List.range n).map (fun j => f.byte (i + j))

/-- Modelled from the spec: the constructor `address{ptr, family, byte_order}`
of `vast/address.hpp`, which is not among the sources; it takes 4 bytes for
an IPv4 address and 16 bytes for an IPv6 address, here in network order. -/
def address.from_network (f : frame) (i : Nat) (fam : family) : address :=
  match fam with
  | .ipv4 => { fam := .ipv4, bytes := f.slice i 4 }
  | .ipv6 => { fam := .ipv6, bytes := f.slice i 16 }

/-- A default-constructed address. -/
def address.default : address := { fam := .ipv6, bytes := List.replicate 16 0 }

/-- A default-constructed port. -/
def port.default : port := { number := 0, type := .unknown }

/-- A default-constructed `detail::connection` (line 109). -/
def connection.default : connection :=
  { src := address.default, dst := address.default, sport := port.default, dport := port.default }

/-- The errors `extract` returns, one constructor per message. -/
inductive error where
  /-- The message "failed to enumerate interfaces: ..." -/
  | enumerate_interfaces
  /-- The message "failed to open interface ..." -/
  | open_interface
  /-- The message "no such file: ..." -/
  | no_such_file
  /-- The message "failed to open pcap file ..." -/
  | open_pcap_file
  /-- The message "failed to get next packet: ..." -/
  | next_packet
  /-- The message "IPv4 header too short" -/
  | ipv4_header_too_short
  /-- The message "IPv4 header too short: n bytes" -/
  | ipv4_header_too_short_bytes (header_size : Nat)
  /-- The message "IPv6 header too short" -/
  | ipv6_header_too_short
deriving DecidableEq, Repr

/-- The type `result<T>`: empty, an error, or a value. -/
inductive result (α : Type) where
  | empty
  | error (e : error)
  | value (a : α)
deriving DecidableEq, Repr

/-- What the parsing of lines 109-171 hands to the flow accounting: the
connection key, `packet_size` and `payload_size`. -/
structure dissected where
  conn : connection
  packet_size : Nat
  payload_size : Nat
deriving DecidableEq, Repr

/-! ## Parsing (lines 109-171) -/

/-- Lines 145-171: ports and transport header size by protocol number
(`IPPROTO_TCP = 6`, `IPPROTO_UDP = 17`, `IPPROTO_ICMP = 1`). -/
def parse_layer4 (f : frame) (conn : connection) (packet_size payload_size : Nat)
    (layer4_proto layer4 : Nat) : dissected :=
  if layer4_proto = 6 then
    let orig_p := f.be16 layer4
    let resp_p := f.be16 (layer4 + 2)
    let data_offset := f.byte (layer4 + 12) >>> 4
    { conn := { conn with sport := ⟨orig_p, .tcp⟩, dport := ⟨resp_p, .tcp⟩ },
      packet_size := packet_size,
      payload_size := sub_u64 payload_size (data_offset * 4) }
  else if layer4_proto = 17 then
    let orig_p := f.be16 layer4
    let resp_p := f.be16 (layer4 + 2)
    { conn := { conn with sport := ⟨orig_p, .udp⟩, dport := ⟨resp_p, .udp⟩ },
      packet_size := packet_size,
      payload_size := sub_u64 payload_size 8 }
  else if layer4_proto = 1 then
    let message_type := f.byte layer4
    let message_code := f.byte (layer4 + 1)
    { conn := { conn with sport := ⟨message_type, .icmp⟩, dport := ⟨message_code, .icmp⟩ },
      packet_size := packet_size,
      payload_size := sub_u64 payload_size 8 }
  else
    { conn := conn, packet_size := packet_size, payload_size := payload_size }

/-- Lines 109-171: the link, network and transport layer of one frame.
`result.empty` is the silent skip of line 118. -/
def parse_packet (f : frame) : result dissected :=
  let conn := connection.default
  let packet_size := sub_u32 f.header.len 14
  let layer3 := 14
  let layer2_type := f.be16 12
  let payload_size := packet_size
  if layer2_type = 0x0800 then
    if f.header.len % 2 ^ 32 < 14 + 20 then
      .error .ipv4_header_too_short
    else
      let header_size := (f.byte layer3 &&& 0x0f) * 4
      if header_size < 20 then
        .error (.ipv4_header_too_short_bytes header_size)
      else
        let conn := { conn with src := address.from_network f (layer3 + 12) .ipv4,
                                dst := address.from_network f (layer3 + 16) .ipv4 }
        let layer4_proto := f.byte (layer3 + 9)
        let layer4 := layer3 + header_size
        .value (parse_layer4 f conn packet_size (sub_u64 payload_size header_size)
          layer4_proto layer4)
  else if layer2_type = 0x86dd then
    if f.header.len % 2 ^ 32 < 14 + 40 then
      .error .ipv6_header_too_short
    else
      let conn := { conn with src := address.from_network f (layer3 + 8) .ipv4,
                              dst := address.from_network f (layer3 + 24) .ipv4 }
      let layer4_proto := f.byte (layer3 + 6)
      let layer4 := layer3 + 40
      .value (parse_layer4 f conn packet_size (sub_u64 payload_size 40) layer4_proto layer4)
  else
    .empty

/-! ## The flow table (lines 176-220) -/

/-- The call `flows_.find(conn)`: the state stored under `k`, if any. -/
def flow_table.find (t : flow_table) (k : connection) : Option connection_state :=
  List.lookup k t

/-- The keys of the table. -/
def flow_table.keys (t : flow_table) : List connection := t.map Prod.fst

/-- Lines 176-181: find the entry of `k` and refresh its `last`, or insert
`connection_state{0, packet_time}`. -/
def flow_table.find_or_insert (t : flow_table) (k : connection) (packet_time : Nat) :
    flow_table :=
  match t.find k with
  | none => t ++ [(k, { bytes := 0, last := packet_time })]
  | some _ => t.map (fun e => if e.1 = k then (e.1, { e.2 with last := packet_time }) else e)

/-- An assignment through the reference `flow_size` (`i->second.bytes`). -/
def flow_table.set_bytes (t : flow_table) (k : connection) (b : Nat) : flow_table :=
  t.map (fun e => if e.1 = k then (e.1, { e.2 with bytes := b }) else e)

/-- The call `flows_.erase(key)`. -/
def flow_table.erase (t : flow_table) (k : connection) : flow_table :=
  t.filter (fun e => decide (e.1 ≠ k))

/-- The table and the recorded packet length after the accounting of lines
182-191. -/
structure accounted where
  flows : flow_table
  packet_size : Nat
deriving DecidableEq, Repr

/-- Lines 182-191 on the table that find-or-insert left: `none` is the drop of
line 184; otherwise the flow's byte count grows by the payload size or, when
that would pass the cutoff, the packet is trimmed and the count set to the
cutoff. -/
def account (cutoff : Nat) (t : flow_table) (d : dissected) : Option accounted :=
  let flow_size := ((t.find d.conn).map (fun s => s.bytes)).getD 0
  if flow_size = cutoff then
    none
  else if add_u64 flow_size d.payload_size ≤ cutoff then
    some { flows := t.set_bytes d.conn (add_u64 flow_size d.payload_size),
           packet_size := d.packet_size }
  else
    some { flows := t.set_bytes d.conn cutoff,
           packet_size :=
             to_u32 (sub_u64 d.packet_size (sub_u64 (add_u64 flow_size d.payload_size) cutoff)) }

/-- Lines 195-200: the sweep erases every entry with
`packet_time - last > max_age_`. -/
def expire_flows (max_age packet_time : Nat) (t : flow_table) : flow_table :=
  t.filter (fun e => decide (¬ sub_u64 packet_time e.2.last > max_age))

/-- Lines 193-201: the expiry step on `(last_expire_, flows_)`. -/
def expire_step (expire_interval max_age packet_time : Nat) (last_expire : Nat)
    (t : flow_table) : Nat × flow_table :=
  if sub_u64 packet_time last_expire > expire_interval then
    (packet_time, expire_flows max_age packet_time t)
  else
    (last_expire, t)

/-- The answer of `pcap_next_ex` (line 95). -/
inductive next_ex where
  /-- The return value 1: a frame was read. -/
  | packet (f : frame)
  /-- The return value 0: the poll timed out. -/
  | timed_out
  /-- The return value -2: end of trace. -/
  | end_of_trace
  /-- The return value -1: read error. -/
  | failure

/-- What one call of `extract` receives from outside: the answers of libpcap
and of the file system, the bucket layout of `flows_`, the two draws from
`generator_`, and whether the build has `PCAP_TSTAMP_PRECISION_NANO`. -/
structure world where
  /-- The interface names of `pcap_findalldevs`, `none` when it returns -1. -/
  findalldevs : Option (List String)
  /-- Whether `pcap_open_live` returns a handle. -/
  open_live : Bool
  /-- Whether `exists(input_)` holds. -/
  input_exists : Bool
  /-- Whether `pcap_open_offline` returns a handle. -/
  open_offline : Bool
  /-- The answer of `pcap_next_ex`. -/
  next : next_ex
  /-- The value of `flows_.bucket_count()`. -/
  bucket_count : Nat
  /-- The hash value that places a key in its bucket. -/
  hash : connection → Nat
  /-- The draw `unif1(generator_)`. -/
  unif1 : Nat
  /-- The draw `unif2(generator_)`. -/
  unif2 : Nat
  /-- Whether `PCAP_TSTAMP_PRECISION_NANO` is defined. -/
  nano : Bool

/-- The number of buckets of a non-empty table: at least one. -/
def world.buckets (w : world) : Nat := max 1 w.bucket_count

/-- The elements of bucket `b`. -/
def world.bucket (w : world) (t : flow_table) (b : Nat) : flow_table :=
  t.filter (fun e => decide (w.hash e.1 % w.buckets = b))

/-- Lines 208-212: advance, cyclically, to the next non-empty bucket. -/
def next_nonempty (bucket_size : Nat → Nat) (buckets : Nat) : Nat → Nat → Nat
  | 0, bucket => bucket
  | fuel + 1, bucket =>
    if bucket_size bucket = 0 then next_nonempty bucket_size buckets fuel ((bucket + 1) % buckets)
    else bucket

/-- Lines 204-219: the element that the random choice erases. -/
def random_victim (w : world) (t : flow_table) : Option connection :=
  let buckets := w.buckets
  let bucket := next_nonempty (fun b => (w.bucket t b).length) buckets buckets (w.unif1 % buckets)
  let bucket_size := (w.bucket t bucket).length
  let offset := w.unif2 % bucket_size
  ((w.bucket t bucket).get? offset).map Prod.fst

/-- Lines 203-220: when the table is non-empty and its size is a multiple of
`max_flows_`, erase one element picked at random. `none` is the division by
zero of `flows_.size() % max_flows_`. -/
def capacity_step (max_flows : Nat) (w : world) (t : flow_table) : Option flow_table :=
  if t.isEmpty then
    some t
  else if max_flows = 0 then
    none
  else if t.length % max_flows = 0 then
    match random_victim w t with
    | some k => some (t.erase k)
    | none => some t
  else
    some t

/-! ## Events and pacing (lines 221-252) -/

/-- A field of the record `meta`. -/
inductive meta_field where
  | address (a : address)
  | port (p : port)
deriving DecidableEq, Repr

/-- The event of line 250: the record `packet` (the record `meta` and the
payload string) and the event timestamp in nanoseconds. -/
structure event where
  meta_record : List meta_field
  payload : List Nat
  timestamp : Int
deriving DecidableEq, Repr

/-- Observable side effects of a call besides its result. -/
inductive effect where
  /-- The warning "ignores pseudo-realtime in live mode". -/
  | warn_live_mode
  /-- The warning "encountered non-monotonic packet timestamps" with its two
  arguments `timestamp.count()` and `last_timestamp_.count()`. -/
  | warn_non_monotonic (timestamp last_timestamp : Int)
  /-- The call `std::this_thread::sleep_for(d)`, `d` in nanoseconds. -/
  | sleep_for (d : Int)
deriving DecidableEq, Repr

/-- The value of a signed 64-bit count: the counts of `std::chrono::seconds`,
`microseconds` and `nanoseconds` are 64-bit two's complement integers, and a
sum, difference or product of them is kept modulo `2 ^ 64`. -/
def wrap_i64 (x : Int) : Int := (x + 2 ^ 63) % 2 ^ 64 - 2 ^ 63

/-- Lines 232-238: `timestamp.count()`, the sum `s + sub` in the unit of `sub`,
nanoseconds with `PCAP_TSTAMP_PRECISION_NANO` and microseconds without; `s` is
converted to that unit first. -/
def packet_count (nano : Bool) (h : pcap_pkthdr) : Int :=
  if nano then wrap_i64 (wrap_i64 (h.tv_sec * 1000000000) + h.tv_usec)
  else wrap_i64 (wrap_i64 (h.tv_sec * 1000000) + h.tv_usec)

/-- Lines 232-238: `timestamp` in nanoseconds, as the comparison and the
difference with `last_timestamp_`, the assignment of line 248 and
`time::point{timestamp}` convert it. -/
def packet_timestamp (nano : Bool) (h : pcap_pkthdr) : Int :=
  if nano then packet_count nano h else wrap_i64 (packet_count nano h * 1000)

/-- Lines 239-249: the effects of pacing and the new `last_timestamp_`;
`timestamp` is in nanoseconds and `count` is `timestamp.count()`. -/
def pace (pseudo_realtime last_timestamp timestamp count : Int) : List effect × Int :=
  if pseudo_realtime > 0 then
    ((if timestamp < last_timestamp then [effect.warn_non_monotonic count last_timestamp]
      else []) ++
     (if last_timestamp ≠ 0 then
        [effect.sleep_for ((wrap_i64 (timestamp - last_timestamp)).tdiv pseudo_realtime)]
      else []),
     timestamp)
  else
    ([], last_timestamp)

/-! ## The source state and `extract` -/

/-- The members of `pcap_state` that `extract` reads or writes; `pcap_` is
whether the handle is non-null. -/
structure pcap_state where
  input_ : String
  cutoff_ : Nat
  max_flows_ : Nat
  max_age_ : Nat
  expire_interval_ : Nat
  pseudo_realtime_ : Int
  pcap_ : Bool
  done_ : Bool
  flows_ : flow_table
  last_expire_ : Nat
  last_timestamp_ : Int

/-- Behaviour that the language leaves undefined. -/
inductive undefined_behaviour where
  /-- The call `pcap_next_ex` on a null handle. -/
  | null_handle
  /-- The remainder `flows_.size() % max_flows_` with `max_flows_ = 0`. -/
  | division_by_zero
deriving DecidableEq, Repr

/-- How a call ends: it returns a `result<event>`, or it runs into undefined
behaviour. -/
inductive outcome where
  | returned (r : result event)
  | undefined (u : undefined_behaviour)
deriving DecidableEq, Repr

/-- A call of `extract`: the state it leaves, how it ends, and its effects. -/
structure step where
  state : pcap_state
  out : outcome
  effects : List effect

/-- Lines 48-93: open the interface or the trace on the first call. The left
side is an early return with an error. -/
def pcap_state.open_input (st : pcap_state) (w : world) :
    Except (pcap_state × error) (pcap_state × List effect) :=
  if !st.pcap_ && !st.done_ then
    match w.findalldevs with
    | none => .error (st, .enumerate_interfaces)
    | some ifaces =>
      if st.input_ ∈ ifaces then
        if !w.open_live then
          .error (st, .open_interface)
        else if st.pseudo_realtime_ > 0 then
          .ok ({ st with pcap_ := true, pseudo_realtime_ := 0 }, [effect.warn_live_mode])
        else
          .ok ({ st with pcap_ := true }, [])
      else if st.input_ ≠ "-" && !w.input_exists then
        .error (st, .no_such_file)
      else if !w.open_offline then
        .error ({ st with flows_ := [] }, .open_pcap_file)
      else
        .ok ({ st with pcap_ := true }, [])
  else
    .ok (st, [])

/-- The capture second of a frame as `uint64_t packet_time` (line 173). -/
def frame.packet_time (f : frame) : Nat := (f.header.tv_sec % 2 ^ 64).toNat

/-- Lines 174-175: `last_expire_` is initialised by the first packet time. -/
def init_last_expire (last_expire packet_time : Nat) : Nat :=
  if last_expire = 0 then packet_time else last_expire

/-- Lines 221-238 and 250-251: the event of a frame, its payload being the
`packet_size` bytes that start at `data + 14`. -/
def make_event (nano : Bool) (f : frame) (d : dissected) (packet_size : Nat) : event :=
  { meta_record := [meta_field.address d.conn.src, meta_field.address d.conn.dst,
      meta_field.port d.conn.sport, meta_field.port d.conn.dport],
    payload := f.slice 14 packet_size,
    timestamp := packet_timestamp nano f.header }

/-- Lines 108-253: what `extract` does with a frame that `pcap_next_ex` has
delivered. -/
def pcap_state.extract_packet (st : pcap_state) (w : world) (f : frame) : step :=
  match parse_packet f with
  | .empty => { state := st, out := .returned .empty, effects := [] }
  | .error e => { state := st, out := .returned (.error e), effects := [] }
  | .value d =>
    let packet_time := f.packet_time
    let last_expire := init_last_expire st.last_expire_ packet_time
    let flows := st.flows_.find_or_insert d.conn packet_time
    match account st.cutoff_ flows d with
    | none =>
      { state := { st with last_expire_ := last_expire, flows_ := flows },
        out := .returned .empty, effects := [] }
    | some a =>
      let swept := expire_step st.expire_interval_ st.max_age_ packet_time last_expire a.flows
      match capacity_step st.max_flows_ w swept.2 with
      | none =>
        { state := { st with last_expire_ := swept.1, flows_ := swept.2 },
          out := .undefined .division_by_zero, effects := [] }
      | some flows =>
        let e := make_event w.nano f d a.packet_size
        let paced := pace st.pseudo_realtime_ st.last_timestamp_ e.timestamp
          (packet_count w.nano f.header)
        { state := { st with last_expire_ := swept.1, flows_ := flows,
                             last_timestamp_ := paced.2 },
          out := .returned (.value e),
          effects := paced.1 }

/-- The function `pcap_state::extract` (lines 46-253). -/
def pcap_state.extract (st : pcap_state) (w : world) : step :=
  match st.open_input w with
  | .error (st, e) => { state := st, out := .returned (.error e), effects := [] }
  | .ok (st, effects) =>
    if !st.pcap_ then
      { state := st, out := .undefined .null_handle, effects := effects }
    else
      match w.next with
      | .timed_out => { state := st, out := .returned .empty, effects := effects }
      | .end_of_trace =>
        { state := { st with done_ := true }, out := .returned .empty, effects := effects }
      | .failure =>
        { state := { st with pcap_ := false, done_ := true },
          out := .returned (.error .next_packet), effects := effects }
      | .packet f =>
        let s := st.extract_packet w f
        { s with effects := effects ++ s.effects }

/-- Lines 255-265, the function `pcap`: the state of a freshly spawned source.
Modelled from the spec: the initial values of `pcap_`, `done_`, `flows_`,
`last_expire_` and `last_timestamp_`, which `vast/actor/source/pcap.hpp` (not
among the sources) declares. -/
def pcap (input : String) (cutoff max_flows max_age expire_interval : Nat)
    (pseudo_realtime : Int) : pcap_state :=
  { input_ := input, cutoff_ := cutoff % 2 ^ 64, max_flows_ := max_flows % 2 ^ 64,
    max_age_ := max_age % 2 ^ 64, expire_interval_ := expire_interval % 2 ^ 64,
    pseudo_realtime_ := pseudo_realtime, pcap_ := false, done_ := false, flows_ := [],
    last_expire_ := 0, last_timestamp_ := 0 }

/-- The calls of `extract` on a sequence of inputs, each call starting from
the state the previous one left. -/
def pcap_state.run (st : pcap_state) : List world → List step
  | [] => []
  | w :: ws => st.extract w :: pcap_state.run (st.extract w).state ws

/-- The state after the calls of `extract` on a sequence of inputs. -/
def pcap_state.after (st : pcap_state) : List world → pcap_state
  | [] => st
  | w :: ws => pcap_state.after (st.extract w).state ws

/-- The frame that a call parses, if it gets that far: the input is open after
lines 48-93 and `pcap_next_ex` delivers a frame. -/
def pcap_state.reads (st : pcap_state) (w : world) : Option frame :=
  match st.open_input w with
  | .error _ => none
  | .ok (st1, _) =>
    if st1.pcap_ then
      match w.next with
      | .packet f => some f
      | _ => none
    else none

/-- The byte count stored for `k`, if `k` has an entry. -/
def flow_table.bytes_seen (t : flow_table) (k : connection) : Option Nat :=
  (t.find k).map (fun s => s.bytes)

/-! ## Sample inputs -/

/-- An Ethernet frame with a 20-byte IPv4 header: wire length `len`, protocol
`proto`, `a` as last byte of the source address, `off` as byte 12 of the
transport header, captured at second `sec`; every other byte is zero. -/
def sample_frame (len proto a off : Nat) (sec : Int) : frame :=
  { header := { tv_sec := sec, tv_usec := 0, caplen := len, len := len },
    data := fun i =>
      if i = 12 then 0x08 else if i = 14 then 0x45 else if i = 23 then proto
      else if i = 29 then a else if i = 46 then off else 0 }

/-- An input that delivers the frame `f` from an open trace, with `n` buckets
and both random draws equal to `u`. -/
def sample_world (f : frame) (n u : Nat) : world :=
  { findalldevs := some [], open_live := false, input_exists := true, open_offline := true,
    next := .packet f, bucket_count := n, hash := fun k => k.src.bytes.sum,
    unif1 := u, unif2 := u, nano := true }

/-- The connection key of `sample_frame _ proto a _ _` when `proto` has the
port tag `t`. -/
def sample_conn (a : Nat) (t : port_type) : connection :=
  { src := ⟨.ipv4, [0, 0, 0, a]⟩, dst := ⟨.ipv4, [0, 0, 0, 0]⟩, sport := ⟨0, t⟩, dport := ⟨0, t⟩ }

/-- A source that reads from an open trace, with the given cutoff, capacity and
flow table, a maximal age of 60 s and an expiry interval of 10 s. -/
def sample_state (cutoff max_flows : Nat) (flows : flow_table) : pcap_state :=
  { input_ := "-", cutoff_ := cutoff, max_flows_ := max_flows, max_age_ := 60,
    expire_interval_ := 10, pseudo_realtime_ := 0, pcap_ := true, done_ := false,
    flows_ := flows, last_expire_ := 0, last_timestamp_ := 0 }

/-! ## The header fields that the parsing reads -/

/-- The 32-bit field `packet_header_->len`, the length on the wire. -/
def frame.wire_len (f : frame) : Nat := f.header.len % 2 ^ 32

/-- The EtherType: bytes 12 and 13 in network byte order. -/
def frame.ether_type (f : frame) : Nat := f.be16 12

/-- Whether the EtherType is that of IPv4 or of IPv6. -/
def frame.is_ip (f : frame) : Bool := decide (f.ether_type = 0x0800 ∨ f.ether_type = 0x86dd)

/-- The size of the IP header as the parsing takes it: `(first_byte & 0x0f) * 4`
for IPv4 and 40 for IPv6. -/
def frame.ip_header_size (f : frame) : Nat :=
  if f.ether_type = 0x0800 then (f.byte 14 &&& 0x0f) * 4 else 40

/-- The length checks of lines 120-124 and 134-135 fail: IPv4 with
`len < 14 + 20` or a header size below 20, or IPv6 with `len < 14 + 40`. -/
def frame.header_too_short (f : frame) : Bool :=
  decide ((f.ether_type = 0x0800 ∧ (f.wire_len < 34 ∨ (f.byte 14 &&& 0x0f) * 4 < 20)) ∨
    (f.ether_type = 0x86dd ∧ f.wire_len < 54))

/-- The transport protocol number: byte 9 of an IPv4 header, byte 6 (next
header) of an IPv6 header. -/
def frame.layer4_proto (f : frame) : Nat :=
  if f.ether_type = 0x0800 then f.byte (14 + 9) else f.byte (14 + 6)

/-- The offset of the transport header in the frame. -/
def frame.layer4 (f : frame) : Nat := 14 + f.ip_header_size

/-- The size of the transport header as the parsing takes it: the data offset
times 4 for TCP, 8 for UDP and for ICMP, 0 for any other protocol. -/
def frame.l4_header_size (f : frame) : Nat :=
  if f.layer4_proto = 6 then (f.byte (f.layer4 + 12) >>> 4) * 4
  else if f.layer4_proto = 17 then 8
  else if f.layer4_proto = 1 then 8
  else 0

/-- The connection with the addresses that lines 125-128 resp. 136-139 set and
default ports. -/
def frame.addresses (f : frame) : connection :=
  if f.ether_type = 0x0800 then
    { connection.default with src := address.from_network f (14 + 12) .ipv4,
                              dst := address.from_network f (14 + 16) .ipv4 }
  else
    { connection.default with src := address.from_network f (14 + 8) .ipv4,
                              dst := address.from_network f (14 + 24) .ipv4 }

/-- Whether an error is one of the three header-too-short errors. -/
def error.is_header_too_short : error → Bool
  | .ipv4_header_too_short => true
  | .ipv4_header_too_short_bytes _ => true
  | .ipv6_header_too_short => true
  | _ => false

/-- Whether a call returns an event. -/
def outcome.is_event : outcome → Bool
  | .returned (.value _) => true
  | _ => false

/-- Whether a call returns a header-too-short error. -/
def outcome.is_header_error : outcome → Bool
  | .returned (.error e) => e.is_header_too_short
  | _ => false

/-- The calls of a run: the state before each call and the input of the call. -/
def pcap_state.calls (st : pcap_state) : List world → List (pcap_state × world)
  | [] => []
  | w :: ws => (st, w) :: pcap_state.calls (st.extract w).state ws

/-- A call reads a frame whose EtherType is neither IPv4 nor IPv6. -/
def unknown_ether_type (c : pcap_state × world) : Bool :=
  match c.1.reads c.2 with
  | some f => !f.is_ip
  | none => false

/-- A call reads an IP frame that fails the header length checks. -/
def header_too_short (c : pcap_state × world) : Bool :=
  match c.1.reads c.2 with
  | some f => f.header_too_short
  | none => false

/-- A call reads a frame that passes the parsing and whose flow stands at the
cutoff after find-or-insert. -/
def dropped_by_cutoff (c : pcap_state × world) : Bool :=
  match c.1.reads c.2 with
  | some f =>
    match parse_packet f with
    | .value d =>
      decide ((c.1.flows_.find_or_insert d.conn f.packet_time).bytes_seen d.conn =
        some c.1.cutoff_)
    | _ => false
  | none => false

/-- A frame given by the bytes at some offsets, every other byte being zero. -/
def sample_bytes (bytes : List (Nat × Nat)) (len : Nat) (sec : Int) : frame :=
  { header := { tv_sec := sec, tv_usec := 0, caplen := len, len := len },
    data := fun i => (List.lookup i bytes).getD 0 }

/-- An ARP frame (EtherType 0x0806) of 42 bytes. -/
def sample_arp : frame := sample_bytes [(12, 0x08), (13, 0x06)] 42 10

/-- An IPv4 frame of 60 bytes whose first IP byte is 0x44: header size 16. -/
def sample_ihl4 : frame := sample_bytes [(12, 0x08), (14, 0x44), (23, 6)] 60 10

/-- An IPv6 frame of `len` bytes with next header `proto`, from
2001:db8::`a` to 2001:db8::`b`. -/
def sample_ipv6 (len proto a b : Nat) : frame :=
  sample_bytes [(12, 0x86), (13, 0xdd), (14, 0x60), (20, proto),
    (22, 0x20), (23, 0x01), (24, 0x0d), (25, 0xb8), (37, a),
    (38, 0x20), (39, 0x01), (40, 0x0d), (41, 0xb8), (53, b)] len 10

/-! ## Pacing and the end of the input, as seen by the caller -/

/-- The durations that a call passes to `std::this_thread::sleep_for`, in
order. -/
def sleeps (effs : List effect) : List Int :=
  effs.filterMap (fun e => match e with
    | .sleep_for d => some d
    | _ => none)

/-- The timestamp of the event that a call returns, if it returns one. -/
def step.timestamp (s : step) : Option Int :=
  match s.out with
  | .returned (.value ev) => some ev.timestamp
  | _ => none

/-- The timestamps of the events that a sequence of calls returns, in order. -/
def event_timestamps (steps : List step) : List Int := steps.filterMap step.timestamp

/-- A call that opens a live interface (lines 61-78): the input is not open
yet and `input_` is among the interface names. -/
def pcap_state.live (st : pcap_state) (w : world) : Bool :=
  !st.pcap_ && !st.done_ &&
    match w.findalldevs with
    | some ifaces => decide (st.input_ ∈ ifaces)
    | none => false

/-- A 142-byte TCP frame captured at `sec` seconds and `sub` nanoseconds. -/
def sample_timed (sec sub : Int) : frame :=
  { sample_frame 142 6 1 0x50 sec with
    header := { tv_sec := sec, tv_usec := sub, caplen := 142, len := 142 } }

/-- A source that reads from an open trace with the pacing factor `factor`,
cutoff 100000 and room for 4 flows. -/
def sample_paced (factor : Int) : pcap_state :=
  { sample_state 100000 4 [] with pseudo_realtime_ := factor }

/-- An input whose `pcap_next_ex` returns -1. -/
def sample_failure : world :=
  { sample_world (sample_frame 142 6 1 0x50 10) 8 0 with next := .failure }

/-- An input whose `pcap_next_ex` returns -2. -/
def sample_end : world :=
  { sample_world (sample_frame 142 6 1 0x50 10) 8 0 with next := .end_of_trace }

/-! ## The segmentizer (src/vast/sink/segmentizer.cc) -/

/-- Modelled from the spec: a segment id (section 3, a 128-bit identifier),
the value of `uuid::random()`; the class `uuid` is not among the sources. -/
abbrev uuid := Nat

/-- Modelled from the spec: the class `segment` (section 3; `vast/segment.h`
is not among the sources), an ordered collection of chunks identified by an
id, each chunk with its events in order. -/
structure segment where
  id : uuid
  chunks : List (List event)
deriving DecidableEq, Repr

/-- Modelled from the spec: the value of `segment::events()`, the number of
events in the segment. -/
def segment.events (s : segment) : Nat := (s.chunks.map List.length).sum

/-- The events of a segment in order. -/
def segment.contents (s : segment) : List event := s.chunks.flatten

/-- What the segmentizer sends to `upstream_`. -/
inductive message where
  /-- The message `(atom("statistics"), stats_.last())`. -/
  | statistics (rate : Nat)
  /-- The message `std::move(segment_)`. -/
  | segment (s : segment)
deriving DecidableEq, Repr

/-- The members of `segment::writer` that the segmentizer calls, as a
parameter: the class is not among the sources. The writer holds a pointer to
`segment_`, so each member gets the segment and hands back what it left of it;
`write` and `flush` also hand back their `bool`. -/
structure writer_ops (W : Type) where
  /-- The constructor `writer(&segment_, max_events_per_chunk, max_segment_size)`. -/
  create : Nat → Nat → W
  write : W → segment → event → Bool × W × segment
  flush : W → segment → Bool × W × segment
  attach_to : W → segment → W × segment

/-- The members `segment_` and `writer_` of the class `segmentizer`. -/
structure segmentizer (W : Type) where
  segment_ : segment
  writer_ : W

/-- What one call of `process` receives: the event, the answers of
`stats_.timed_add(1)` and `stats_.last()`, and the value of `uuid::random()`. -/
structure process_input where
  e : event
  timed_add : Bool
  last : Nat
  random : uuid

/-- What `before_exit` receives: the value of `uuid::random()` and whether the
build evaluates `assert`. -/
structure exit_input where
  random : uuid
  assertions : Bool

/-- How `before_exit` ends: the state, the messages sent, whether the error of
line 54 was logged and whether the assertion of line 56 failed. -/
structure exit_result (W : Type) where
  state : segmentizer W
  sent : List message
  error_logged : Bool
  assertion_failed : Bool

/-- The constructor (lines 11-19). -/
def segmentizer.create {W : Type} (ops : writer_ops W) (random : uuid)
    (max_events_per_chunk max_segment_size : Nat) : segmentizer W :=
  { segment_ := { id := random, chunks := [] },
    writer_ := ops.create max_events_per_chunk max_segment_size }

/-- The function `segmentizer::process` (lines 21-45): the state it leaves and
the messages it sends. -/
def segmentizer.process {W : Type} (ops : writer_ops W) (st : segmentizer W)
    (i : process_input) : segmentizer W × List message :=
  let written := ops.write st.writer_ st.segment_ i.e
  if written.1 then
    ({ segment_ := written.2.2, writer_ := written.2.1 },
      if i.timed_add && decide (i.last > 0) then [message.statistics i.last] else [])
  else
    let attached := ops.attach_to written.2.1 { id := i.random, chunks := [] }
    ({ segment_ := attached.2, writer_ := attached.1 }, [message.segment written.2.2])

/-- The function `segmentizer::before_exit` (lines 47-64). -/
def segmentizer.before_exit {W : Type} (ops : writer_ops W) (st : segmentizer W)
    (x : exit_input) : exit_result W :=
  let flushed := ops.flush st.writer_ st.segment_
  if flushed.1 then
    { state := { segment_ := flushed.2.2, writer_ := flushed.2.1 },
      sent := [message.segment flushed.2.2], error_logged := false,
      assertion_failed := false }
  else
    let attached := ops.attach_to flushed.2.1 { id := x.random, chunks := [] }
    let again := ops.flush attached.1 attached.2
    if x.assertions && decide (again.2.2.events = 0) then
      { state := { segment_ := again.2.2, writer_ := again.2.1 },
        sent := [], error_logged := !again.1, assertion_failed := true }
    else
      { state := { segment_ := again.2.2, writer_ := again.2.1 },
        sent := [message.segment again.2.2], error_logged := !again.1,
        assertion_failed := false }

/-- The calls of `process` on a sequence of inputs: the state they leave and
the messages they send, in order. -/
def segmentizer.run {W : Type} (ops : writer_ops W) (st : segmentizer W) :
    List process_input → segmentizer W × List message
  | [] => (st, [])
  | i :: rest =>
    let r := st.process ops i
    let r2 := segmentizer.run ops r.1 rest
    (r2.1, r.2 ++ r2.2)

/-- The messages of a whole life: the calls of `process`, then `before_exit`. -/
def segmentizer.lifetime {W : Type} (ops : writer_ops W) (st : segmentizer W)
    (inputs : List process_input) (x : exit_input) : List message :=
  let r := st.run ops inputs
  r.2 ++ (r.1.before_exit ops x).sent

/-- The segments among the messages, in sending order. -/
def sent_segments (msgs : List message) : List segment :=
  msgs.filterMap (fun m => match m with
    | .segment s => some s
    | _ => none)

/-- The events that the consumer receives: those of the segments sent, in
sending order. -/
def received (msgs : List message) : List event :=
  ((sent_segments msgs).map segment.contents).flatten

/-- Modelled from the spec: the state of `segment::writer` (section 4.5), the
growing chunk and the two parameters; `bytes` is the size of a chunk. -/
structure chunk_writer where
  chunk : List event
  max_events_per_chunk : Nat
  max_segment_size : Nat
  bytes : List event → Nat

/-- Modelled from the spec: the byte size of a segment, the sum of the sizes
of its chunks. -/
def chunk_writer.segment_bytes (w : chunk_writer) (s : segment) : Nat :=
  (s.chunks.map w.bytes).sum

/-- Modelled from the spec: `flush` seals the chunk and appends it to the
segment; it fails when the segment would exceed `max_segment_size`, and the
chunk then stays with the writer. -/
def chunk_writer.flush (w : chunk_writer) (s : segment) : Bool × chunk_writer × segment :=
  if w.chunk = [] then (true, w, s)
  else if w.segment_bytes s + w.bytes w.chunk ≤ w.max_segment_size then
    (true, { w with chunk := [] }, { s with chunks := s.chunks ++ [w.chunk] })
  else (false, w, s)

/-- Modelled from the spec: `write` appends the event to the growing chunk and
seals the chunk when it has reached `max_events_per_chunk` events; it returns
`false` when the sealed chunk does not fit the segment. -/
def chunk_writer.write (w : chunk_writer) (s : segment) (e : event) :
    Bool × chunk_writer × segment :=
  let w1 := { w with chunk := w.chunk ++ [e] }
  if w.max_events_per_chunk ≤ w1.chunk.length then w1.flush s else (true, w1, s)

/-- Modelled from the spec: `attach_to` points the writer to another segment;
a chunk that did not fit stays with the writer until the next sealing. -/
def chunk_writer.attach_to (w : chunk_writer) (s : segment) : chunk_writer × segment := (w, s)

/-- Modelled from the spec: the writer of section 4.5 for chunks of size
`bytes`. -/
def spec_writer (bytes : List event → Nat) : writer_ops chunk_writer :=
  { create := fun max_events_per_chunk max_segment_size =>
      { chunk := [], max_events_per_chunk := max_events_per_chunk,
        max_segment_size := max_segment_size, bytes := bytes },
    write := chunk_writer.write,
    flush := chunk_writer.flush,
    attach_to := chunk_writer.attach_to }

/-- An event whose payload is the single byte `n`. -/
def sample_event (n : Nat) : event := { meta_record := [], payload := [n], timestamp := 0 }

/-- A call of `process` for `sample_event n`, without a statistics message,
the next segment id being `100 + n`. -/
def sample_input (n : Nat) : process_input :=
  { e := sample_event n, timed_add := false, last := 0, random := 100 + n }

/-- A writer for which every event takes 10 bytes. -/
def sample_writer : writer_ops chunk_writer := spec_writer (fun c => 10 * c.length)

/-! ## Escaping (libvast/vast/util/string.hpp)

A string is the list of its bytes; an iterator range `[f, l)` is the list of
the bytes from `f` on. -/

/-- The character classes of `<cctype>` that the escapers use; they depend on
the locale. -/
structure ctype where
  isprint : Nat → Bool
  isxdigit : Nat → Bool
  isalnum : Nat → Bool

/-- The two functions of `vast/util/coding.hpp` that the escapers call, as a
parameter: the header is not among the sources. -/
structure coding where
  /-- The pair of hex digits of a byte. -/
  byte_to_hex : Nat → Nat × Nat
  /-- The byte of two hex digits. -/
  hex_to_byte : Nat → Nat → Nat

/-- Lines 20-29: `escape` calls the escaper until the input is used up. Every
escaper reads `*f` and advances `f` by one, so it is given by the characters
that it writes for `*f`. -/
def escape (escaper : Nat → List Nat) : List Nat → List Nat
  | [] => []
  | c :: rest => escaper c ++ escape escaper rest

/-- Lines 48-54: `hex_escaper` writes a backslash, `x` and the two hex digits. -/
def hex_escaper (cd : coding) (c : Nat) : List Nat :=
  [0x5c, 0x78, (cd.byte_to_hex c).1, (cd.byte_to_hex c).2]

/-- Lines 67-72: `print_escaper`. -/
def print_escaper (ct : ctype) (cd : coding) (c : Nat) : List Nat :=
  if ct.isprint c then [c] else hex_escaper cd c

/-- Lines 97-140: `json_escaper`; the cases of the switch are the double
quote, the backslash, and the characters 8, 12, 13, 10, 9. -/
def json_escaper (ct : ctype) (cd : coding) (c : Nat) : List Nat :=
  if c = 0x22 ∨ c = 0x5c then [0x5c, c]
  else if c = 8 then [0x5c, 0x62]
  else if c = 12 then [0x5c, 0x66]
  else if c = 13 then [0x5c, 0x72]
  else if c = 10 then [0x5c, 0x6e]
  else if c = 9 then [0x5c, 0x74]
  else if ct.isprint c then [c]
  else [0x5c, 0x75, 0x30, 0x30, (cd.byte_to_hex c).1, (cd.byte_to_hex c).2]

/-- Lines 207-209: `is_unreserved`, for the characters `-`, `_`, `.`, `~`. -/
def is_unreserved (ct : ctype) (c : Nat) : Bool :=
  ct.isalnum c || c = 0x2d || c = 0x5f || c = 0x2e || c = 0x7e

/-- Lines 206-218: `percent_escaper`. -/
def percent_escaper (ct : ctype) (cd : coding) (c : Nat) : List Nat :=
  if is_unreserved ct c then [c]
  else [0x25, (cd.byte_to_hex c).1, (cd.byte_to_hex c).2]

/-- Lines 230-236: `double_escaper(esc)`. -/
def double_escaper (esc : List Nat) (c : Nat) : List Nat :=
  if c ∈ esc then [c, c] else [c]

/-- How a call of an unescaper on `[f, l)` ends. -/
inductive unescaped where
  /-- It returns true, having written `out`, with `f` at `rest`. -/
  | ok (out : List Nat) (rest : List Nat)
  /-- It returns false. -/
  | failed
  /-- It dereferences an iterator at or past `l`. -/
  | past_end
deriving DecidableEq, Repr

/-- Lines 56-65: `hex_unescaper`. -/
def hex_unescaper (ct : ctype) (cd : coding) : List Nat → unescaped
  | [] => .past_end
  | [_] => .failed
  | hi :: lo :: rest =>
    if !ct.isxdigit hi || !ct.isxdigit lo then .failed
    else .ok [cd.hex_to_byte hi lo] rest

/-- Lines 74-86: `byte_unescaper`. -/
def byte_unescaper (ct : ctype) (cd : coding) : List Nat → unescaped
  | [] => .past_end
  | c :: cs =>
    if c ≠ 0x5c then .ok [c] cs
    else if (c :: cs).length < 4 then .failed
    else
      match cs with
      | [] => .past_end
      | x :: rest => if x ≠ 0x78 then .ok [x] rest else hex_unescaper ct cd rest

/-- Lines 142-204: `json_unescaper`. In the case `u` the test of line 181 is
`l - f < 4` with `f` at the `u`, and lines 184-187 read the four characters
after it. -/
def json_unescaper (ct : ctype) (cd : coding) : List Nat → unescaped
  | [] => .past_end
  | c :: cs =>
    if c = 0x22 then .failed
    else if c ≠ 0x5c then .ok [c] cs
    else if (c :: cs).length < 2 then .failed
    else
      match cs with
      | [] => .past_end
      | e :: rest =>
        if e = 0x5c then .ok [0x5c] rest
        else if e = 0x22 then .ok [0x22] rest
        else if e = 0x2f then .ok [0x2f] rest
        else if e = 0x62 then .ok [8] rest
        else if e = 0x66 then .ok [12] rest
        else if e = 0x72 then .ok [13] rest
        else if e = 0x6e then .ok [10] rest
        else if e = 0x74 then .ok [9] rest
        else if e = 0x75 then
          if (e :: rest).length < 4 then .failed
          else
            match rest with
            | b0 :: b1 :: b2 :: b3 :: rest4 =>
              if b0 ≠ 0x30 ∨ b1 ≠ 0x30 then .ok [0x5c, 0x75, b0, b1, b2, b3] rest4
              else if !ct.isxdigit b2 || !ct.isxdigit b3 then .failed
              else .ok [cd.hex_to_byte b2 b3] rest4
            | _ => .past_end
        else .failed

/-- Lines 220-228: `percent_unescaper`. -/
def percent_unescaper (ct : ctype) (cd : coding) : List Nat → unescaped
  | [] => .past_end
  | c :: cs =>
    if c ≠ 0x25 then .ok [c] cs
    else if (c :: cs).length < 3 then .failed
    else hex_unescaper ct cd cs

/-- Lines 238-251: `double_unescaper(esc)`. -/
def double_unescaper (esc : List Nat) : List Nat → unescaped
  | [] => .past_end
  | [x] => .ok [x] []
  | x :: y :: rest => .ok (x :: (if x = y ∧ x ∉ esc then [y] else [])) rest

/-- How `unescape` ends: with the result string, with the empty string of
line 44 after a failure, or in a read at or past the end. -/
inductive unescape_result where
  | value (s : List Nat)
  | failed
  | past_end
  | out_of_fuel
deriving DecidableEq, Repr

/-- The loop of lines 42-44, with `fuel` iterations at most. -/
def unescape_loop (unescaper : List Nat → unescaped) :
    Nat → List Nat → List Nat → unescape_result
  | _, [], result => .value result
  | 0, _ :: _, _ => .out_of_fuel
  | fuel + 1, c :: cs, result =>
    match unescaper (c :: cs) with
    | .ok out rest => unescape_loop unescaper fuel rest (result ++ out)
    | .failed => .failed
    | .past_end => .past_end

/-- Lines 35-46: `unescape`; every iteration that returns advances `f`, so
that `str.size()` iterations are enough. -/
def unescape (str : List Nat) (unescaper : List Nat → unescaped) : unescape_result :=
  unescape_loop unescaper str.length str []

/-- The string that `unescape` returns, when it returns. -/
def unescape_result.str : unescape_result → Option (List Nat)
  | .value s => some s
  | .failed => some []
  | _ => none

/-- The character classes of the "C" locale. -/
def c_locale : ctype :=
  { isprint := fun c => decide (0x20 ≤ c ∧ c ≤ 0x7e),
    isxdigit := fun c => decide ((0x30 ≤ c ∧ c ≤ 0x39) ∨ (0x41 ≤ c ∧ c ≤ 0x46) ∨
      (0x61 ≤ c ∧ c ≤ 0x66)),
    isalnum := fun c => decide ((0x30 ≤ c ∧ c ≤ 0x39) ∨ (0x41 ≤ c ∧ c ≤ 0x5a) ∨
      (0x61 ≤ c ∧ c ≤ 0x7a)) }

/-- The hex digit of a value below 16, in upper case. -/
def hex_digit (n : Nat) : Nat := if n < 10 then 0x30 + n else 0x41 + (n - 10)

/-- The value of a hex digit of either case. -/
def hex_value (c : Nat) : Nat :=
  if 0x30 ≤ c ∧ c ≤ 0x39 then c - 0x30
  else if 0x41 ≤ c ∧ c ≤ 0x46 then c - 0x41 + 10
  else c - 0x61 + 10

/-- Modelled from the spec: `byte_to_hex` and `hex_to_byte` of
`vast/util/coding.hpp`, by the comments of lines 253-281: the two hex digits
`AA` of a byte and the byte of two hex digits. -/
def hex_coding : coding :=
  { byte_to_hex := fun b => (hex_digit (b / 16 % 16), hex_digit (b % 16)),
    hex_to_byte := fun hi lo => hex_value hi * 16 + hex_value lo }

/-- What the escapers need of `byte_to_hex` and `hex_to_byte`: the two
characters of a byte are hex digits for `isxdigit`, and `hex_to_byte` gives
the byte back. -/
def coding.valid (cd : coding) (ct : ctype) : Prop :=
  ∀ b, b < 256 → ct.isxdigit (cd.byte_to_hex b).1 = true ∧
    ct.isxdigit (cd.byte_to_hex b).2 = true ∧
    cd.hex_to_byte (cd.byte_to_hex b).1 (cd.byte_to_hex b).2 = b

/-- The string consists of unreserved characters and of `%` followed by two
hex digits only. -/
def percent_clean (ct : ctype) : List Nat → Bool
  | [] => true
  | [c] => decide (c ≠ 0x25) && is_unreserved ct c
  | [c, d] => decide (c ≠ 0x25) && is_unreserved ct c && percent_clean ct [d]
  | c :: h1 :: h2 :: rest =>
    if c = 0x25 then ct.isxdigit h1 && ct.isxdigit h2 && percent_clean ct rest
    else is_unreserved ct c && percent_clean ct (h1 :: h2 :: rest)

/-- The bytes of a string of ASCII characters. -/
def bytes_of (s : String) : List Nat := s.toList.map Char.toNat

/-! ## Splitting and joining (lines 333-461) -/

/-- Lines 359-375: the separator starts at `i` and fits in the string: the
first character is compared at line 359, the others at lines 366-370. -/
def sep_at (str sep : List Nat) (i : Nat) : Bool := sep.isPrefixOf (str.drop i)

/-- Lines 377-389: the escape string is non-empty, shorter than `i - begin`,
and stands right in front of `i`. -/
def escaped_at (str esc : List Nat) (i : Nat) : Bool :=
  !esc.isEmpty && decide (esc.length < i) && esc.isPrefixOf (str.drop (i - esc.length))

/-- The loop of lines 357-397 from the state `(i, prev, splits, pos)`, with
`fuel` iterations at most: `prev` and `pos` when the loop is left. Iterators
are offsets from `begin`. -/
def split_loop (str sep esc : List Nat) (max_splits : Nat) (include_sep : Bool) :
    Nat → Nat → Nat → Nat → List (Nat × Nat) → Option (Nat × List (Nat × Nat))
  | fuel, i, prev, splits, pos =>
    if i = str.length then some (prev, pos)
    else
      match fuel with
      | 0 => none
      | fuel + 1 =>
        if !sep_at str sep i then
          split_loop str sep esc max_splits include_sep fuel (i + 1) prev splits pos
        else if escaped_at str esc i then
          split_loop str sep esc max_splits include_sep fuel (i + 1) prev splits pos
        else if splits = max_splits then some (prev, pos)
        else
          split_loop str sep esc max_splits include_sep fuel (i + sep.length) (i + sep.length)
            ((splits + 1) % 2 ^ 64)
            (pos ++ [(prev, i)] ++ (if include_sep then [(i, i + sep.length)] else []))

/-- Lines 347-401: `split`, the ranges `[start, end)` as pairs of offsets;
`none` when `str.size()` iterations do not end the loop. -/
def split (str sep esc : List Nat) (max_splits : Nat) (include_sep : Bool) :
    Option (List (Nat × Nat)) :=
  (split_loop str sep esc max_splits include_sep str.length 0 0 0 []).map
    (fun r => if r.1 ≠ str.length then r.2 ++ [(r.1, str.length)] else r.2)

/-- The characters of a range `[start, end)` of the string (line 418). -/
def substr (str : List Nat) (r : Nat × Nat) : List Nat := (str.drop r.1).take (r.2 - r.1)

/-- Lines 413-420: `to_strings`. -/
def to_strings (str : List Nat) (v : List (Nat × Nat)) : List (List Nat) := v.map (substr str)

/-- Lines 442-461: `join` with the identity as predicate. -/
def join (v : List (List Nat)) (sep : List Nat) : List Nat :=
  match v with
  | [] => []
  | x :: rest => rest.foldl (fun result y => result ++ (sep ++ y)) x

/-- The ranges are contiguous and in order from the offset `a` to the offset
`b`. -/
def contiguous : Nat → List (Nat × Nat) → Nat → Prop
  | a, [], b => a = b
  | a, r :: rest, b => r.1 = a ∧ r.1 ≤ r.2 ∧ contiguous r.2 rest b

/-- The value `size_t(-1)` of the default argument `max_splits`. -/
def unlimited : Nat := 2 ^ 64 - 1

/-! ## The byte parsers (libvast/vast/concept/parseable/numeric/byte.hpp)

The input is the list of the values of `*f`, the attribute an unsigned integer
of `width` bits. -/

/-- The value of `*f` for the byte `b` when `f` iterates over `char`, as the
iterators of `std::string` do, and `char` is signed: a byte above 0x7f is a
negative value. Through an iterator over `unsigned char` the value is `b`. -/
def char_value (b : Nat) : Int := if b < 128 then (b : Int) else (b : Int) - 256

/-- Lines 18-27: `extract<1>::parse`, `a |= *f++`, the value of `*f` being
converted to the type of `a`. -/
def extract_1 (width : Nat) (f : List Int) (a : Nat) : Option (List Int × Nat) :=
  match f with
  | [] => none
  | v :: rest => some (rest, a ||| (v % 2 ^ width).toNat)

/-- The statement `a <<= 8`. -/
def shl8 (width : Nat) (a : Nat) : Nat := (a <<< 8) % 2 ^ width

/-- Lines 29-38: `extract<2>::parse`. -/
def extract_2 (width : Nat) (f : List Int) (a : Nat) : Option (List Int × Nat) :=
  match extract_1 width f a with
  | none => none
  | some (f1, a1) => extract_1 width f1 (shl8 width a1)

/-- Lines 40-49: `extract<4>::parse`. -/
def extract_4 (width : Nat) (f : List Int) (a : Nat) : Option (List Int × Nat) :=
  match extract_2 width f a with
  | none => none
  | some (f1, a1) => extract_2 width f1 (shl8 width a1)

/-- Lines 51-60: `extract<8>::parse`. -/
def extract_8 (width : Nat) (f : List Int) (a : Nat) : Option (List Int × Nat) :=
  match extract_4 width f a with
  | none => none
  | some (f1, a1) => extract_4 width f1 (shl8 width a1)

/-- Lines 71-109: `byte_parser<T, Policy>::parse` for `T` of `n` bytes, `n`
one of 1, 2, 4, 8: the attribute starts at 0, and with the policy `swap` the
result goes through `byte_swap`. `none` is the return value false, which
leaves `f` alone. -/
def byte_parser_parse (n : Nat) (swap : Bool) (byte_swap : Nat → Nat) (f : List Int) :
    Option (List Int × Nat) :=
  let extracted :=
    if n = 1 then extract_1 8 f 0
    else if n = 2 then extract_2 16 f 0
    else if n = 4 then extract_4 32 f 0
    else extract_8 64 f 0
  match extracted with
  | none => none
  | some (rest, x) => some (rest, if swap then byte_swap x else x)

/-- The value of a sequence of bytes in network byte order. -/
def be_value (bytes : List Nat) : Nat := bytes.foldl (fun a b => a * 256 + b) 0

/-- The `n` bytes of a value, in network byte order. -/
def be_bytes : Nat → Nat → List Nat
  | 0, _ => []
  | n + 1, x => be_bytes n (x / 256) ++ [x % 256]

/-- Modelled from the spec: `detail::byte_swap` of `vast/detail/byte_swap.hpp`,
which is not among the sources, for a type of `n` bytes: it reverses the order
of the bytes of the value. -/
def byte_swap (n : Nat) (x : Nat) : Nat := be_value (be_bytes n x).reverse

/-! ## Lemmas on the flow table -/

theorem find_nil (k : connection) : flow_table.find [] k = none := rfl

theorem find_cons (e : connection × connection_state) (t : flow_table) (k : connection) :
    flow_table.find (e :: t) k = if k = e.1 then some e.2 else flow_table.find t k := by
  obtain ⟨k1, v⟩ := e
  by_cases h : k = k1
  · simp [flow_table.find, List.lookup, h]
  · have : (k == k1) = false := by simpa using h
    simp [flow_table.find, List.lookup, h, this]

theorem find_eq_none_iff (t : flow_table) (k : connection) :
    t.find k = none ↔ k ∉ t.keys := by
  induction t with
  | nil => simp [find_nil, flow_table.keys]
  | cons e t ih =>
    rw [find_cons]
    by_cases h : k = e.1
    · simp [h, flow_table.keys]
    · simp only [h, if_false, ih]
      simp [flow_table.keys, h]

theorem mem_of_find_eq_some {t : flow_table} {k : connection} {v : connection_state}
    (h : t.find k = some v) : (k, v) ∈ t := by
  induction t with
  | nil => simp [find_nil] at h
  | cons e t ih =>
    rw [find_cons] at h
    by_cases hk : k = e.1
    · simp only [hk, if_true, Option.some.injEq] at h
      subst h
      simp [hk]
    · simp only [hk, if_false] at h
      exact List.mem_cons_of_mem _ (ih h)

theorem find_eq_some_of_mem {t : flow_table} (hnd : t.keys.Nodup) {k : connection}
    {v : connection_state} (h : (k, v) ∈ t) : t.find k = some v := by
  induction t with
  | nil => simp at h
  | cons e t ih =>
    rw [find_cons]
    simp only [flow_table.keys, List.map_cons, List.nodup_cons] at hnd
    rcases List.mem_cons.1 h with h | h
    · subst h; simp
    · have hk : k ≠ e.1 := by
        intro hk
        exact hnd.1 (hk ▸ List.mem_map_of_mem Prod.fst h)
      simp only [hk, if_false]
      exact ih hnd.2 h

theorem find_map_update (t : flow_table) (k : connection)
    (g : connection_state → connection_state) (k1 : connection) :
    flow_table.find (t.map (fun e => if e.1 = k then (e.1, g e.2) else e)) k1 =
      if k1 = k then (t.find k1).map g else t.find k1 := by
  induction t with
  | nil => simp [find_nil]
  | cons e t ih =>
    simp only [List.map_cons, find_cons, ih]
    by_cases h1 : e.1 = k
    · by_cases h2 : k1 = k
      · simp [h1, h2]
      · have : k1 ≠ e.1 := by rw [h1]; exact h2
        simp [h1, h2, this]
    · by_cases h2 : k1 = k
      · have h3 : ¬ k = e.1 := fun h => h1 h.symm
        subst h2
        simp [h1, h3]
      · simp [h1, h2]

theorem keys_map_update (t : flow_table) (k : connection)
    (g : connection_state → connection_state) :
    flow_table.keys (t.map (fun e => if e.1 = k then (e.1, g e.2) else e)) = t.keys := by
  simp only [flow_table.keys, List.map_map]
  apply List.map_congr_left
  intro e _
  simp only [Function.comp]
  split <;> rfl

theorem find_append_single (t : flow_table) (k : connection) (v : connection_state)
    (k1 : connection) :
    flow_table.find (t ++ [(k, v)]) k1 =
      match t.find k1 with
      | some x => some x
      | none => if k1 = k then some v else none := by
  induction t with
  | nil => simp [find_nil, find_cons]
  | cons e t ih =>
    simp only [List.cons_append, find_cons, ih]
    by_cases h : k1 = e.1 <;> simp [h]


theorem mem_find_or_insert {t : flow_table} {k : connection} {time : Nat}
    {e : connection × connection_state} (h : e ∈ t.find_or_insert k time) :
    (∃ e0 ∈ t, e.1 = e0.1 ∧ e.2.bytes = e0.2.bytes) ∨ (e.1 = k ∧ e.2.bytes = 0) := by
  unfold flow_table.find_or_insert at h
  split at h
  · rcases List.mem_append.1 h with h | h
    · exact Or.inl ⟨e, h, rfl, rfl⟩
    · simp at h
      subst h
      exact Or.inr ⟨rfl, rfl⟩
  · obtain ⟨e0, he0, rfl⟩ := List.mem_map.1 h
    refine Or.inl ⟨e0, he0, ?_, ?_⟩ <;> split <;> rfl

theorem mem_set_bytes {t : flow_table} {k : connection} {b : Nat}
    {e : connection × connection_state} (h : e ∈ t.set_bytes k b) :
    e ∈ t ∨ e.2.bytes = b := by
  obtain ⟨e0, he0, rfl⟩ := List.mem_map.1 h
  by_cases hk : e0.1 = k
  · right; simp [hk]
  · left; simpa [hk] using he0

theorem mem_of_mem_erase {t : flow_table} {k : connection}
    {e : connection × connection_state} (h : e ∈ t.erase k) : e ∈ t :=
  (List.mem_filter.1 h).1

theorem mem_of_mem_expire_flows {max_age time : Nat} {t : flow_table}
    {e : connection × connection_state} (h : e ∈ expire_flows max_age time t) : e ∈ t :=
  (List.mem_filter.1 h).1

theorem mem_of_mem_expire_step {i m time le : Nat} {t : flow_table}
    {e : connection × connection_state} (h : e ∈ (expire_step i m time le t).2) : e ∈ t := by
  unfold expire_step at h
  split at h
  · exact mem_of_mem_expire_flows h
  · exact h

theorem mem_of_mem_capacity_step {m : Nat} {w : world} {t t1 : flow_table}
    (hc : capacity_step m w t = some t1) {e : connection × connection_state} (h : e ∈ t1) :
    e ∈ t := by
  unfold capacity_step at hc
  split_ifs at hc
  · simp at hc; subst hc; exact h
  · split at hc
    · simp at hc; subst hc; exact mem_of_mem_erase h
    · simp at hc; subst hc; exact h
  · simp at hc; subst hc; exact h

/-- The accounting of lines 182-191 never stores more than the cutoff. -/
theorem account_bounded {cutoff : Nat} {t : flow_table} {d : dissected} {a : accounted}
    (ha : account cutoff t d = some a) (ht : ∀ e ∈ t, e.2.bytes ≤ cutoff) :
    ∀ e ∈ a.flows, e.2.bytes ≤ cutoff := by
  unfold account at ha
  simp only at ha
  split_ifs at ha with h1 h2
  · simp at ha
    subst ha
    intro e he
    rcases mem_set_bytes he with h | h
    · exact ht e h
    · rw [h]; exact h2
  · simp at ha
    subst ha
    intro e he
    rcases mem_set_bytes he with h | h
    · exact ht e h
    · rw [h]

theorem find_or_insert_bounded {cutoff : Nat} {t : flow_table} (k : connection) (time : Nat)
    (ht : ∀ e ∈ t, e.2.bytes ≤ cutoff) :
    ∀ e ∈ t.find_or_insert k time, e.2.bytes ≤ cutoff := by
  intro e he
  rcases mem_find_or_insert he with ⟨e0, he0, _, hb⟩ | ⟨_, hb⟩
  · rw [hb]; exact ht e0 he0
  · rw [hb]; exact Nat.zero_le _


theorem find_find_or_insert_self (t : flow_table) (k : connection) (time : Nat) :
    (t.find_or_insert k time).find k =
      some { bytes := ((t.find k).map (fun s => s.bytes)).getD 0, last := time } := by
  unfold flow_table.find_or_insert
  cases h : t.find k with
  | none => simp [find_append_single, h]
  | some s =>
    have := find_map_update t k (fun s => { s with last := time }) k
    simp only [if_true, h, Option.map_some'] at this
    simpa using this

theorem find_find_or_insert_ne (t : flow_table) {k k1 : connection} (time : Nat) (h : k1 ≠ k) :
    (t.find_or_insert k time).find k1 = t.find k1 := by
  unfold flow_table.find_or_insert
  cases hk : t.find k with
  | none =>
    simp only [find_append_single, h, if_false]
    cases t.find k1 <;> rfl
  | some s =>
    have := find_map_update t k (fun s => { s with last := time }) k1
    simp only [h, if_false] at this
    exact this

theorem keys_find_or_insert (t : flow_table) (k : connection) (time : Nat) :
    (t.find_or_insert k time).keys = if k ∈ t.keys then t.keys else t.keys ++ [k] := by
  unfold flow_table.find_or_insert
  cases h : t.find k with
  | none =>
    have := (find_eq_none_iff t k).1 h
    simp only [this, if_false]
    simp [flow_table.keys]
  | some s =>
    have : k ∈ t.keys := by
      by_contra hc
      rw [(find_eq_none_iff t k).2 hc] at h
      simp at h
    simp only [this, if_true]
    exact keys_map_update t k (fun s => { s with last := time })

theorem length_find_or_insert (t : flow_table) (k : connection) (time : Nat) :
    (t.find_or_insert k time).length = if k ∈ t.keys then t.length else t.length + 1 := by
  have := congrArg List.length (keys_find_or_insert t k time)
  by_cases hk : k ∈ t.keys
  · rw [if_pos hk] at this ⊢
    simpa [flow_table.keys] using this
  · rw [if_neg hk] at this ⊢
    simpa [flow_table.keys] using this

theorem nodup_find_or_insert {t : flow_table} (k : connection) (time : Nat)
    (h : t.keys.Nodup) : (t.find_or_insert k time).keys.Nodup := by
  rw [keys_find_or_insert]
  split
  · exact h
  · rename_i hk
    exact List.Nodup.append h (List.nodup_singleton k) (by simpa using hk)

theorem mem_keys_find_or_insert (t : flow_table) (k : connection) (time : Nat) :
    k ∈ (t.find_or_insert k time).keys := by
  rw [keys_find_or_insert]
  split
  · assumption
  · simp

theorem keys_set_bytes (t : flow_table) (k : connection) (b : Nat) :
    (t.set_bytes k b).keys = t.keys :=
  keys_map_update t k (fun s => { s with bytes := b })

theorem find_set_bytes (t : flow_table) (k : connection) (b : Nat) (k1 : connection) :
    (t.set_bytes k b).find k1 =
      if k1 = k then (t.find k1).map (fun s => { s with bytes := b }) else t.find k1 :=
  find_map_update t k (fun s => { s with bytes := b }) k1

theorem keys_filter_sublist (t : flow_table) (p : connection × connection_state → Bool) :
    List.Sublist (flow_table.keys (t.filter p)) t.keys :=
  List.Sublist.map _ (List.filter_sublist t)

theorem nodup_erase {t : flow_table} (k : connection) (h : t.keys.Nodup) :
    (t.erase k).keys.Nodup :=
  List.Nodup.sublist (keys_filter_sublist t _) h

theorem nodup_expire_flows {t : flow_table} (max_age time : Nat) (h : t.keys.Nodup) :
    (expire_flows max_age time t).keys.Nodup :=
  List.Nodup.sublist (keys_filter_sublist t _) h

theorem nodup_expire_step {t : flow_table} (i m time le : Nat) (h : t.keys.Nodup) :
    (expire_step i m time le t).2.keys.Nodup := by
  unfold expire_step
  split
  · exact nodup_expire_flows _ _ h
  · exact h

/-- The accounting of lines 182-191 in terms of the byte count `b` that
find-or-insert left for the flow. -/
theorem account_eq (cutoff : Nat) (t : flow_table) (d : dissected) :
    account cutoff t d =
      if (t.bytes_seen d.conn).getD 0 = cutoff then none
      else if add_u64 ((t.bytes_seen d.conn).getD 0) d.payload_size ≤ cutoff then
        some { flows := t.set_bytes d.conn (add_u64 ((t.bytes_seen d.conn).getD 0) d.payload_size),
               packet_size := d.packet_size }
      else
        some { flows := t.set_bytes d.conn cutoff,
               packet_size := to_u32 (sub_u64 d.packet_size
                 (sub_u64 (add_u64 ((t.bytes_seen d.conn).getD 0) d.payload_size) cutoff)) } :=
  rfl

theorem account_keys {cutoff : Nat} {t : flow_table} {d : dissected} {a : accounted}
    (ha : account cutoff t d = some a) : a.flows.keys = t.keys := by
  rw [account_eq] at ha
  split_ifs at ha <;> simp only [Option.some.injEq] at ha <;> subst ha <;>
    exact keys_set_bytes _ _ _

theorem bytes_seen_find_or_insert_self (t : flow_table) (k : connection) (time : Nat) :
    (t.find_or_insert k time).bytes_seen k = some ((t.bytes_seen k).getD 0) := by
  simp [flow_table.bytes_seen, find_find_or_insert_self]

/-! ## The structure of a call -/

theorem open_input_ok {st st1 : pcap_state} {w : world} {effs : List effect}
    (h : st.open_input w = .ok (st1, effs)) :
    st1 = { st with pcap_ := st1.pcap_, pseudo_realtime_ := st1.pseudo_realtime_ } := by
  unfold pcap_state.open_input at h
  cases hf : w.findalldevs <;> simp only [hf] at h <;> split_ifs at h <;>
    simp only [Except.ok.injEq, Prod.mk.injEq, reduceCtorEq] at h <;>
    obtain ⟨rfl, _⟩ := h <;> rfl

theorem reads_eq_some {st : pcap_state} {w : world} {f : frame} (h : st.reads w = some f) :
    ∃ st1 effs, st.open_input w = .ok (st1, effs) ∧ st1.pcap_ = true ∧ w.next = .packet f := by
  unfold pcap_state.reads at h
  split at h
  · simp at h
  · rename_i st1 effs ho
    split_ifs at h with hp
    split at h
    · simp only [Option.some.injEq] at h
      subst h
      exact ⟨st1, effs, ho, hp, by assumption⟩
    · simp at h

/-- A call that parses the frame `f` is the frame part of `extract` run from a
state that differs from the given one in `pcap_` and `pseudo_realtime_` at most. -/
theorem extract_of_reads {st : pcap_state} {w : world} {f : frame} (h : st.reads w = some f) :
    ∃ st1 : pcap_state, st1 = { st with pcap_ := true, pseudo_realtime_ := st1.pseudo_realtime_ } ∧
      (st.extract w).state = (st1.extract_packet w f).state ∧
      (st.extract w).out = (st1.extract_packet w f).out := by
  obtain ⟨st1, effs, ho, hp, hn⟩ := reads_eq_some h
  refine ⟨st1, ?_, ?_, ?_⟩
  · have := open_input_ok ho
    rw [hp] at this
    exact this
  · unfold pcap_state.extract
    simp [ho, hp, hn]
  · unfold pcap_state.extract
    simp [ho, hp, hn]

/-- A dissected frame whose flow is at the cutoff: the call returns nothing and
the table is the one find-or-insert left. -/
theorem extract_dropped {st : pcap_state} {w : world} {f : frame} {d : dissected}
    (h : st.reads w = some f) (hd : parse_packet f = .value d)
    (ha : account st.cutoff_ (st.flows_.find_or_insert d.conn f.packet_time) d = none) :
    (st.extract w).state.flows_ = st.flows_.find_or_insert d.conn f.packet_time ∧
      (st.extract w).state.last_expire_ = init_last_expire st.last_expire_ f.packet_time ∧
      (st.extract w).out = .returned .empty := by
  obtain ⟨st1, h1, hs, ho⟩ := extract_of_reads h
  have hf : st1.flows_ = st.flows_ := by rw [h1]
  have hc : st1.cutoff_ = st.cutoff_ := by rw [h1]
  have hl : st1.last_expire_ = st.last_expire_ := by rw [h1]
  rw [hs, ho]
  unfold pcap_state.extract_packet
  simp only [hd, hf, hc, hl]
  simp only [ha]
  exact ⟨trivial, trivial, trivial⟩

/-- A dissected frame whose flow is below the cutoff: the state after the call
and its result in terms of the accounting, expiry and capacity steps. -/
theorem extract_accounted {st : pcap_state} {w : world} {f : frame} {d : dissected}
    {a : accounted} (h : st.reads w = some f) (hd : parse_packet f = .value d)
    (ha : account st.cutoff_ (st.flows_.find_or_insert d.conn f.packet_time) d = some a) :
    (st.extract w).state.flows_ =
        (capacity_step st.max_flows_ w
          (expire_step st.expire_interval_ st.max_age_ f.packet_time
            (init_last_expire st.last_expire_ f.packet_time) a.flows).2).getD
          (expire_step st.expire_interval_ st.max_age_ f.packet_time
            (init_last_expire st.last_expire_ f.packet_time) a.flows).2 ∧
      (st.extract w).state.last_expire_ =
        (expire_step st.expire_interval_ st.max_age_ f.packet_time
          (init_last_expire st.last_expire_ f.packet_time) a.flows).1 ∧
      (st.extract w).out =
        if (capacity_step st.max_flows_ w
          (expire_step st.expire_interval_ st.max_age_ f.packet_time
            (init_last_expire st.last_expire_ f.packet_time) a.flows).2).isSome
        then .returned (.value (make_event w.nano f d a.packet_size))
        else .undefined .division_by_zero := by
  obtain ⟨st1, h1, hs, ho⟩ := extract_of_reads h
  have hf : st1.flows_ = st.flows_ := by rw [h1]
  have hc : st1.cutoff_ = st.cutoff_ := by rw [h1]
  have hl : st1.last_expire_ = st.last_expire_ := by rw [h1]
  have hm : st1.max_flows_ = st.max_flows_ := by rw [h1]
  have he : st1.expire_interval_ = st.expire_interval_ := by rw [h1]
  have hg : st1.max_age_ = st.max_age_ := by rw [h1]
  rw [hs, ho]
  unfold pcap_state.extract_packet
  simp only [hd, hf, hc, hl, hm, he, hg]
  simp only [ha]
  split
  · rename_i hcs
    simp only [hcs]
    exact ⟨rfl, trivial, rfl⟩
  · rename_i t1 hcs
    simp only [hcs]
    exact ⟨rfl, trivial, rfl⟩

/-- A call that parses a frame leaves the configuration alone and the handle
open. -/
theorem extract_config {st : pcap_state} {w : world} {f : frame} (h : st.reads w = some f) :
    (st.extract w).state.cutoff_ = st.cutoff_ ∧ (st.extract w).state.max_flows_ = st.max_flows_ ∧
      (st.extract w).state.max_age_ = st.max_age_ ∧
      (st.extract w).state.expire_interval_ = st.expire_interval_ ∧
      (st.extract w).state.pcap_ = true := by
  obtain ⟨st1, h1, hs, _⟩ := extract_of_reads h
  have e1 : st1.cutoff_ = st.cutoff_ := by rw [h1]
  have e2 : st1.max_flows_ = st.max_flows_ := by rw [h1]
  have e3 : st1.max_age_ = st.max_age_ := by rw [h1]
  have e4 : st1.expire_interval_ = st.expire_interval_ := by rw [h1]
  have e5 : st1.pcap_ = true := by rw [h1]
  rw [hs, ← e1, ← e2, ← e3, ← e4]
  unfold pcap_state.extract_packet
  split
  · exact ⟨rfl, rfl, rfl, rfl, e5⟩
  · exact ⟨rfl, rfl, rfl, rfl, e5⟩
  · simp only
    split
    · exact ⟨rfl, rfl, rfl, rfl, e5⟩
    · split <;> exact ⟨rfl, rfl, rfl, rfl, e5⟩


/-- An early return of lines 48-93 leaves the state alone or clears the flow
table. -/
theorem open_input_error {st st1 : pcap_state} {w : world} {e : error}
    (h : st.open_input w = .error (st1, e)) :
    st1 = st ∨ st1 = { st with flows_ := [] } := by
  unfold pcap_state.open_input at h
  cases hf : w.findalldevs <;> simp only [hf] at h <;> split_ifs at h <;>
    simp only [Except.error.injEq, Prod.mk.injEq, reduceCtorEq] at h <;>
    obtain ⟨rfl, _⟩ := h <;> simp

/-- The frame part of `extract` keeps every byte count at or below the cutoff
and leaves the cutoff alone. -/
theorem extract_packet_bounded (st : pcap_state) (w : world) (f : frame)
    (h0 : ∀ e ∈ st.flows_, e.2.bytes ≤ st.cutoff_) :
    (st.extract_packet w f).state.cutoff_ = st.cutoff_ ∧
      ∀ e ∈ (st.extract_packet w f).state.flows_, e.2.bytes ≤ st.cutoff_ := by
  unfold pcap_state.extract_packet
  split
  · exact ⟨rfl, h0⟩
  · exact ⟨rfl, h0⟩
  · simp only
    split
    · exact ⟨rfl, find_or_insert_bounded _ _ h0⟩
    · rename_i a ha
      have hb := account_bounded ha (find_or_insert_bounded _ _ h0)
      split
      · exact ⟨rfl, fun e he => hb e (mem_of_mem_expire_step he)⟩
      · rename_i t1 hc
        exact ⟨rfl, fun e he => hb e (mem_of_mem_expire_step (mem_of_mem_capacity_step hc he))⟩

/-- One call of `extract` keeps every byte count at or below the cutoff. -/
theorem extract_bounded (st : pcap_state) (w : world)
    (h0 : ∀ e ∈ st.flows_, e.2.bytes ≤ st.cutoff_) :
    (st.extract w).state.cutoff_ = st.cutoff_ ∧
      ∀ e ∈ (st.extract w).state.flows_, e.2.bytes ≤ st.cutoff_ := by
  unfold pcap_state.extract
  split
  · rename_i st1 e h
    rcases open_input_error h with h1 | h1
    · subst h1; exact ⟨rfl, h0⟩
    · subst h1; exact ⟨rfl, by simp⟩
  · rename_i st1 effs h
    have h1 := open_input_ok h
    have hc : st1.cutoff_ = st.cutoff_ := by rw [h1]
    have hf : st1.flows_ = st.flows_ := by rw [h1]
    have h1 : ∀ e ∈ st1.flows_, e.2.bytes ≤ st1.cutoff_ := by rw [hc, hf]; exact h0
    split_ifs
    · exact ⟨hc, by rw [hf]; exact h0⟩
    · split
      · exact ⟨hc, by rw [hf]; exact h0⟩
      · exact ⟨hc, by rw [hf]; exact h0⟩
      · exact ⟨hc, by rw [hf]; exact h0⟩
      · rename_i f _
        have := extract_packet_bounded st1 w f h1
        simp only
        rw [← hc]
        exact ⟨this.1, this.2⟩

/-- C1: from a state whose flow table respects the cutoff (the empty table of
a fresh source does), after each call of `extract` in any sequence of calls,
whatever the frames are, every entry of the flow table has
`bytes <= cutoff_`. -/
theorem C1_bytes_seen_le_cutoff (st : pcap_state) (ws : List world)
    (h0 : ∀ e ∈ st.flows_, e.2.bytes ≤ st.cutoff_) :
    ∀ s ∈ st.run ws, ∀ e ∈ s.state.flows_, e.2.bytes ≤ st.cutoff_ := by
  induction ws generalizing st with
  | nil => intro s hs; simp [pcap_state.run] at hs
  | cons w ws ih =>
    intro s hs
    have hstep := extract_bounded st w h0
    simp only [pcap_state.run, List.mem_cons] at hs
    rcases hs with rfl | hs
    · exact hstep.2
    · have := ih (st.extract w).state (by rw [hstep.1]; exact hstep.2) s hs
      rw [hstep.1] at this
      exact this


/-- C1 (example): a fresh source with cutoff 1000 that reads three packets of
one flow, a frame whose TCP header is cut short, and a fourth packet. -/
theorem C1_bytes_seen_le_cutoff_witness :
    (∀ e ∈ (pcap "trace" 1000 4 60 10 0).flows_,
        e.2.bytes ≤ (pcap "trace" 1000 4 60 10 0).cutoff_) ∧
      ∀ s ∈ (pcap "trace" 1000 4 60 10 0).run
          [sample_world (sample_frame 454 6 1 0x50 10) 8 0,
            sample_world (sample_frame 454 6 1 0x50 10) 8 0,
            sample_world (sample_frame 454 6 1 0x50 10) 8 0,
            sample_world (sample_frame 48 6 2 0x50 10) 8 0,
            sample_world (sample_frame 454 6 1 0x50 10) 8 0],
        ∀ e ∈ s.state.flows_, e.2.bytes ≤ (pcap "trace" 1000 4 60 10 0).cutoff_ :=
  ⟨by simp [pcap], C1_bytes_seen_le_cutoff _ _ (by simp [pcap])⟩

/-! ## Accounting and the recorded length -/

theorem parse_layer4_packet_size (f : frame) (conn : connection) (ps pl proto l4 : Nat) :
    (parse_layer4 f conn ps pl proto l4).packet_size = ps := by
  unfold parse_layer4
  split_ifs <;> rfl

/-- A frame that passes the parsing has `packet_size = len - 14` as a 32-bit
value and a wire length of at least 34. -/
theorem parse_packet_packet_size {f : frame} {d : dissected} (hd : parse_packet f = .value d) :
    d.packet_size = sub_u32 f.header.len 14 ∧ 34 ≤ f.header.len % 2 ^ 32 := by
  unfold parse_packet at hd
  simp only at hd
  split_ifs at hd with h1 h2 h3 h4 h5
  · simp only [result.value.injEq] at hd
    rw [← hd, parse_layer4_packet_size]
    exact ⟨rfl, by omega⟩
  · simp only [result.value.injEq] at hd
    rw [← hd, parse_layer4_packet_size]
    exact ⟨rfl, by omega⟩

theorem packet_size_eq_len_sub {f : frame} {d : dissected} (hd : parse_packet f = .value d)
    (hlen : f.header.len < 2 ^ 32) :
    d.packet_size = f.header.len - 14 ∧ 34 ≤ f.header.len := by
  obtain ⟨h1, h2⟩ := parse_packet_packet_size hd
  rw [Nat.mod_eq_of_lt hlen] at h2
  refine ⟨?_, h2⟩
  rw [h1]
  unfold sub_u32
  norm_num at hlen ⊢
  omega

theorem length_slice (f : frame) (i n : Nat) : (f.slice i n).length = n := by
  simp [frame.slice]

theorem sub_u64_self (t : Nat) : sub_u64 t t = 0 := by
  unfold sub_u64
  have : t % 2 ^ 64 + 2 ^ 64 - t % 2 ^ 64 = 2 ^ 64 := by omega
  rw [this]
  exact Nat.mod_self _

theorem capacity_step_isSome {m : Nat} (hm : 0 < m) (w : world) (t : flow_table) :
    (capacity_step m w t).isSome = true := by
  unfold capacity_step
  have : m ≠ 0 := Nat.pos_iff_ne_zero.1 hm
  split_ifs
  · rfl
  · split <;> rfl
  · rfl

theorem mem_of_mem_capacity_getD {m : Nat} {w : world} {t : flow_table}
    {e : connection × connection_state} (h : e ∈ (capacity_step m w t).getD t) : e ∈ t := by
  cases hc : capacity_step m w t with
  | none => simpa [hc] using h
  | some t1 =>
    rw [hc] at h
    exact mem_of_mem_capacity_step hc h

theorem find_filter_of_forall (t : flow_table) (p : connection × connection_state → Bool)
    (k : connection) (hp : ∀ e ∈ t, e.1 = k → p e = true) :
    flow_table.find (t.filter p) k = t.find k := by
  induction t with
  | nil => rfl
  | cons e t ih =>
    have ih1 := ih (fun e1 he1 => hp e1 (List.mem_cons_of_mem _ he1))
    by_cases hk : k = e.1
    · have : p e = true := hp e (List.mem_cons_self _ _) hk.symm
      simp [List.filter_cons, this, find_cons, hk]
    · by_cases hpe : p e = true
      · simp [List.filter_cons, hpe, find_cons, hk, ih1]
      · simp [List.filter_cons, hpe, find_cons, hk, ih1]

theorem last_find_or_insert {t : flow_table} {k : connection} {time : Nat}
    {e : connection × connection_state} (h : e ∈ t.find_or_insert k time) (hk : e.1 = k) :
    e.2.last = time := by
  unfold flow_table.find_or_insert at h
  split at h
  · rename_i hn
    rcases List.mem_append.1 h with h | h
    · exact absurd (hk ▸ List.mem_map_of_mem Prod.fst h) ((find_eq_none_iff t k).1 hn)
    · simp only [List.mem_singleton] at h
      rw [h]
  · obtain ⟨e0, _, rfl⟩ := List.mem_map.1 h
    by_cases h0 : e0.1 = k
    · simp [h0]
    · simp [h0] at hk

theorem mem_set_bytes_iff {t : flow_table} {k : connection} {b : Nat}
    {e : connection × connection_state} (h : e ∈ t.set_bytes k b) :
    ∃ e0 ∈ t, e.1 = e0.1 ∧ e.2.last = e0.2.last ∧ (e.1 = k → e.2.bytes = b) := by
  obtain ⟨e0, he0, rfl⟩ := List.mem_map.1 h
  refine ⟨e0, he0, ?_⟩
  by_cases hk : e0.1 = k
  · simp [hk]
  · simp [hk]

/-- The accounting of a flow below the cutoff when `b + payload_size` does not
overflow: the new byte count and the recorded length. -/
theorem account_below {cutoff : Nat} {t : flow_table} {d : dissected} {b : Nat}
    (hb : (t.bytes_seen d.conn).getD 0 = b) (hlt : b < cutoff)
    (hsum : b + d.payload_size < 2 ^ 64) :
    account cutoff t d = some
      { flows := t.set_bytes d.conn (min cutoff (b + d.payload_size)),
        packet_size := if b + d.payload_size ≤ cutoff then d.packet_size
          else to_u32 (sub_u64 d.packet_size (b + d.payload_size - cutoff)) } := by
  have hadd : add_u64 b d.payload_size = b + d.payload_size := Nat.mod_eq_of_lt hsum
  rw [account_eq, hb, hadd, if_neg (Nat.ne_of_lt hlt)]
  by_cases h : b + d.payload_size ≤ cutoff
  · rw [if_pos h, if_pos h, Nat.min_eq_right h]
  · rw [if_neg h, if_neg h, Nat.min_eq_left (Nat.le_of_lt (Nat.lt_of_not_le h))]
    have : sub_u64 (b + d.payload_size) cutoff = b + d.payload_size - cutoff := by
      unfold sub_u64
      rw [Nat.mod_eq_of_lt hsum]
      have hc : cutoff < 2 ^ 64 := by omega
      rw [Nat.mod_eq_of_lt hc]
      have : b + d.payload_size + 2 ^ 64 - cutoff = (b + d.payload_size - cutoff) + 2 ^ 64 := by
        omega
      rw [this, Nat.add_mod_right]
      exact Nat.mod_eq_of_lt (by omega)
    rw [this]

/-- The trimmed length without wrap-around: when the overshoot is at most the
packet size, the 32-bit result is the plain difference. -/
theorem trimmed_length {ps x : Nat} (hps : ps < 2 ^ 32) (hx : x ≤ ps) :
    to_u32 (sub_u64 ps x) = ps - x := by
  unfold to_u32 sub_u64
  have h1 : ps % 2 ^ 64 = ps := Nat.mod_eq_of_lt (by omega)
  have h2 : x % 2 ^ 64 = x := Nat.mod_eq_of_lt (by omega)
  rw [h1, h2]
  have : ps + 2 ^ 64 - x = (ps - x) + 2 ^ 64 := by omega
  rw [this, Nat.add_mod_right, Nat.mod_eq_of_lt (by omega : ps - x < 2 ^ 64)]
  exact Nat.mod_eq_of_lt (by omega)

/-- A dissected frame whose flow is below the cutoff, in a source with
`max_flows_ >= 1`: the accounting result, the event, and what the table holds
for the flow after the expiry step and after the call. -/
theorem extract_below {st : pcap_state} {w : world} {f : frame} {d : dissected} {b : Nat}
    (h : st.reads w = some f) (hd : parse_packet f = .value d) (hm : 0 < st.max_flows_)
    (hb : (st.flows_.bytes_seen d.conn).getD 0 = b) (hlt : b < st.cutoff_)
    (hsum : b + d.payload_size < 2 ^ 64) :
    (st.extract w).out = .returned (.value (make_event w.nano f d
        (if b + d.payload_size ≤ st.cutoff_ then d.packet_size
          else to_u32 (sub_u64 d.packet_size (b + d.payload_size - st.cutoff_))))) ∧
      ((expire_step st.expire_interval_ st.max_age_ f.packet_time
          (init_last_expire st.last_expire_ f.packet_time)
          ((st.flows_.find_or_insert d.conn f.packet_time).set_bytes d.conn
            (min st.cutoff_ (b + d.payload_size)))).2.bytes_seen d.conn =
        some (min st.cutoff_ (b + d.payload_size))) ∧
      ((st.extract w).state.flows_.bytes_seen d.conn = some (min st.cutoff_ (b + d.payload_size)) ∨
        (st.extract w).state.flows_.bytes_seen d.conn = none) := by
  have hb0 : ((st.flows_.find_or_insert d.conn f.packet_time).bytes_seen d.conn).getD 0 = b := by
    rw [bytes_seen_find_or_insert_self]
    exact hb
  have ha := account_below (t := st.flows_.find_or_insert d.conn f.packet_time) hb0 hlt hsum
  obtain ⟨hf, _, ho⟩ := extract_accounted h hd ha
  simp only at hf ho
  have hall : ∀ e ∈ (st.flows_.find_or_insert d.conn f.packet_time).set_bytes d.conn
      (min st.cutoff_ (b + d.payload_size)), e.1 = d.conn →
      e.2.last = f.packet_time ∧ e.2.bytes = min st.cutoff_ (b + d.payload_size) := by
    intro e he hk
    obtain ⟨e0, he0, h1, h2, h3⟩ := mem_set_bytes_iff he
    exact ⟨by rw [h2]; exact last_find_or_insert he0 (h1 ▸ hk), h3 hk⟩
  refine ⟨?_, ?_, ?_⟩
  · rw [ho, capacity_step_isSome hm]
    rfl
  · unfold expire_step
    have hfind : flow_table.bytes_seen ((st.flows_.find_or_insert d.conn f.packet_time).set_bytes
        d.conn (min st.cutoff_ (b + d.payload_size))) d.conn =
        some (min st.cutoff_ (b + d.payload_size)) := by
      simp [flow_table.bytes_seen, find_set_bytes, find_find_or_insert_self]
    split
    · unfold expire_flows flow_table.bytes_seen
      rw [find_filter_of_forall]
      · exact hfind
      · intro e he hk
        rw [(hall e he hk).1, sub_u64_self]
        simp
    · exact hfind
  · cases hfd : flow_table.find (st.extract w).state.flows_ d.conn with
    | none => right; simp [flow_table.bytes_seen, hfd]
    | some v =>
      left
      have hmem0 := mem_of_find_eq_some hfd
      rw [hf] at hmem0
      have hmem := mem_of_mem_expire_step (mem_of_mem_capacity_getD hmem0)
      have := (hall _ hmem rfl).2
      simp only [flow_table.bytes_seen, hfd, Option.map_some']
      exact congrArg some this

/-! ## Claims on find-or-insert, the drop at the cutoff and the expiry step -/

/-- C3: if, after find-or-insert, the flow of a dissected frame has `bytes`
equal to `cutoff_`, then `extract` returns the empty result (no event and no
error) and the flow's `bytes` stays equal to `cutoff_`. -/
theorem C3_drop_at_cutoff (st : pcap_state) (w : world) (f : frame) (d : dissected)
    (h : st.reads w = some f) (hd : parse_packet f = .value d)
    (hb : (st.flows_.find_or_insert d.conn f.packet_time).bytes_seen d.conn = some st.cutoff_) :
    (st.extract w).out = .returned .empty ∧
      (st.extract w).state.flows_.bytes_seen d.conn = some st.cutoff_ := by
  have ha : account st.cutoff_ (st.flows_.find_or_insert d.conn f.packet_time) d = none := by
    rw [account_eq, hb]
    simp
  obtain ⟨hf, _, ho⟩ := extract_dropped h hd ha
  exact ⟨ho, by rw [hf]; exact hb⟩

/-- C3 (example): a fourth packet of a flow that stands at the cutoff 1000 is
dropped and the flow stays at 1000. -/
theorem C3_drop_at_cutoff_witness :
    (sample_state 1000 4 [(sample_conn 1 .tcp, ⟨1000, 10⟩)]).reads
        (sample_world (sample_frame 454 6 1 0x50 20) 8 0) = some (sample_frame 454 6 1 0x50 20) ∧
      ((sample_state 1000 4 [(sample_conn 1 .tcp, ⟨1000, 10⟩)]).extract
        (sample_world (sample_frame 454 6 1 0x50 20) 8 0)).out = .returned .empty ∧
      ((sample_state 1000 4 [(sample_conn 1 .tcp, ⟨1000, 10⟩)]).extract
        (sample_world (sample_frame 454 6 1 0x50 20) 8 0)).state.flows_.bytes_seen
          (sample_conn 1 .tcp) = some 1000 :=
  ⟨rfl, C3_drop_at_cutoff (sample_state 1000 4 [(sample_conn 1 .tcp, ⟨1000, 10⟩)])
    (sample_world (sample_frame 454 6 1 0x50 20) 8 0) (sample_frame 454 6 1 0x50 20)
    ⟨sample_conn 1 .tcp, 440, 400⟩ rfl (by decide) (by decide)⟩

/-- C6: for a dissected frame with key `k = d.conn` and capture second `t`,
find-or-insert (i) appends the entry `(k, bytes = 0, last = t)` when `k` has no
entry, (ii) sets `last` to `t` and keeps `bytes` when `k` has one, adding no
entry, (iii) leaves the entry of every other key as it was, and (iv) the
accounting of the call works on the table it produced. -/
theorem C6_find_or_insert (st : pcap_state) (w : world) (f : frame) (d : dissected)
    (h : st.reads w = some f) (hd : parse_packet f = .value d) :
    (st.flows_.find d.conn = none →
        st.flows_.find_or_insert d.conn f.packet_time =
          st.flows_ ++ [(d.conn, { bytes := 0, last := f.packet_time })] ∧
        (st.flows_.find_or_insert d.conn f.packet_time).find d.conn =
          some { bytes := 0, last := f.packet_time }) ∧
      (∀ s, st.flows_.find d.conn = some s →
        (st.flows_.find_or_insert d.conn f.packet_time).find d.conn =
          some { bytes := s.bytes, last := f.packet_time } ∧
        (st.flows_.find_or_insert d.conn f.packet_time).keys = st.flows_.keys) ∧
      (∀ k1, k1 ≠ d.conn →
        (st.flows_.find_or_insert d.conn f.packet_time).find k1 = st.flows_.find k1) ∧
      (account st.cutoff_ (st.flows_.find_or_insert d.conn f.packet_time) d = none →
        (st.extract w).state.flows_ = st.flows_.find_or_insert d.conn f.packet_time) ∧
      (∀ a, account st.cutoff_ (st.flows_.find_or_insert d.conn f.packet_time) d = some a →
        a.flows = (st.flows_.find_or_insert d.conn f.packet_time).set_bytes d.conn
          (min st.cutoff_ (add_u64 (((st.flows_.find d.conn).map (fun s => s.bytes)).getD 0)
            d.payload_size))) := by
  refine ⟨?_, ?_, ?_, ?_, ?_⟩
  · intro hn
    refine ⟨?_, ?_⟩
    · unfold flow_table.find_or_insert
      simp only [hn]
    · rw [find_find_or_insert_self, hn]
      rfl
  · intro s hs
    refine ⟨?_, ?_⟩
    · rw [find_find_or_insert_self, hs]
      rfl
    · rw [keys_find_or_insert]
      have : d.conn ∈ st.flows_.keys := by
        by_contra hc
        rw [(find_eq_none_iff _ _).2 hc] at hs
        simp at hs
      simp [this]
  · intro k1 hk
    exact find_find_or_insert_ne _ _ hk
  · intro ha
    exact (extract_dropped h hd ha).1
  · intro a ha
    rw [account_eq, bytes_seen_find_or_insert_self] at ha
    simp only [Option.getD_some, flow_table.bytes_seen] at ha
    split_ifs at ha with h1 h2
    · simp only [Option.some.injEq] at ha
      rw [← ha, Nat.min_eq_right h2]
    · simp only [Option.some.injEq] at ha
      rw [← ha, Nat.min_eq_left (Nat.le_of_lt (Nat.lt_of_not_le h2))]

/-- C6 (example): a packet at second 20 of a flow with 400 bytes last seen at
second 10 keeps the 400 bytes, sets `last` to 20 and adds no entry. -/
theorem C6_find_or_insert_witness :
    (sample_state 1000 4 [(sample_conn 1 .tcp, ⟨400, 10⟩)]).reads
        (sample_world (sample_frame 454 6 1 0x50 20) 8 0) = some (sample_frame 454 6 1 0x50 20) ∧
      ∀ s, flow_table.find [(sample_conn 1 .tcp, ⟨400, 10⟩)] (sample_conn 1 .tcp) = some s →
        (flow_table.find_or_insert [(sample_conn 1 .tcp, ⟨400, 10⟩)] (sample_conn 1 .tcp) 20).find
            (sample_conn 1 .tcp) = some { bytes := s.bytes, last := 20 } ∧
          (flow_table.find_or_insert [(sample_conn 1 .tcp, ⟨400, 10⟩)]
            (sample_conn 1 .tcp) 20).keys = [sample_conn 1 .tcp] :=
  ⟨rfl, (C6_find_or_insert (sample_state 1000 4 [(sample_conn 1 .tcp, ⟨400, 10⟩)])
    (sample_world (sample_frame 454 6 1 0x50 20) 8 0) (sample_frame 454 6 1 0x50 20)
    ⟨sample_conn 1 .tcp, 440, 400⟩ rfl (by decide)).2.1⟩

/-- C10: for a dissected frame that is not dropped, with capture second `t`
and `le` the value of `last_expire_` after its initialisation to `t` when it
was 0: if `t - le > expire_interval_` in 64-bit unsigned arithmetic, the sweep
runs on the accounted table and `last_expire_` becomes `t`; otherwise
`last_expire_` stays `le` and the capacity step receives the accounted table
with no entry removed. -/
theorem C10_expiry_step (st : pcap_state) (w : world) (f : frame) (d : dissected) (a : accounted)
    (h : st.reads w = some f) (hd : parse_packet f = .value d)
    (ha : account st.cutoff_ (st.flows_.find_or_insert d.conn f.packet_time) d = some a) :
    (sub_u64 f.packet_time (if st.last_expire_ = 0 then f.packet_time else st.last_expire_) >
        st.expire_interval_ →
      (st.extract w).state.last_expire_ = f.packet_time ∧
      (st.extract w).state.flows_ =
        (capacity_step st.max_flows_ w (expire_flows st.max_age_ f.packet_time a.flows)).getD
          (expire_flows st.max_age_ f.packet_time a.flows)) ∧
    (¬ sub_u64 f.packet_time (if st.last_expire_ = 0 then f.packet_time else st.last_expire_) >
        st.expire_interval_ →
      (st.extract w).state.last_expire_ =
        (if st.last_expire_ = 0 then f.packet_time else st.last_expire_) ∧
      (st.extract w).state.flows_ = (capacity_step st.max_flows_ w a.flows).getD a.flows) := by
  obtain ⟨hf, hl, _⟩ := extract_accounted h hd ha
  unfold expire_step init_last_expire at hf hl
  constructor
  · intro hc
    rw [if_pos hc] at hf hl
    exact ⟨hl, hf⟩
  · intro hc
    rw [if_neg hc] at hf hl
    exact ⟨hl, hf⟩

/-- C10 (example): with `expire_interval_ = 10` and `max_age_ = 60`, a packet at
second 100 after `last_expire_ = 5` runs the sweep, which removes the entry
last seen at second 10, and sets `last_expire_` to 100; a packet at second 20
in a source with `last_expire_ = 0` sets `last_expire_` to 20 and removes
nothing. -/
theorem C10_expiry_step_witness :
    (({ sample_state 1000 4 [(sample_conn 1 .tcp, ⟨400, 10⟩)] with last_expire_ := 5 }
          : pcap_state).extract
        (sample_world (sample_frame 454 6 2 0x50 100) 8 0)).state.last_expire_ = 100 ∧
      (({ sample_state 1000 4 [(sample_conn 1 .tcp, ⟨400, 10⟩)] with last_expire_ := 5 }
          : pcap_state).extract
        (sample_world (sample_frame 454 6 2 0x50 100) 8 0)).state.flows_ =
          [(sample_conn 2 .tcp, ⟨400, 100⟩)] ∧
      ((sample_state 1000 4 [(sample_conn 1 .tcp, ⟨400, 10⟩)]).extract
        (sample_world (sample_frame 454 6 2 0x50 20) 8 0)).state.last_expire_ = 20 ∧
      ((sample_state 1000 4 [(sample_conn 1 .tcp, ⟨400, 10⟩)]).extract
        (sample_world (sample_frame 454 6 2 0x50 20) 8 0)).state.flows_ =
          [(sample_conn 1 .tcp, ⟨400, 10⟩), (sample_conn 2 .tcp, ⟨400, 20⟩)] :=
  ⟨((C10_expiry_step
      { sample_state 1000 4 [(sample_conn 1 .tcp, ⟨400, 10⟩)] with last_expire_ := 5 }
      (sample_world (sample_frame 454 6 2 0x50 100) 8 0) (sample_frame 454 6 2 0x50 100)
      ⟨sample_conn 2 .tcp, 440, 400⟩
      ⟨[(sample_conn 1 .tcp, ⟨400, 10⟩), (sample_conn 2 .tcp, ⟨400, 100⟩)], 440⟩
      rfl (by decide) (by decide)).1 (by decide)).1,
    ((C10_expiry_step
      { sample_state 1000 4 [(sample_conn 1 .tcp, ⟨400, 10⟩)] with last_expire_ := 5 }
      (sample_world (sample_frame 454 6 2 0x50 100) 8 0) (sample_frame 454 6 2 0x50 100)
      ⟨sample_conn 2 .tcp, 440, 400⟩
      ⟨[(sample_conn 1 .tcp, ⟨400, 10⟩), (sample_conn 2 .tcp, ⟨400, 100⟩)], 440⟩
      rfl (by decide) (by decide)).1 (by decide)).2,
    ((C10_expiry_step (sample_state 1000 4 [(sample_conn 1 .tcp, ⟨400, 10⟩)])
      (sample_world (sample_frame 454 6 2 0x50 20) 8 0) (sample_frame 454 6 2 0x50 20)
      ⟨sample_conn 2 .tcp, 440, 400⟩
      ⟨[(sample_conn 1 .tcp, ⟨400, 10⟩), (sample_conn 2 .tcp, ⟨400, 20⟩)], 440⟩
      rfl (by decide) (by decide)).2 (by decide)).1,
    ((C10_expiry_step (sample_state 1000 4 [(sample_conn 1 .tcp, ⟨400, 10⟩)])
      (sample_world (sample_frame 454 6 2 0x50 20) 8 0) (sample_frame 454 6 2 0x50 20)
      ⟨sample_conn 2 .tcp, 440, 400⟩
      ⟨[(sample_conn 1 .tcp, ⟨400, 10⟩), (sample_conn 2 .tcp, ⟨400, 20⟩)], 440⟩
      rfl (by decide) (by decide)).2 (by decide)).2⟩

/-! ## Claims on the byte accounting and the recorded length -/

/-- C2 (counterexample): with `cutoff_ = 1000` and `max_flows_ = 1`, a new flow
(`b = 0`) with payload size 400 has no entry after `extract`, because the
capacity step of the same call evicts it; and for a 48-byte TCP frame whose
data offset claims a 20-byte TCP header (payload size `2 ^ 64 - 6`, no 64-bit
overflow of `b + p` with `b = 0`), the recorded length is 1040, which is not
`(wire_len - 14) - (b + p - cutoff)`. -/
theorem C2_counterexample :
    (parse_packet (sample_frame 454 6 1 0x50 10) = .value ⟨sample_conn 1 .tcp, 440, 400⟩ ∧
      ((sample_state 1000 1 []).flows_.bytes_seen (sample_conn 1 .tcp)).getD 0 = 0 ∧
      ((sample_state 1000 1 []).extract
          (sample_world (sample_frame 454 6 1 0x50 10) 8 0)).state.flows_.bytes_seen
            (sample_conn 1 .tcp) ≠ some (min 1000 (0 + 400))) ∧
    (parse_packet (sample_frame 48 6 1 0x50 10) =
        .value ⟨sample_conn 1 .tcp, 34, 18446744073709551610⟩ ∧
      0 + 18446744073709551610 < 2 ^ 64 ∧
      ¬ 0 + 18446744073709551610 ≤ 1000 ∧
      (∃ ev, ((sample_state 1000 4 []).extract
          (sample_world (sample_frame 48 6 1 0x50 10) 8 0)).out = .returned (.value ev) ∧
        ev.payload.length = 1040) ∧
      (1040 : Int) ≠ (48 - 14) - (0 + 18446744073709551610 - 1000)) := by
  refine ⟨⟨by decide, by decide, by decide⟩, by decide, by decide, by decide, ?_, by decide⟩
  exact ⟨make_event true (sample_frame 48 6 1 0x50 10)
    ⟨sample_conn 1 .tcp, 34, 18446744073709551610⟩ 1040, rfl,
    by simp only [make_event, length_slice]⟩

/-- C2 (amended): for a frame that passes dissection in a source with
`max_flows_ >= 1`, whose flow has prior byte count `b < cutoff_` (0 for a new
flow) and payload size `p` with `b + p < 2 ^ 64` and `p <= wire_len - 14`: the
accounting stores `min cutoff_ (b + p)` for the flow, the entry is still there
with that value after the expiry step, after `extract` the flow has that value
or no entry (the capacity step may evict it), and the event's payload has
length `wire_len - 14` when `b + p <= cutoff_` and
`(wire_len - 14) - (b + p - cutoff_)` otherwise. -/
theorem C2_accounting_and_length (st : pcap_state) (w : world) (f : frame) (d : dissected)
    (b : Nat) (h : st.reads w = some f) (hd : parse_packet f = .value d)
    (hm : 0 < st.max_flows_) (hlen : f.header.len < 2 ^ 32)
    (hb : (st.flows_.bytes_seen d.conn).getD 0 = b) (hlt : b < st.cutoff_)
    (hsum : b + d.payload_size < 2 ^ 64) (hfit : d.payload_size ≤ f.header.len - 14) :
    (∃ a, account st.cutoff_ (st.flows_.find_or_insert d.conn f.packet_time) d = some a ∧
        a.flows.bytes_seen d.conn = some (min st.cutoff_ (b + d.payload_size)) ∧
        (expire_step st.expire_interval_ st.max_age_ f.packet_time
          (init_last_expire st.last_expire_ f.packet_time) a.flows).2.bytes_seen d.conn =
            some (min st.cutoff_ (b + d.payload_size))) ∧
      ((st.extract w).state.flows_.bytes_seen d.conn = some (min st.cutoff_ (b + d.payload_size)) ∨
        (st.extract w).state.flows_.bytes_seen d.conn = none) ∧
      ∃ ev, (st.extract w).out = .returned (.value ev) ∧
        ev.payload.length =
          if b + d.payload_size ≤ st.cutoff_ then f.header.len - 14
          else (f.header.len - 14) - (b + d.payload_size - st.cutoff_) := by
  obtain ⟨ho, he, hf⟩ := extract_below h hd hm hb hlt hsum
  obtain ⟨hps, _⟩ := packet_size_eq_len_sub hd hlen
  have hb0 : ((st.flows_.find_or_insert d.conn f.packet_time).bytes_seen d.conn).getD 0 = b := by
    rw [bytes_seen_find_or_insert_self]
    exact hb
  refine ⟨⟨_, account_below hb0 hlt hsum, ?_, he⟩, hf, _, ho, ?_⟩
  · simp [flow_table.bytes_seen, find_set_bytes, find_find_or_insert_self]
  · simp only [make_event, length_slice]
    split_ifs with hc
    · exact hps
    · rw [trimmed_length (by rw [hps]; omega) (by rw [hps]; omega), hps]

/-- C2 (example): cutoff 1000, a flow at 800 and a packet of payload size 400
and packet size 440. -/
theorem C2_accounting_and_length_witness :
    (sample_state 1000 4 [(sample_conn 1 .tcp, ⟨800, 10⟩)]).reads
        (sample_world (sample_frame 454 6 1 0x50 10) 8 0) = some (sample_frame 454 6 1 0x50 10) ∧
      ∃ ev, ((sample_state 1000 4 [(sample_conn 1 .tcp, ⟨800, 10⟩)]).extract
          (sample_world (sample_frame 454 6 1 0x50 10) 8 0)).out = .returned (.value ev) ∧
        ev.payload.length = if 800 + 400 ≤ 1000 then 454 - 14 else (454 - 14) - (800 + 400 - 1000) :=
  ⟨rfl, (C2_accounting_and_length (sample_state 1000 4 [(sample_conn 1 .tcp, ⟨800, 10⟩)])
    (sample_world (sample_frame 454 6 1 0x50 10) 8 0) (sample_frame 454 6 1 0x50 10)
    ⟨sample_conn 1 .tcp, 440, 400⟩ 800 rfl (by decide) (by decide) (by decide) (by decide)
    (by decide) (by decide) (by decide)).2.2⟩

/-- C5 (counterexample): with `cutoff_ = 1000`, a flow at `b = 800` and a
454-byte TCP frame of payload size 400 (`b < cutoff_ < b + 400`), the payload
string of the emitted event has length 240, not `cutoff_ - b = 200`. -/
theorem C5_counterexample :
    parse_packet (sample_frame 454 6 1 0x50 10) = .value ⟨sample_conn 1 .tcp, 440, 400⟩ ∧
      flow_table.bytes_seen (sample_state 1000 4 [(sample_conn 1 .tcp, ⟨800, 10⟩)]).flows_
        (sample_conn 1 .tcp) = some 800 ∧
      (∃ ev, ((sample_state 1000 4 [(sample_conn 1 .tcp, ⟨800, 10⟩)]).extract
          (sample_world (sample_frame 454 6 1 0x50 10) 8 0)).out = .returned (.value ev) ∧
        ev.payload.length = 240) ∧
      240 ≠ 1000 - 800 := by
  refine ⟨by decide, by decide, ?_, by decide⟩
  exact ⟨make_event true (sample_frame 454 6 1 0x50 10) ⟨sample_conn 1 .tcp, 440, 400⟩ 240,
    rfl, by simp only [make_event, length_slice]⟩

/-- C5 (amended): when a packet would push its flow past the cutoff (prior byte
count `b < cutoff_ < b + p`, with `p <= wire_len - 14` and `max_flows_ >= 1`),
the emitted packet is truncated: the event's payload is the first
`(wire_len - 14 - p) + (cutoff_ - b)` bytes from offset 14 on, that is the
header bytes of the network and transport layer plus `cutoff_ - b` bytes, and
it is shorter than `wire_len - 14`. -/
theorem C5_truncated_length (st : pcap_state) (w : world) (f : frame) (d : dissected)
    (b : Nat) (h : st.reads w = some f) (hd : parse_packet f = .value d)
    (hm : 0 < st.max_flows_) (hlen : f.header.len < 2 ^ 32)
    (hb : (st.flows_.bytes_seen d.conn).getD 0 = b) (hlt : b < st.cutoff_)
    (hover : st.cutoff_ < b + d.payload_size) (hsum : b + d.payload_size < 2 ^ 64)
    (hfit : d.payload_size ≤ f.header.len - 14) :
    ∃ ev, (st.extract w).out = .returned (.value ev) ∧
      ev.payload = f.slice 14 ((f.header.len - 14 - d.payload_size) + (st.cutoff_ - b)) ∧
      ev.payload.length = (f.header.len - 14 - d.payload_size) + (st.cutoff_ - b) ∧
      ev.payload.length < f.header.len - 14 := by
  obtain ⟨ho, _, _⟩ := extract_below h hd hm hb hlt hsum
  obtain ⟨hps, _⟩ := packet_size_eq_len_sub hd hlen
  rw [if_neg (Nat.not_le_of_lt hover),
    trimmed_length (by rw [hps]; omega) (by rw [hps]; omega), hps] at ho
  have hn : f.header.len - 14 - (b + d.payload_size - st.cutoff_) =
      (f.header.len - 14 - d.payload_size) + (st.cutoff_ - b) := by omega
  rw [hn] at ho
  refine ⟨_, ho, rfl, ?_, ?_⟩
  · simp [make_event, length_slice]
  · simp only [make_event, length_slice]
    omega

/-- C5 (example): cutoff 1000, a flow at 800 and a packet of payload size 400
with 40 header bytes: the payload string has 40 + 200 bytes. -/
theorem C5_truncated_length_witness :
    (sample_state 1000 4 [(sample_conn 1 .tcp, ⟨800, 10⟩)]).reads
        (sample_world (sample_frame 454 6 1 0x50 10) 8 0) = some (sample_frame 454 6 1 0x50 10) ∧
      ∃ ev, ((sample_state 1000 4 [(sample_conn 1 .tcp, ⟨800, 10⟩)]).extract
          (sample_world (sample_frame 454 6 1 0x50 10) 8 0)).out = .returned (.value ev) ∧
        ev.payload = (sample_frame 454 6 1 0x50 10).slice 14 ((454 - 14 - 400) + (1000 - 800)) ∧
        ev.payload.length = (454 - 14 - 400) + (1000 - 800) ∧
        ev.payload.length < 454 - 14 :=
  ⟨rfl, C5_truncated_length (sample_state 1000 4 [(sample_conn 1 .tcp, ⟨800, 10⟩)])
    (sample_world (sample_frame 454 6 1 0x50 10) 8 0) (sample_frame 454 6 1 0x50 10)
    ⟨sample_conn 1 .tcp, 440, 400⟩ 800 rfl (by decide) (by decide) (by decide) (by decide)
    (by decide) (by decide) (by decide) (by decide)⟩

/-! ## The capacity step -/

/-- The probing of lines 208-212 ends on a non-empty bucket when one of the
next `fuel` buckets is non-empty. -/
theorem next_nonempty_ne_zero (size : Nat → Nat) (n : Nat) (hn : 0 < n) :
    ∀ (fuel b : Nat), b < n → (∃ j, j < fuel ∧ size ((b + j) % n) ≠ 0) →
      size (next_nonempty size n fuel b) ≠ 0 := by
  intro fuel
  induction fuel with
  | zero =>
    intro b _ hj
    obtain ⟨j, hj, _⟩ := hj
    exact absurd hj (Nat.not_lt_zero j)
  | succ fuel ih =>
    intro b hb hj
    unfold next_nonempty
    by_cases hs : size b = 0
    · rw [if_pos hs]
      obtain ⟨j, hj, hne⟩ := hj
      cases j with
      | zero =>
        rw [Nat.add_zero, Nat.mod_eq_of_lt hb] at hne
        exact absurd hs hne
      | succ j =>
        apply ih _ (Nat.mod_lt _ hn)
        refine ⟨j, Nat.lt_of_succ_lt_succ hj, ?_⟩
        have : ((b + 1) % n + j) % n = (b + (j + 1)) % n := by
          rw [Nat.mod_add_mod]
          congr 1
          omega
        rw [this]
        exact hne
    · rw [if_neg hs]
      exact hs

/-- From every start, a given bucket is among the next `n` buckets. -/
theorem exists_offset {n b x : Nat} (hb : b < n) (hx : x < n) :
    ∃ j, j < n ∧ (b + j) % n = x := by
  by_cases h : b ≤ x
  · refine ⟨x - b, by omega, ?_⟩
    have : b + (x - b) = x := by omega
    rw [this, Nat.mod_eq_of_lt hx]
  · refine ⟨x + n - b, by omega, ?_⟩
    have : b + (x + n - b) = x + n := by omega
    rw [this, Nat.add_mod_right, Nat.mod_eq_of_lt hx]

theorem buckets_pos (w : world) : 0 < w.buckets := by
  unfold world.buckets
  omega

/-- On a non-empty table the random choice of lines 204-219 yields the key of
an entry of the table. -/
theorem random_victim_some (w : world) {t : flow_table} (ht : t ≠ []) :
    ∃ e ∈ t, random_victim w t = some e.1 := by
  obtain ⟨e0, he0⟩ := List.exists_mem_of_ne_nil t ht
  have hn := buckets_pos w
  have hstart : w.unif1 % w.buckets < w.buckets := Nat.mod_lt _ hn
  have hx : w.hash e0.1 % w.buckets < w.buckets := Nat.mod_lt _ hn
  obtain ⟨j, hj, hjx⟩ := exists_offset hstart hx
  have hne : (w.bucket t (next_nonempty (fun b => (w.bucket t b).length) w.buckets w.buckets
      (w.unif1 % w.buckets))).length ≠ 0 := by
    apply next_nonempty_ne_zero (fun b => (w.bucket t b).length) w.buckets hn _ _ hstart
    refine ⟨j, hj, ?_⟩
    simp only [hjx]
    apply Nat.ne_of_gt
    apply List.length_pos_of_mem (a := e0)
    unfold world.bucket
    simp [List.mem_filter, he0]
  have hoff : w.unif2 % (w.bucket t (next_nonempty (fun b => (w.bucket t b).length) w.buckets
      w.buckets (w.unif1 % w.buckets))).length <
      (w.bucket t (next_nonempty (fun b => (w.bucket t b).length) w.buckets w.buckets
      (w.unif1 % w.buckets))).length := Nat.mod_lt _ (Nat.pos_of_ne_zero hne)
  refine ⟨(w.bucket t (next_nonempty (fun b => (w.bucket t b).length) w.buckets w.buckets
      (w.unif1 % w.buckets))).get ⟨_, hoff⟩, ?_, ?_⟩
  · have := List.get_mem (w.bucket t (next_nonempty (fun b => (w.bucket t b).length) w.buckets
      w.buckets (w.unif1 % w.buckets))) _ hoff
    exact (List.mem_filter.1 this).1
  · unfold random_victim
    simp only
    rw [List.get?_eq_get hoff]
    rfl

/-- In a table with pairwise distinct keys, erasing the key of an entry takes
out that entry and nothing else. -/
theorem erase_eq_of_mem {t : flow_table} (hnd : t.keys.Nodup)
    {e : connection × connection_state} (he : e ∈ t) :
    ∃ l1 l2, t = l1 ++ e :: l2 ∧ t.erase e.1 = l1 ++ l2 := by
  obtain ⟨l1, l2, rfl⟩ := List.append_of_mem he
  refine ⟨l1, l2, rfl, ?_⟩
  have hk : flow_table.keys (l1 ++ e :: l2) =
      flow_table.keys l1 ++ e.1 :: flow_table.keys l2 := by
    simp [flow_table.keys]
  rw [hk, List.nodup_middle, List.nodup_cons] at hnd
  have hnot : ∀ x ∈ l1 ++ l2, x.1 ≠ e.1 := by
    intro x hx hxe
    apply hnd.1
    rw [← hxe]
    have : x.1 ∈ flow_table.keys (l1 ++ l2) := List.mem_map_of_mem Prod.fst hx
    simpa [flow_table.keys] using this
  unfold flow_table.erase
  rw [List.filter_append, List.filter_cons]
  have h1 : l1.filter (fun x => decide (x.1 ≠ e.1)) = l1 :=
    List.filter_eq_self.2 (fun x hx => by simpa using hnot x (List.mem_append_left _ hx))
  have h2 : l2.filter (fun x => decide (x.1 ≠ e.1)) = l2 :=
    List.filter_eq_self.2 (fun x hx => by simpa using hnot x (List.mem_append_right _ hx))
  rw [h1, h2]
  simp

/-- The capacity step with `max_flows >= 1` on a table with pairwise distinct
keys: one entry goes when the table is non-empty and its size is a multiple of
`max_flows`, none otherwise. -/
theorem capacity_step_eq {m : Nat} (hm : 0 < m) (w : world) {t : flow_table}
    (hnd : t.keys.Nodup) :
    (t ≠ [] ∧ t.length % m = 0 →
      ∃ l1 e l2, t = l1 ++ e :: l2 ∧ capacity_step m w t = some (l1 ++ l2)) ∧
    (¬ (t ≠ [] ∧ t.length % m = 0) → capacity_step m w t = some t) := by
  have hm0 : m ≠ 0 := Nat.pos_iff_ne_zero.1 hm
  constructor
  · rintro ⟨hne, hmod⟩
    obtain ⟨e, he, hv⟩ := random_victim_some w hne
    obtain ⟨l1, l2, h1, h2⟩ := erase_eq_of_mem hnd he
    refine ⟨l1, e, l2, h1, ?_⟩
    unfold capacity_step
    have : t.isEmpty = false := by
      cases t with
      | nil => exact absurd rfl hne
      | cons _ _ => rfl
    simp only [this, hm0, hmod, hv, if_true, if_false, h2]
    simp
  · intro hc
    unfold capacity_step
    by_cases he : t = []
    · subst he
      rfl
    · have : t.isEmpty = false := by
        cases t with
        | nil => exact absurd rfl he
        | cons _ _ => rfl
      have hmod : ¬ t.length % m = 0 := fun hmod => hc ⟨he, hmod⟩
      simp [this, hm0, hmod]

theorem nodup_account {cutoff : Nat} {t : flow_table} {d : dissected} {a : accounted}
    (ha : account cutoff t d = some a) (hnd : t.keys.Nodup) : a.flows.keys.Nodup := by
  rw [account_keys ha]
  exact hnd

/-- C8: at the capacity step of a packet that is not dropped, in a source with
`max_flows_ >= 1` whose table has pairwise distinct keys: if the table `T` that
the expiry step left is non-empty and its size is a multiple of `max_flows_`,
then exactly one entry is removed and every other entry stays as it is
(`T = l1 ++ e :: l2` and the table after the call is `l1 ++ l2`), so the size
afterwards is `n * max_flows_ - 1` for some `n >= 1`; if the condition is
false, the table after the call is `T`. -/
theorem C8_capacity_eviction (st : pcap_state) (w : world) (f : frame) (d : dissected)
    (a : accounted) (h : st.reads w = some f) (hd : parse_packet f = .value d)
    (ha : account st.cutoff_ (st.flows_.find_or_insert d.conn f.packet_time) d = some a)
    (hm : 0 < st.max_flows_) (hnd : st.flows_.keys.Nodup) :
    ((expire_step st.expire_interval_ st.max_age_ f.packet_time
          (init_last_expire st.last_expire_ f.packet_time) a.flows).2 ≠ [] ∧
        (expire_step st.expire_interval_ st.max_age_ f.packet_time
          (init_last_expire st.last_expire_ f.packet_time) a.flows).2.length %
            st.max_flows_ = 0 →
      ∃ l1 e l2,
        (expire_step st.expire_interval_ st.max_age_ f.packet_time
          (init_last_expire st.last_expire_ f.packet_time) a.flows).2 = l1 ++ e :: l2 ∧
        (st.extract w).state.flows_ = l1 ++ l2 ∧
        ∃ n, 0 < n ∧ (st.extract w).state.flows_.length = n * st.max_flows_ - 1) ∧
    (¬ ((expire_step st.expire_interval_ st.max_age_ f.packet_time
          (init_last_expire st.last_expire_ f.packet_time) a.flows).2 ≠ [] ∧
        (expire_step st.expire_interval_ st.max_age_ f.packet_time
          (init_last_expire st.last_expire_ f.packet_time) a.flows).2.length %
            st.max_flows_ = 0) →
      (st.extract w).state.flows_ =
        (expire_step st.expire_interval_ st.max_age_ f.packet_time
          (init_last_expire st.last_expire_ f.packet_time) a.flows).2) := by
  obtain ⟨hf, _, _⟩ := extract_accounted h hd ha
  have hnd2 := nodup_expire_step st.expire_interval_ st.max_age_ f.packet_time
    (init_last_expire st.last_expire_ f.packet_time)
    (nodup_account ha (nodup_find_or_insert d.conn f.packet_time hnd))
  obtain ⟨h1, h2⟩ := capacity_step_eq hm w hnd2
  constructor
  · intro hc
    obtain ⟨l1, e, l2, he, hcs⟩ := h1 hc
    rw [hcs, Option.getD_some] at hf
    refine ⟨l1, e, l2, he, hf, ?_⟩
    obtain ⟨n, hn⟩ := Nat.dvd_of_mod_eq_zero hc.2
    have hlen : (l1 ++ e :: l2).length = st.max_flows_ * n := by rw [← he]; exact hn
    refine ⟨n, ?_, ?_⟩
    · rcases Nat.eq_zero_or_pos n with h0 | h0
      · rw [h0] at hlen
        simp at hlen
      · exact h0
    · rw [hf, Nat.mul_comm n]
      simp only [List.length_append, List.length_cons] at hlen ⊢
      omega
  · intro hc
    rw [h2 hc, Option.getD_some] at hf
    exact hf

/-- C8 (example): `max_flows_ = 4`, three entries and a packet of a fourth
flow: one of the four entries goes and 3 = 1 * 4 - 1 are left. -/
theorem C8_capacity_eviction_witness :
    (sample_state 1000 4 [(sample_conn 1 .tcp, ⟨400, 10⟩), (sample_conn 2 .tcp, ⟨400, 10⟩),
        (sample_conn 3 .tcp, ⟨400, 10⟩)]).reads
        (sample_world (sample_frame 454 6 4 0x50 10) 8 3) = some (sample_frame 454 6 4 0x50 10) ∧
      ∃ l1 e l2,
        [(sample_conn 1 .tcp, (⟨400, 10⟩ : connection_state)), (sample_conn 2 .tcp, ⟨400, 10⟩),
          (sample_conn 3 .tcp, ⟨400, 10⟩), (sample_conn 4 .tcp, ⟨400, 10⟩)] = l1 ++ e :: l2 ∧
        ((sample_state 1000 4 [(sample_conn 1 .tcp, ⟨400, 10⟩), (sample_conn 2 .tcp, ⟨400, 10⟩),
          (sample_conn 3 .tcp, ⟨400, 10⟩)]).extract
            (sample_world (sample_frame 454 6 4 0x50 10) 8 3)).state.flows_ = l1 ++ l2 ∧
        ∃ n, 0 < n ∧
          ((sample_state 1000 4 [(sample_conn 1 .tcp, ⟨400, 10⟩), (sample_conn 2 .tcp, ⟨400, 10⟩),
            (sample_conn 3 .tcp, ⟨400, 10⟩)]).extract
              (sample_world (sample_frame 454 6 4 0x50 10) 8 3)).state.flows_.length = n * 4 - 1 :=
  ⟨rfl, (C8_capacity_eviction
    (sample_state 1000 4 [(sample_conn 1 .tcp, ⟨400, 10⟩), (sample_conn 2 .tcp, ⟨400, 10⟩),
      (sample_conn 3 .tcp, ⟨400, 10⟩)])
    (sample_world (sample_frame 454 6 4 0x50 10) 8 3) (sample_frame 454 6 4 0x50 10)
    ⟨sample_conn 4 .tcp, 440, 400⟩
    ⟨[(sample_conn 1 .tcp, ⟨400, 10⟩), (sample_conn 2 .tcp, ⟨400, 10⟩),
      (sample_conn 3 .tcp, ⟨400, 10⟩), (sample_conn 4 .tcp, ⟨400, 10⟩)], 440⟩
    rfl (by decide) (by decide) (by decide) (by decide)).1 (by decide)⟩

/-! ## The keys of the flow table stay pairwise distinct -/

theorem nodup_capacity_step {m : Nat} {w : world} {t t1 : flow_table}
    (hc : capacity_step m w t = some t1) (hnd : t.keys.Nodup) : t1.keys.Nodup := by
  unfold capacity_step at hc
  split_ifs at hc
  · simp only [Option.some.injEq] at hc; rw [← hc]; exact hnd
  · split at hc
    · simp only [Option.some.injEq] at hc; rw [← hc]; exact nodup_erase _ hnd
    · simp only [Option.some.injEq] at hc; rw [← hc]; exact hnd
  · simp only [Option.some.injEq] at hc; rw [← hc]; exact hnd

theorem extract_packet_nodup (st : pcap_state) (w : world) (f : frame)
    (hnd : st.flows_.keys.Nodup) : (st.extract_packet w f).state.flows_.keys.Nodup := by
  unfold pcap_state.extract_packet
  split
  · exact hnd
  · exact hnd
  · simp only
    split
    · exact nodup_find_or_insert _ _ hnd
    · rename_i a ha
      have h1 := nodup_expire_step st.expire_interval_ st.max_age_ f.packet_time
        (init_last_expire st.last_expire_ f.packet_time)
        (nodup_account ha (nodup_find_or_insert _ _ hnd))
      split
      · exact h1
      · rename_i t1 hc
        exact nodup_capacity_step hc h1

/-- Every call of `extract` keeps the keys of the flow table pairwise
distinct, as they are in a `std::unordered_map`. -/
theorem extract_nodup (st : pcap_state) (w : world) (hnd : st.flows_.keys.Nodup) :
    (st.extract w).state.flows_.keys.Nodup := by
  unfold pcap_state.extract
  split
  · rename_i st1 e h
    rcases open_input_error h with h1 | h1
    · subst h1; exact hnd
    · subst h1; exact List.nodup_nil
  · rename_i st1 effs h
    have h1 := open_input_ok h
    have hf : st1.flows_ = st.flows_ := by rw [h1]
    have hnd1 : st1.flows_.keys.Nodup := by rw [hf]; exact hnd
    split_ifs
    · exact hnd1
    · split
      · exact hnd1
      · exact hnd1
      · exact hnd1
      · exact extract_packet_nodup st1 w _ hnd1

/-- From the empty table of a fresh source on, the keys of the flow table are
pairwise distinct after every sequence of calls. -/
theorem after_nodup (ws : List world) :
    ∀ st : pcap_state, st.flows_.keys.Nodup → (st.after ws).flows_.keys.Nodup := by
  induction ws with
  | nil => intro st h; exact h
  | cons w ws ih => intro st h; exact ih _ (extract_nodup st w h)

/-! ## The packets of one flow -/

/-- Once the handle is open, a call parses whatever frame `pcap_next_ex`
delivers. -/
theorem reads_of_pcap {s : pcap_state} {w : world} {f : frame} (hp : s.pcap_ = true)
    (hn : w.next = .packet f) : s.reads w = some f := by
  unfold pcap_state.reads pcap_state.open_input
  simp [hp, hn]

theorem reads_after {st s : pcap_state} {w : world} {f : frame} (h : st.reads w = some f)
    (hp : s.pcap_ = true) : s.reads w = some f := by
  obtain ⟨_, _, _, _, hn⟩ := reads_eq_some h
  exact reads_of_pcap hp hn

/-- One packet of a flow whose byte count is `min cutoff_ B`: it is emitted
when `B < cutoff_` and dropped otherwise, and afterwards the flow holds
`min cutoff_ (B + payload_size)` or has no entry. -/
theorem extract_flow_step {st : pcap_state} {w : world} {f : frame} {d : dissected} {B : Nat}
    (h : st.reads w = some f) (hd : parse_packet f = .value d) (hm : 0 < st.max_flows_)
    (hb : (st.flows_.bytes_seen d.conn).getD 0 = min st.cutoff_ B)
    (hsum : B + d.payload_size < 2 ^ 64) :
    (st.extract w).out =
        (if B < st.cutoff_ then
          .returned (.value (make_event w.nano f d
            (if B + d.payload_size ≤ st.cutoff_ then d.packet_size
              else to_u32 (sub_u64 d.packet_size (B + d.payload_size - st.cutoff_)))))
        else .returned .empty) ∧
      ((st.extract w).state.flows_.bytes_seen d.conn =
          some (min st.cutoff_ (B + d.payload_size)) ∨
        (st.extract w).state.flows_.bytes_seen d.conn = none) := by
  by_cases hB : B < st.cutoff_
  · rw [Nat.min_eq_right (Nat.le_of_lt hB)] at hb
    obtain ⟨ho, _, hf⟩ := extract_below h hd hm hb hB hsum
    rw [if_pos hB]
    exact ⟨ho, hf⟩
  · rw [Nat.min_eq_left (Nat.le_of_not_lt hB)] at hb
    have hb0 : (st.flows_.find_or_insert d.conn f.packet_time).bytes_seen d.conn =
        some st.cutoff_ := by
      rw [bytes_seen_find_or_insert_self, hb]
    have ha : account st.cutoff_ (st.flows_.find_or_insert d.conn f.packet_time) d = none := by
      rw [account_eq, hb0]
      simp
    obtain ⟨hf, _, ho⟩ := extract_dropped h hd ha
    rw [if_neg hB]
    refine ⟨ho, Or.inl ?_⟩
    rw [hf, hb0, Nat.min_eq_left (by omega)]

/-- The packets of one flow, one after the other, as long as the flow keeps
its entry: packet `n` is emitted when the payload sizes before it add up to
less than the cutoff and dropped otherwise, and the flow's byte count after it
is the cutoff or the sum of the payload sizes so far, whichever is smaller. -/
theorem flow_run (k : connection) :
    ∀ (xs : List (world × frame × dissected)) (st : pcap_state) (B : Nat),
      (∀ x ∈ xs, st.reads x.1 = some x.2.1 ∧ parse_packet x.2.1 = .value x.2.2 ∧
        x.2.2.conn = k) →
      0 < st.max_flows_ →
      (st.flows_.bytes_seen k).getD 0 = min st.cutoff_ B →
      B + (xs.map (fun x => x.2.2.payload_size)).sum < 2 ^ 64 →
      (∀ n, n < xs.length →
        (st.after ((xs.take (n + 1)).map (fun x => x.1))).flows_.bytes_seen k ≠ none) →
      ∀ n x, xs.get? n = some x →
        ((st.after ((xs.take n).map (fun x => x.1))).extract x.1).out =
          (if B + ((xs.take n).map (fun x => x.2.2.payload_size)).sum < st.cutoff_ then
            .returned (.value (make_event x.1.nano x.2.1 x.2.2
              (if B + ((xs.take n).map (fun x => x.2.2.payload_size)).sum +
                    x.2.2.payload_size ≤ st.cutoff_ then x.2.2.packet_size
                else to_u32 (sub_u64 x.2.2.packet_size
                  (B + ((xs.take n).map (fun x => x.2.2.payload_size)).sum +
                    x.2.2.payload_size - st.cutoff_)))))
          else .returned .empty) ∧
        ((st.after ((xs.take n).map (fun x => x.1))).extract x.1).state.flows_.bytes_seen k =
          some (min st.cutoff_
            (B + ((xs.take n).map (fun x => x.2.2.payload_size)).sum + x.2.2.payload_size)) := by
  intro xs
  induction xs with
  | nil =>
    intro st B _ _ _ _ _ n x hx
    simp at hx
  | cons x0 xs ih =>
    intro st B hr hm hb hsum hkeep n x hx
    obtain ⟨hr0, hd0, hk0⟩ := hr x0 (List.mem_cons_self _ _)
    simp only [List.map_cons, List.sum_cons] at hsum
    have hstep := extract_flow_step (B := B) hr0 hd0 hm (by rw [hk0]; exact hb) (by omega)
    rw [hk0] at hstep
    have hkeep0 := hkeep 0 (by simp)
    simp only [Nat.zero_add, List.take_succ_cons, List.take_zero, List.map_cons, List.map_nil,
      pcap_state.after] at hkeep0
    have hbytes : (st.extract x0.1).state.flows_.bytes_seen k =
        some (min st.cutoff_ (B + x0.2.2.payload_size)) := by
      rcases hstep.2 with h1 | h1
      · exact h1
      · exact absurd h1 hkeep0
    cases n with
    | zero =>
      simp only [List.get?_cons_zero, Option.some.injEq] at hx
      subst hx
      simp only [List.take_zero, List.map_nil, List.sum_nil, Nat.add_zero, pcap_state.after]
      exact ⟨hstep.1, hbytes⟩
    | succ n =>
      simp only [List.get?_cons_succ] at hx
      obtain ⟨hc, hmf, _, _, hp⟩ := extract_config hr0
      have := ih (st.extract x0.1).state (B + x0.2.2.payload_size)
        (fun y hy => by
          obtain ⟨h1, h2, h3⟩ := hr y (List.mem_cons_of_mem _ hy)
          exact ⟨reads_after h1 hp, h2, h3⟩)
        (by rw [hmf]; exact hm)
        (by rw [hbytes, hc]; rfl)
        (by omega)
        (fun m hm1 => by
          have := hkeep (m + 1) (by simp; omega)
          simpa [pcap_state.after] using this)
        n x hx
      rw [hc] at this
      simp only [List.take_succ_cons, List.map_cons, List.sum_cons, pcap_state.after]
      have e1 : B + (x0.2.2.payload_size +
          ((xs.take n).map (fun x => x.2.2.payload_size)).sum) =
          B + x0.2.2.payload_size + ((xs.take n).map (fun x => x.2.2.payload_size)).sum := by
        omega
      rw [e1]
      exact this

theorem after_append (st : pcap_state) (ws : List world) (w : world) :
    st.after (ws ++ [w]) = ((st.after ws).extract w).state := by
  induction ws generalizing st with
  | nil => rfl
  | cons w0 ws ih => exact ih _

theorem packet_size_lt {f : frame} {d : dissected} (hd : parse_packet f = .value d) :
    d.packet_size < 2 ^ 32 := by
  rw [(parse_packet_packet_size hd).1]
  exact Nat.mod_lt _ (by norm_num)

/-- C4 (counterexample): with `cutoff_ = 1000` and `max_flows_ = 0`, the first
packet of a new flow, of payload size 400, is not emitted although no payload
has been seen before (`0 < 1000`): after the accounting, which leaves the flow
its entry with 400 bytes, the remainder `flows_.size() % max_flows_` of line
203 divides by zero and the call does not return an event. -/
theorem C4_counterexample :
    (sample_state 1000 0 []).reads (sample_world (sample_frame 454 6 1 0x50 10) 8 0) =
        some (sample_frame 454 6 1 0x50 10) ∧
      parse_packet (sample_frame 454 6 1 0x50 10) = .value ⟨sample_conn 1 .tcp, 440, 400⟩ ∧
      (sample_state 1000 0 []).flows_.find (sample_conn 1 .tcp) = none ∧
      (0 : Nat) < (sample_state 1000 0 []).cutoff_ ∧
      ((sample_state 1000 0 []).extract
        (sample_world (sample_frame 454 6 1 0x50 10) 8 0)).out = .undefined .division_by_zero ∧
      ((sample_state 1000 0 []).extract
        (sample_world (sample_frame 454 6 1 0x50 10) 8 0)).state.flows_.bytes_seen
          (sample_conn 1 .tcp) = some 400 := by
  refine ⟨rfl, by decide, rfl, by decide, rfl, by decide⟩

/-- C4 (amended): for every cutoff and every sequence of packets of one new flow `k` with
payload sizes `p_1 .. p_n` whose sum stays below `2 ^ 64`, in a source with
`max_flows_ >= 1` and as long as the flow keeps its entry after each call:
with `S` the sum of the payload sizes before packet `i`, the packet is emitted
if `S < cutoff_`, its event holding the first bytes of the packet from offset
14 on, of length `packet_size - (p_i - min p_i (cutoff_ - S))` when the headers
fit the packet, and the flow's byte count grows by `min p_i (cutoff_ - S)`; it
is dropped (empty result) otherwise; after packet `i` the byte count is
`min cutoff_ (S + p_i)`, hence `min cutoff_ (p_1 + .. + p_n)` at the end. -/
theorem C4_flow_cutoff (st : pcap_state) (k : connection)
    (xs : List (world × frame × dissected))
    (hr : ∀ x ∈ xs, st.reads x.1 = some x.2.1 ∧ parse_packet x.2.1 = .value x.2.2 ∧
      x.2.2.conn = k)
    (hm : 0 < st.max_flows_) (hnew : st.flows_.find k = none)
    (hsum : (xs.map (fun x => x.2.2.payload_size)).sum < 2 ^ 64)
    (hkeep : ∀ n, n < xs.length →
      (st.after ((xs.take (n + 1)).map (fun x => x.1))).flows_.bytes_seen k ≠ none) :
    (∀ n x, xs[n]? = some x →
      (((xs.take n).map (fun x => x.2.2.payload_size)).sum < st.cutoff_ →
        (∃ ev, ((st.after ((xs.take n).map (fun x => x.1))).extract x.1).out =
            .returned (.value ev) ∧
          ev.payload = x.2.1.slice 14 ev.payload.length ∧
          (x.2.2.payload_size ≤ x.2.2.packet_size →
            ev.payload.length = x.2.2.packet_size - (x.2.2.payload_size -
              min x.2.2.payload_size
                (st.cutoff_ - ((xs.take n).map (fun x => x.2.2.payload_size)).sum)))) ∧
        ((st.after ((xs.take n).map (fun x => x.1))).extract x.1).state.flows_.bytes_seen k =
          some (((xs.take n).map (fun x => x.2.2.payload_size)).sum +
            min x.2.2.payload_size
              (st.cutoff_ - ((xs.take n).map (fun x => x.2.2.payload_size)).sum))) ∧
      (¬ ((xs.take n).map (fun x => x.2.2.payload_size)).sum < st.cutoff_ →
        ((st.after ((xs.take n).map (fun x => x.1))).extract x.1).out = .returned .empty) ∧
      ((st.after ((xs.take n).map (fun x => x.1))).extract x.1).state.flows_.bytes_seen k =
        some (min st.cutoff_
          (((xs.take n).map (fun x => x.2.2.payload_size)).sum + x.2.2.payload_size))) ∧
    (xs ≠ [] →
      (st.after (xs.map (fun x => x.1))).flows_.bytes_seen k =
        some (min st.cutoff_ (xs.map (fun x => x.2.2.payload_size)).sum)) := by
  have hb : (st.flows_.bytes_seen k).getD 0 = min st.cutoff_ 0 := by
    simp [flow_table.bytes_seen, hnew]
  have main := flow_run k xs st 0 hr hm hb (by omega) hkeep
  simp only [Nat.zero_add] at main
  have key : ∀ n x, xs[n]? = some x →
      ((xs.take n).map (fun x => x.2.2.payload_size)).sum + x.2.2.payload_size < 2 ^ 64 := by
    intro n x hx
    have h2 : xs.take (n + 1) = xs.take n ++ [x] := by
      rw [List.take_succ, hx]
      rfl
    have h3 : ((xs.take (n + 1)).map (fun x => x.2.2.payload_size)).sum ≤
        (xs.map (fun x => x.2.2.payload_size)).sum := by
      have := List.take_append_drop (n + 1) xs
      conv_rhs => rw [← this]
      rw [List.map_append, List.sum_append]
      exact Nat.le_add_right _ _
    rw [h2, List.map_append, List.sum_append] at h3
    simp only [List.map_cons, List.map_nil, List.sum_cons, List.sum_nil, Nat.add_zero] at h3
    omega
  constructor
  · intro n x hx
    obtain ⟨ho, hbs⟩ := main n x ((List.get?_eq_getElem? xs n).trans hx)
    have hlt := key n x hx
    refine ⟨?_, ?_, hbs⟩
    · intro hS
      rw [if_pos hS] at ho
      refine ⟨⟨_, ho, ?_, ?_⟩, ?_⟩
      · simp [make_event, length_slice]
      · intro hfit
        have hps := packet_size_lt (hr x (List.getElem?_mem hx)).2.1
        simp only [make_event, length_slice]
        split_ifs with hc
        · rw [Nat.min_eq_left (by omega)]
          omega
        · rw [trimmed_length hps (by omega), Nat.min_eq_right (by omega)]
          omega
      · rw [hbs]
        congr 1
        omega
    · intro hS
      rw [if_neg hS] at ho
      exact ho
  · intro hne
    have hx := List.dropLast_append_getLast hne
    have hget : xs.get? xs.dropLast.length = some (xs.getLast hne) := by
      conv_lhs => rw [← hx]
      simp
    have htake : xs.take xs.dropLast.length = xs.dropLast := by
      conv_lhs => rw [← hx]
      simp
    obtain ⟨_, hbs⟩ := main _ _ hget
    rw [htake] at hbs
    have e1 : st.after (xs.map (fun x => x.1)) =
        ((st.after (xs.dropLast.map (fun x => x.1))).extract (xs.getLast hne).1).state := by
      conv_lhs => rw [← hx]
      rw [List.map_append]
      exact after_append _ _ _
    have e2 : (xs.map (fun x => x.2.2.payload_size)).sum =
        (xs.dropLast.map (fun x => x.2.2.payload_size)).sum +
          (xs.getLast hne).2.2.payload_size := by
      conv_lhs => rw [← hx]
      simp
    rw [e1, e2]
    exact hbs

/-- C4 (example): cutoff 1000 and three TCP packets of one flow with payload
size 400 each (packet size 440): all three are emitted, with payload strings
of 440, 440 and 240 bytes (the third trimmed by 200), and the flow's byte
count is 400, 800 and 1000 after them. -/
theorem C4_flow_cutoff_witness :
    (∃ ev, ((pcap "trace" 1000 4 60 10 0).extract
          (sample_world (sample_frame 454 6 1 0x50 10) 8 0)).out = .returned (.value ev) ∧
        ev.payload.length = 440 - (400 - min 400 (1000 - 0))) ∧
      ((pcap "trace" 1000 4 60 10 0).extract
          (sample_world (sample_frame 454 6 1 0x50 10) 8 0)).state.flows_.bytes_seen
            (sample_conn 1 .tcp) = some (0 + min 400 (1000 - 0)) ∧
      (∃ ev, (((pcap "trace" 1000 4 60 10 0).after
          [sample_world (sample_frame 454 6 1 0x50 10) 8 0]).extract
          (sample_world (sample_frame 454 6 1 0x50 10) 8 0)).out = .returned (.value ev) ∧
        ev.payload.length = 440 - (400 - min 400 (1000 - 400))) ∧
      (((pcap "trace" 1000 4 60 10 0).after
          [sample_world (sample_frame 454 6 1 0x50 10) 8 0]).extract
          (sample_world (sample_frame 454 6 1 0x50 10) 8 0)).state.flows_.bytes_seen
            (sample_conn 1 .tcp) = some (400 + min 400 (1000 - 400)) ∧
      (∃ ev, (((pcap "trace" 1000 4 60 10 0).after
          [sample_world (sample_frame 454 6 1 0x50 10) 8 0,
            sample_world (sample_frame 454 6 1 0x50 10) 8 0]).extract
          (sample_world (sample_frame 454 6 1 0x50 10) 8 0)).out = .returned (.value ev) ∧
        ev.payload.length = 440 - (400 - min 400 (1000 - (400 + 400)))) ∧
      (((pcap "trace" 1000 4 60 10 0).after
          [sample_world (sample_frame 454 6 1 0x50 10) 8 0,
            sample_world (sample_frame 454 6 1 0x50 10) 8 0]).extract
          (sample_world (sample_frame 454 6 1 0x50 10) 8 0)).state.flows_.bytes_seen
            (sample_conn 1 .tcp) = some (400 + 400 + min 400 (1000 - (400 + 400))) := by
  have hx : ∀ x ∈ List.replicate 3 (sample_world (sample_frame 454 6 1 0x50 10) 8 0,
      sample_frame 454 6 1 0x50 10, (⟨sample_conn 1 .tcp, 440, 400⟩ : dissected)),
      (pcap "trace" 1000 4 60 10 0).reads x.1 = some x.2.1 ∧
        parse_packet x.2.1 = .value x.2.2 ∧ x.2.2.conn = sample_conn 1 .tcp := by
    intro x hx
    rw [List.eq_of_mem_replicate hx]
    exact ⟨rfl, by decide, rfl⟩
  have T := C4_flow_cutoff (pcap "trace" 1000 4 60 10 0) (sample_conn 1 .tcp)
    (List.replicate 3 (sample_world (sample_frame 454 6 1 0x50 10) 8 0,
      sample_frame 454 6 1 0x50 10, (⟨sample_conn 1 .tcp, 440, 400⟩ : dissected)))
    hx (by decide) (by decide) (by decide)
    (by
      intro n hn
      simp only [List.length_replicate] at hn
      interval_cases n <;> decide)
  obtain ⟨⟨ev0, ho0, _, hl0⟩, hb0⟩ := (T.1 0 _ rfl).1 (by decide)
  obtain ⟨⟨ev1, ho1, _, hl1⟩, hb1⟩ := (T.1 1 _ rfl).1 (by decide)
  obtain ⟨⟨ev2, ho2, _, hl2⟩, hb2⟩ := (T.1 2 _ rfl).1 (by decide)
  exact ⟨⟨ev0, ho0, hl0 (by decide)⟩, hb0, ⟨ev1, ho1, hl1 (by decide)⟩, hb1,
    ⟨ev2, ho2, hl2 (by decide)⟩, hb2⟩

/-! ## New flows and the size of the table -/

theorem expire_step_eq_self {i m time le : Nat} {t : flow_table}
    (h : ∀ e ∈ t, sub_u64 time e.2.last ≤ m) : (expire_step i m time le t).2 = t := by
  unfold expire_step
  split
  · unfold expire_flows
    apply List.filter_eq_self.2
    intro e he
    simpa using h e he
  · rfl

/-- A frame of a new flow in a source with a positive cutoff and
`max_flows_ >= 1`, when the sweep finds nothing to remove: the insert adds
one entry, the packet is emitted, and the capacity step takes one entry away
exactly when the size has become a multiple of `max_flows_`. -/
theorem extract_new_flow {st : pcap_state} {w : world} {f : frame} {d : dissected}
    {K : List connection} {L : List Nat}
    (h : st.reads w = some f) (hd : parse_packet f = .value d)
    (hc : 0 < st.cutoff_) (hm : 0 < st.max_flows_) (hnd : st.flows_.keys.Nodup)
    (hK : ∀ e ∈ st.flows_, e.1 ∈ K ∧ e.2.last ∈ L) (hk : d.conn ∉ K)
    (hL : ∀ l ∈ L, sub_u64 f.packet_time l ≤ st.max_age_) :
    (st.flows_.find_or_insert d.conn f.packet_time).length = st.flows_.length + 1 ∧
      (st.extract w).state.flows_.length =
        (if (st.flows_.length + 1) % st.max_flows_ = 0 then st.flows_.length
          else st.flows_.length + 1) ∧
      (st.extract w).state.flows_.keys.Nodup ∧
      (∀ e ∈ (st.extract w).state.flows_, e.1 ∈ d.conn :: K ∧ e.2.last ∈ f.packet_time :: L) ∧
      (∃ ev, (st.extract w).out = .returned (.value ev)) := by
  have hnew : d.conn ∉ st.flows_.keys := by
    intro hmem
    obtain ⟨e, he, hek⟩ := List.mem_map.1 hmem
    exact hk (hek ▸ (hK e he).1)
  have hfind : st.flows_.find d.conn = none := (find_eq_none_iff _ _).2 hnew
  have hlen : (st.flows_.find_or_insert d.conn f.packet_time).length = st.flows_.length + 1 := by
    rw [length_find_or_insert, if_neg hnew]
  have hT0 : st.flows_.find_or_insert d.conn f.packet_time =
      st.flows_ ++ [(d.conn, { bytes := 0, last := f.packet_time })] := by
    unfold flow_table.find_or_insert
    simp only [hfind]
  have hb : ((st.flows_.find_or_insert d.conn f.packet_time).bytes_seen d.conn).getD 0 = 0 := by
    rw [bytes_seen_find_or_insert_self]
    simp [flow_table.bytes_seen, hfind]
  obtain ⟨a, v, ha, hav⟩ : ∃ a v,
      account st.cutoff_ (st.flows_.find_or_insert d.conn f.packet_time) d = some a ∧
      a.flows = (st.flows_.find_or_insert d.conn f.packet_time).set_bytes d.conn v := by
    rw [account_eq, hb, if_neg (Nat.ne_of_lt hc)]
    split_ifs
    · exact ⟨_, _, rfl, rfl⟩
    · exact ⟨_, _, rfl, rfl⟩
  have hmem : ∀ e ∈ a.flows, e.1 ∈ d.conn :: K ∧ e.2.last ∈ f.packet_time :: L := by
    intro e he
    rw [hav] at he
    obtain ⟨e0, he0, h1, h2, _⟩ := mem_set_bytes_iff he
    rw [hT0] at he0
    rcases List.mem_append.1 he0 with h0 | h0
    · rw [h1, h2]
      exact ⟨List.mem_cons_of_mem _ (hK e0 h0).1, List.mem_cons_of_mem _ (hK e0 h0).2⟩
    · simp only [List.mem_singleton] at h0
      rw [h1, h2, h0]
      exact ⟨List.mem_cons_self _ _, List.mem_cons_self _ _⟩
  have hsw : (expire_step st.expire_interval_ st.max_age_ f.packet_time
      (init_last_expire st.last_expire_ f.packet_time) a.flows).2 = a.flows := by
    apply expire_step_eq_self
    intro e he
    rcases List.mem_cons.1 (hmem e he).2 with h0 | h0
    · rw [h0, sub_u64_self]
      exact Nat.zero_le _
    · exact hL _ h0
  have hnda : a.flows.keys.Nodup := nodup_account ha (nodup_find_or_insert _ _ hnd)
  have hlena : a.flows.length = st.flows_.length + 1 := by
    rw [hav]
    unfold flow_table.set_bytes
    rw [List.length_map, hlen]
  obtain ⟨hf, _, ho⟩ := extract_accounted h hd ha
  rw [hsw] at hf ho
  obtain ⟨h1, h2⟩ := capacity_step_eq hm w hnda
  refine ⟨hlen, ?_, ?_, ?_, ?_⟩
  · by_cases hmod : (st.flows_.length + 1) % st.max_flows_ = 0
    · rw [if_pos hmod]
      have hne : a.flows ≠ [] := by
        intro h0
        rw [h0] at hlena
        simp at hlena
      obtain ⟨l1, e, l2, he, hcs⟩ := h1 ⟨hne, by rw [hlena]; exact hmod⟩
      rw [hf, hcs, Option.getD_some]
      rw [he] at hlena
      simp only [List.length_append, List.length_cons] at hlena ⊢
      omega
    · rw [if_neg hmod]
      rw [hf, h2 (fun hcnd => hmod (by rw [← hlena]; exact hcnd.2)), Option.getD_some, hlena]
  · rw [hf]
    cases hcs : capacity_step st.max_flows_ w a.flows with
    | none => exact hnda
    | some t1 =>
      simp only [Option.getD_some]
      unfold capacity_step at hcs
      split_ifs at hcs
      · simp only [Option.some.injEq] at hcs; rw [← hcs]; exact hnda
      · split at hcs
        · simp only [Option.some.injEq] at hcs; rw [← hcs]; exact nodup_erase _ hnda
        · simp only [Option.some.injEq] at hcs; rw [← hcs]; exact hnda
      · simp only [Option.some.injEq] at hcs; rw [← hcs]; exact hnda
  · intro e he
    rw [hf] at he
    exact hmem e (mem_of_mem_capacity_getD he)
  · rw [capacity_step_isSome hm] at ho
    exact ⟨_, ho⟩

/-! ## Claims on the size of the flow table -/

/-- C7: a fresh source with `cutoff = 0` and `max_flows = 1` that reads one
frame of each of three distinct flows drops all three packets (empty result)
and holds 1, 2 and 3 entries after the calls, more than `max_flows`: the
return of line 184 comes before the eviction of lines 202-220. -/
theorem C7_table_exceeds_max_flows :
    ((pcap "trace" 0 1 60 10 0).run
        [sample_world (sample_frame 454 6 1 0x50 10) 8 0,
          sample_world (sample_frame 454 6 2 0x50 10) 8 0,
          sample_world (sample_frame 454 6 3 0x50 10) 8 0]).map
        (fun s => (s.out, s.state.flows_.length, s.state.max_flows_)) =
      [(.returned .empty, 1, 1), (.returned .empty, 2, 1), (.returned .empty, 3, 1)] := by
  decide

set_option maxRecDepth 100000 in
/-- The table of a fresh source with `max_flows = 4` and `cutoff = 1000` that
reads one packet of each of 5 distinct new flows holds 1, 2, 3, 3 and 3
entries at the end of the five calls. -/
theorem five_flows_table_sizes :
    ((pcap "trace" 1000 4 60 10 0).run
        [sample_world (sample_frame 454 6 1 0x50 10) 8 0,
          sample_world (sample_frame 454 6 2 0x50 11) 8 0,
          sample_world (sample_frame 454 6 3 0x50 12) 8 0,
          sample_world (sample_frame 454 6 4 0x50 13) 8 0,
          sample_world (sample_frame 454 6 5 0x50 14) 8 0]).map
        (fun s => s.state.flows_.length) = [1, 2, 3, 3, 3] := by
  decide

/-- C9: with `max_flows_ = 4`, a positive cutoff and no entry removed by the
sweep, one packet of each of 5 distinct new flows, processed from an empty
table, leaves 1, 2 and 3 entries after the first three calls; the 4th insert
brings the size to 4 and triggers one eviction, so 3 entries are left after
the 4th call; after the 5th insert the table holds 4 entries, and the capacity
step of that call evicts one of them again, so 3 entries are left after the
5th call. -/
theorem C9_five_flows (st : pcap_state) (w1 w2 w3 w4 w5 : world) (f1 f2 f3 f4 f5 : frame)
    (d1 d2 d3 d4 d5 : dissected)
    (hempty : st.flows_ = []) (hm : st.max_flows_ = 4) (hc : 0 < st.cutoff_)
    (hr1 : st.reads w1 = some f1) (hn2 : w2.next = .packet f2) (hn3 : w3.next = .packet f3)
    (hn4 : w4.next = .packet f4) (hn5 : w5.next = .packet f5)
    (hd1 : parse_packet f1 = .value d1) (hd2 : parse_packet f2 = .value d2)
    (hd3 : parse_packet f3 = .value d3) (hd4 : parse_packet f4 = .value d4)
    (hd5 : parse_packet f5 = .value d5)
    (hk : [d1.conn, d2.conn, d3.conn, d4.conn, d5.conn].Nodup)
    (hage : List.Pairwise (fun y x => sub_u64 x.packet_time y.packet_time ≤ st.max_age_)
      [f1, f2, f3, f4, f5]) :
    ∃ s1 s2 s3 s4 s5 : pcap_state,
      s1 = (st.extract w1).state ∧ s2 = (s1.extract w2).state ∧ s3 = (s2.extract w3).state ∧
      s4 = (s3.extract w4).state ∧ s5 = (s4.extract w5).state ∧
      s1.flows_.length = 1 ∧ s2.flows_.length = 2 ∧ s3.flows_.length = 3 ∧
      (s3.flows_.find_or_insert d4.conn f4.packet_time).length = 4 ∧ s4.flows_.length = 3 ∧
      (s4.flows_.find_or_insert d5.conn f5.packet_time).length = 4 ∧ s5.flows_.length = 3 := by
  simp only [List.nodup_cons, List.mem_cons, List.mem_singleton, not_or, List.not_mem_nil,
    not_false_eq_true, List.nodup_nil, and_true] at hk
  simp only [List.pairwise_cons, List.mem_cons, List.mem_singleton, forall_eq_or_imp, forall_eq,
    List.not_mem_nil, false_implies, implies_true, List.Pairwise.nil, and_true] at hage
  obtain ⟨⟨h12, h13, h14, h15⟩, ⟨h23, h24, h25⟩, ⟨h34, h35⟩, h45⟩ := hk
  obtain ⟨⟨a12, a13, a14, a15⟩, ⟨a23, a24, a25⟩, ⟨a34, a35⟩, a45⟩ := hage
  -- first call
  obtain ⟨_, l1, n1, m1, _⟩ := extract_new_flow (K := []) (L := []) hr1 hd1 hc (by omega)
    (by rw [hempty]; exact List.nodup_nil) (by rw [hempty]; intro e he; simp at he)
    (by simp) (by simp)
  obtain ⟨c1, mf1, ma1, _, p1⟩ := extract_config hr1
  rw [hempty, hm] at l1
  -- second call
  have hr2 := reads_of_pcap p1 hn2
  obtain ⟨_, l2, n2, m2, _⟩ := extract_new_flow hr2 hd2 (by rw [c1]; exact hc)
    (by rw [mf1]; omega) n1 m1 (by simpa using fun h => h12 h.symm)
    (by rw [ma1]; simpa using a12)
  obtain ⟨c2, mf2, ma2, _, p2⟩ := extract_config hr2
  rw [l1, mf1, hm] at l2
  -- third call
  have hr3 := reads_of_pcap p2 hn3
  obtain ⟨_, l3, n3, m3, _⟩ := extract_new_flow hr3 hd3 (by rw [c2, c1]; exact hc)
    (by rw [mf2, mf1]; omega) n2 m2
    (by simpa using ⟨fun h => h23 h.symm, fun h => h13 h.symm⟩)
    (by rw [ma2, ma1]; simpa using ⟨a23, a13⟩)
  obtain ⟨c3, mf3, ma3, _, p3⟩ := extract_config hr3
  rw [l2, mf2, mf1, hm] at l3
  -- fourth call
  have hr4 := reads_of_pcap p3 hn4
  obtain ⟨i4, l4, n4, m4, _⟩ := extract_new_flow hr4 hd4 (by rw [c3, c2, c1]; exact hc)
    (by rw [mf3, mf2, mf1]; omega) n3 m3
    (by simpa using ⟨fun h => h34 h.symm, fun h => h24 h.symm, fun h => h14 h.symm⟩)
    (by rw [ma3, ma2, ma1]; simpa using ⟨a34, a24, a14⟩)
  obtain ⟨c4, mf4, ma4, _, p4⟩ := extract_config hr4
  rw [l3, mf3, mf2, mf1, hm] at l4
  rw [l3] at i4
  -- fifth call
  have hr5 := reads_of_pcap p4 hn5
  obtain ⟨i5, l5, _, _, _⟩ := extract_new_flow hr5 hd5 (by rw [c4, c3, c2, c1]; exact hc)
    (by rw [mf4, mf3, mf2, mf1]; omega) n4 m4
    (by simpa using
      ⟨fun h => h45 h.symm, fun h => h35 h.symm, fun h => h25 h.symm, fun h => h15 h.symm⟩)
    (by rw [ma4, ma3, ma2, ma1]; simpa using ⟨a45, a35, a25, a15⟩)
  rw [l4, mf4, mf3, mf2, mf1, hm] at l5
  rw [l4] at i5
  exact ⟨_, _, _, _, _, rfl, rfl, rfl, rfl, rfl, l1, l2, l3, i4, l4, i5, l5⟩

/-- C9 (example): five TCP flows that differ in the source address, captured
at seconds 10 to 14, in a fresh source with `max_flows = 4`. -/
theorem C9_five_flows_witness :
    ∃ s1 s2 s3 s4 s5 : pcap_state,
      s1 = ((pcap "trace" 1000 4 60 10 0).extract
        (sample_world (sample_frame 454 6 1 0x50 10) 8 0)).state ∧
      s2 = (s1.extract (sample_world (sample_frame 454 6 2 0x50 11) 8 0)).state ∧
      s3 = (s2.extract (sample_world (sample_frame 454 6 3 0x50 12) 8 0)).state ∧
      s4 = (s3.extract (sample_world (sample_frame 454 6 4 0x50 13) 8 0)).state ∧
      s5 = (s4.extract (sample_world (sample_frame 454 6 5 0x50 14) 8 0)).state ∧
      s1.flows_.length = 1 ∧ s2.flows_.length = 2 ∧ s3.flows_.length = 3 ∧
      (s3.flows_.find_or_insert (sample_conn 4 .tcp)
        (sample_frame 454 6 4 0x50 13).packet_time).length = 4 ∧
      s4.flows_.length = 3 ∧
      (s4.flows_.find_or_insert (sample_conn 5 .tcp)
        (sample_frame 454 6 5 0x50 14).packet_time).length = 4 ∧
      s5.flows_.length = 3 :=
  C9_five_flows (pcap "trace" 1000 4 60 10 0)
    (sample_world (sample_frame 454 6 1 0x50 10) 8 0)
    (sample_world (sample_frame 454 6 2 0x50 11) 8 0)
    (sample_world (sample_frame 454 6 3 0x50 12) 8 0)
    (sample_world (sample_frame 454 6 4 0x50 13) 8 0)
    (sample_world (sample_frame 454 6 5 0x50 14) 8 0)
    (sample_frame 454 6 1 0x50 10) (sample_frame 454 6 2 0x50 11) (sample_frame 454 6 3 0x50 12)
    (sample_frame 454 6 4 0x50 13) (sample_frame 454 6 5 0x50 14)
    ⟨sample_conn 1 .tcp, 440, 400⟩ ⟨sample_conn 2 .tcp, 440, 400⟩ ⟨sample_conn 3 .tcp, 440, 400⟩
    ⟨sample_conn 4 .tcp, 440, 400⟩ ⟨sample_conn 5 .tcp, 440, 400⟩
    rfl rfl (by decide) rfl rfl rfl rfl rfl (by decide) (by decide) (by decide) (by decide)
    (by decide) (by decide) (by decide)

/-! ## The three outcomes of the parsing -/

/-- A frame whose EtherType is neither 0x0800 nor 0x86dd is skipped. -/
theorem parse_packet_not_ip {f : frame} (h : f.is_ip = false) : parse_packet f = .empty := by
  unfold frame.is_ip frame.ether_type at h
  simp only [decide_eq_false_iff_not, not_or] at h
  unfold parse_packet
  simp only [h.1, h.2, if_false]

/-- An IP frame that fails a length check yields a header-too-short error. -/
theorem parse_packet_too_short {f : frame} (h : f.header_too_short = true) :
    ∃ e, parse_packet f = .error e ∧ e.is_header_too_short = true := by
  unfold frame.header_too_short frame.ether_type frame.wire_len at h
  simp only [decide_eq_true_eq] at h
  unfold parse_packet
  rcases h with ⟨h4, hs⟩ | ⟨h6, hs⟩
  · simp only [h4, if_true]
    by_cases hl : f.header.len % 2 ^ 32 < 14 + 20
    · rw [if_pos hl]
      exact ⟨_, rfl, rfl⟩
    · rw [if_neg hl]
      have hh : (f.byte 14 &&& 0x0f) * 4 < 20 := by
        rcases hs with hs | hs
        · exact absurd hs hl
        · exact hs
      rw [if_pos hh]
      exact ⟨_, rfl, rfl⟩
  · have h4 : ¬ f.be16 12 = 0x0800 := by rw [h6]; decide
    simp only [h4, h6, if_true, if_false]
    rw [if_pos hs]
    exact ⟨_, rfl, rfl⟩

/-- An IP frame that passes the length checks is dissected: addresses,
protocol number, transport offset and payload size go to lines 145-171. -/
theorem parse_packet_ok {f : frame} (hip : f.is_ip = true) (h : f.header_too_short = false) :
    parse_packet f = .value (parse_layer4 f f.addresses (sub_u32 f.header.len 14)
      (sub_u64 (sub_u32 f.header.len 14) f.ip_header_size) f.layer4_proto f.layer4) := by
  unfold frame.is_ip at hip
  unfold frame.header_too_short at h
  simp only [decide_eq_true_eq, decide_eq_false_iff_not, not_or, not_and, not_lt] at hip h
  unfold frame.ether_type frame.wire_len at *
  unfold parse_packet
  by_cases h4 : f.be16 12 = 0x0800
  · have hc := h.1 h4
    have h1 : ¬ f.header.len % 2 ^ 32 < 14 + 20 := by omega
    have h2 : ¬ (f.byte 14 &&& 0x0f) * 4 < 20 := by omega
    simp only [h4, if_true, h1, h2, if_false, frame.addresses, frame.ip_header_size,
      frame.layer4_proto, frame.layer4, frame.ether_type]
  · have h6 : f.be16 12 = 0x86dd := by
      rcases hip with hip | hip
      · exact absurd hip h4
      · exact hip
    have hc := h.2 h6
    have h1 : ¬ f.header.len % 2 ^ 32 < 14 + 40 := by omega
    simp only [h4, h6, if_true, h1, if_false, frame.addresses, frame.ip_header_size,
      frame.layer4_proto, frame.layer4, frame.ether_type]
    rfl

/-- A frame with a header too short is an IP frame. -/
theorem is_ip_of_header_too_short {f : frame} (h : f.header_too_short = true) :
    f.is_ip = true := by
  unfold frame.header_too_short at h
  unfold frame.is_ip
  simp only [decide_eq_true_eq] at h ⊢
  rcases h with ⟨h, _⟩ | ⟨h, _⟩
  · exact Or.inl h
  · exact Or.inr h

/-- The parsing yields a value exactly for the IP frames that pass the length
checks. -/
theorem parse_packet_value_iff (f : frame) :
    (∃ d, parse_packet f = .value d) ↔ (f.is_ip = true ∧ f.header_too_short = false) := by
  constructor
  · rintro ⟨d, hd⟩
    by_cases hip : f.is_ip = true
    · refine ⟨hip, ?_⟩
      by_contra hs
      obtain ⟨e, he, _⟩ := parse_packet_too_short (by simpa using hs)
      rw [he] at hd
      exact absurd hd (by simp)
    · rw [parse_packet_not_ip (by simpa using hip)] at hd
      exact absurd hd (by simp)
  · rintro ⟨hip, hs⟩
    exact ⟨_, parse_packet_ok hip hs⟩

theorem parse_layer4_addresses (f : frame) (conn : connection) (ps pl proto l4 : Nat) :
    (parse_layer4 f conn ps pl proto l4).conn.src = conn.src ∧
      (parse_layer4 f conn ps pl proto l4).conn.dst = conn.dst := by
  unfold parse_layer4
  split_ifs <;> exact ⟨rfl, rfl⟩

/-- A call that parses a frame returns an event only of the form that lines
221-252 assemble from the dissected frame. -/
theorem extract_event {st : pcap_state} {w : world} {f : frame} {d : dissected} {ev : event}
    (h : st.reads w = some f) (hd : parse_packet f = .value d)
    (ho : (st.extract w).out = .returned (.value ev)) :
    ∃ n, ev = make_event w.nano f d n := by
  cases ha : account st.cutoff_ (st.flows_.find_or_insert d.conn f.packet_time) d with
  | none =>
    rw [(extract_dropped h hd ha).2.2] at ho
    exact absurd ho (by simp)
  | some a =>
    rw [(extract_accounted h hd ha).2.2] at ho
    split_ifs at ho
    · simp only [outcome.returned.injEq, result.value.injEq] at ho
      exact ⟨_, ho.symm⟩

/-- A call that parses a frame for which the parsing yields no value leaves
the flow table, `last_expire_` and `last_timestamp_` alone and returns what the
parsing returns. -/
theorem extract_not_value {st : pcap_state} {w : world} {f : frame}
    (h : st.reads w = some f) (hd : ∀ d, parse_packet f ≠ .value d) :
    (st.extract w).state.flows_ = st.flows_ ∧
      (st.extract w).state.last_expire_ = st.last_expire_ ∧
      (st.extract w).state.last_timestamp_ = st.last_timestamp_ ∧
      ((parse_packet f = .empty ∧ (st.extract w).out = .returned .empty) ∨
        ∃ e, parse_packet f = .error e ∧ (st.extract w).out = .returned (.error e)) := by
  obtain ⟨st1, h1, hs, ho⟩ := extract_of_reads h
  have e1 : st1.flows_ = st.flows_ := by rw [h1]
  have e2 : st1.last_expire_ = st.last_expire_ := by rw [h1]
  have e3 : st1.last_timestamp_ = st.last_timestamp_ := by rw [h1]
  rw [hs, ho, ← e1, ← e2, ← e3]
  unfold pcap_state.extract_packet
  cases hp : parse_packet f with
  | empty => exact ⟨rfl, rfl, rfl, Or.inl ⟨rfl, rfl⟩⟩
  | error e => exact ⟨rfl, rfl, rfl, Or.inr ⟨e, rfl, rfl⟩⟩
  | value d => exact absurd hp (hd d)

/-! ## Claims on the sweep, on skipped frames and on header errors -/

/-- C11: when the inactivity sweep of a call runs (capture second `t`, a packet
that is not dropped, `t - last_expire_ > expire_interval_`), the table it
leaves is the accounted table without the entries that have
`t - last > max_age_`: an entry is in it exactly if it was there before and
does not have `t - last > max_age_`, the entries that stay are unchanged and
in their order, no entry of it has `t - last > max_age_`, and the same holds
for the table at the end of the call. -/
theorem C11_sweep_removes_exactly_old (st : pcap_state) (w : world) (f : frame) (d : dissected)
    (a : accounted) (h : st.reads w = some f) (hd : parse_packet f = .value d)
    (ha : account st.cutoff_ (st.flows_.find_or_insert d.conn f.packet_time) d = some a)
    (hrun : sub_u64 f.packet_time (init_last_expire st.last_expire_ f.packet_time) >
      st.expire_interval_) :
    (expire_step st.expire_interval_ st.max_age_ f.packet_time
        (init_last_expire st.last_expire_ f.packet_time) a.flows).2 =
      a.flows.filter (fun e => decide (¬ sub_u64 f.packet_time e.2.last > st.max_age_)) ∧
    (∀ e, e ∈ (expire_step st.expire_interval_ st.max_age_ f.packet_time
        (init_last_expire st.last_expire_ f.packet_time) a.flows).2 ↔
      (e ∈ a.flows ∧ ¬ sub_u64 f.packet_time e.2.last > st.max_age_)) ∧
    List.Sublist (expire_step st.expire_interval_ st.max_age_ f.packet_time
        (init_last_expire st.last_expire_ f.packet_time) a.flows).2 a.flows ∧
    (st.extract w).state.flows_ =
      (capacity_step st.max_flows_ w
        (a.flows.filter (fun e => decide (¬ sub_u64 f.packet_time e.2.last > st.max_age_)))).getD
        (a.flows.filter (fun e => decide (¬ sub_u64 f.packet_time e.2.last > st.max_age_))) ∧
    (∀ e ∈ (st.extract w).state.flows_, ¬ sub_u64 f.packet_time e.2.last > st.max_age_) := by
  have hsw : (expire_step st.expire_interval_ st.max_age_ f.packet_time
      (init_last_expire st.last_expire_ f.packet_time) a.flows).2 =
      a.flows.filter (fun e => decide (¬ sub_u64 f.packet_time e.2.last > st.max_age_)) := by
    unfold expire_step
    rw [if_pos hrun]
    rfl
  obtain ⟨hf, _, _⟩ := extract_accounted h hd ha
  rw [hsw] at hf
  refine ⟨hsw, ?_, ?_, hf, ?_⟩
  · intro e
    rw [hsw, List.mem_filter]
    simp
  · rw [hsw]
    exact List.filter_sublist _
  · intro e he
    rw [hf] at he
    have := (List.mem_filter.1 (mem_of_mem_capacity_getD he)).2
    simpa using this

/-- C11 (example): `max_age_ = 60`, `expire_interval_ = 10`, `last_expire_ = 5`
and entries last seen at seconds 10 and 50: a packet of a third flow at second
100 runs the sweep, which removes the entry last seen at 10 (100 - 10 > 60)
and keeps the one last seen at 50. -/
theorem C11_sweep_removes_exactly_old_witness :
    (({ sample_state 1000 8 [(sample_conn 1 .tcp, ⟨400, 10⟩), (sample_conn 2 .tcp, ⟨400, 50⟩)]
          with last_expire_ := 5 } : pcap_state).extract
        (sample_world (sample_frame 454 6 3 0x50 100) 8 0)).state.flows_ =
      [(sample_conn 2 .tcp, ⟨400, 50⟩), (sample_conn 3 .tcp, ⟨400, 100⟩)] ∧
    ∀ e ∈ (({ sample_state 1000 8 [(sample_conn 1 .tcp, ⟨400, 10⟩),
          (sample_conn 2 .tcp, ⟨400, 50⟩)] with last_expire_ := 5 } : pcap_state).extract
        (sample_world (sample_frame 454 6 3 0x50 100) 8 0)).state.flows_,
      ¬ sub_u64 (sample_frame 454 6 3 0x50 100).packet_time e.2.last > 60 :=
  ⟨(C11_sweep_removes_exactly_old
      { sample_state 1000 8 [(sample_conn 1 .tcp, ⟨400, 10⟩), (sample_conn 2 .tcp, ⟨400, 50⟩)]
        with last_expire_ := 5 }
      (sample_world (sample_frame 454 6 3 0x50 100) 8 0) (sample_frame 454 6 3 0x50 100)
      ⟨sample_conn 3 .tcp, 440, 400⟩
      ⟨[(sample_conn 1 .tcp, ⟨400, 10⟩), (sample_conn 2 .tcp, ⟨400, 50⟩),
        (sample_conn 3 .tcp, ⟨400, 100⟩)], 440⟩
      rfl (by decide) (by decide) (by decide)).2.2.2.1,
    (C11_sweep_removes_exactly_old
      { sample_state 1000 8 [(sample_conn 1 .tcp, ⟨400, 10⟩), (sample_conn 2 .tcp, ⟨400, 50⟩)]
        with last_expire_ := 5 }
      (sample_world (sample_frame 454 6 3 0x50 100) 8 0) (sample_frame 454 6 3 0x50 100)
      ⟨sample_conn 3 .tcp, 440, 400⟩
      ⟨[(sample_conn 1 .tcp, ⟨400, 10⟩), (sample_conn 2 .tcp, ⟨400, 50⟩),
        (sample_conn 3 .tcp, ⟨400, 100⟩)], 440⟩
      rfl (by decide) (by decide) (by decide)).2.2.2.2⟩

/-- The entries of the current flow in the accounted table all carry the
packet time as `last`. -/
theorem account_last {cutoff : Nat} {t : flow_table} {k : connection} {time : Nat}
    {d : dissected} {a : accounted} (hk : d.conn = k)
    (ha : account cutoff (t.find_or_insert k time) d = some a) :
    (∀ e ∈ a.flows, e.1 = k → e.2.last = time) ∧
      ∃ s, a.flows.find k = some s ∧ s.last = time := by
  subst hk
  have hset : ∃ v, a.flows = (t.find_or_insert d.conn time).set_bytes d.conn v := by
    rw [account_eq] at ha
    split_ifs at ha
    · simp only [Option.some.injEq] at ha
      exact ⟨_, by rw [← ha]⟩
    · simp only [Option.some.injEq] at ha
      exact ⟨_, by rw [← ha]⟩
  obtain ⟨v, hv⟩ := hset
  constructor
  · intro e he hek
    rw [hv] at he
    obtain ⟨e0, he0, h1, h2, _⟩ := mem_set_bytes_iff he
    rw [h2]
    exact last_find_or_insert he0 (h1 ▸ hek)
  · rw [hv, find_set_bytes, if_pos rfl, find_find_or_insert_self]
    exact ⟨_, rfl, rfl⟩

/-- C12: for every `max_age_`, the entry of the flow of a packet that is not
dropped carries the packet time as `last` and is still there, unchanged, after
the sweep (whether the expiry step of the call runs the sweep or not). -/
theorem C12_current_flow_survives_sweep (st : pcap_state) (w : world) (f : frame)
    (d : dissected) (a : accounted) (h : st.reads w = some f)
    (hd : parse_packet f = .value d)
    (ha : account st.cutoff_ (st.flows_.find_or_insert d.conn f.packet_time) d = some a) :
    ∃ s, a.flows.find d.conn = some s ∧ s.last = f.packet_time ∧
      (expire_flows st.max_age_ f.packet_time a.flows).find d.conn = some s ∧
      (expire_step st.expire_interval_ st.max_age_ f.packet_time
        (init_last_expire st.last_expire_ f.packet_time) a.flows).2.find d.conn = some s ∧
      (st.extract w).state.flows_ =
        (capacity_step st.max_flows_ w
          (expire_step st.expire_interval_ st.max_age_ f.packet_time
            (init_last_expire st.last_expire_ f.packet_time) a.flows).2).getD
          (expire_step st.expire_interval_ st.max_age_ f.packet_time
            (init_last_expire st.last_expire_ f.packet_time) a.flows).2 := by
  obtain ⟨hall, s, hs, hl⟩ := account_last rfl ha
  have hsweep : (expire_flows st.max_age_ f.packet_time a.flows).find d.conn = some s := by
    unfold expire_flows
    rw [find_filter_of_forall, hs]
    intro e he hk
    rw [hall e he hk, sub_u64_self]
    simp
  refine ⟨s, hs, hl, hsweep, ?_, (extract_accounted h hd ha).1⟩
  unfold expire_step
  split
  · exact hsweep
  · exact hs

/-- C12 (example): two UDP packets with the same 5-tuple at seconds 10 and 20,
`max_age = 5`, `expire_interval = 5`: the second packet runs the sweep
(`last_expire_` becomes 20) and the table holds exactly the one entry of the
flow, last seen at second 20. -/
theorem C12_current_flow_survives_sweep_witness :
    (∃ s, (expire_flows 5 20 [(sample_conn 1 .udp, ⟨200, 20⟩)]).find (sample_conn 1 .udp) =
        some s ∧ s.last = 20) ∧
      (((pcap "trace" 1000 4 5 5 0).after
        [sample_world (sample_frame 142 17 1 0 10) 8 0]).extract
          (sample_world (sample_frame 142 17 1 0 20) 8 0)).state.flows_ =
        [(sample_conn 1 .udp, ⟨200, 20⟩)] ∧
      (((pcap "trace" 1000 4 5 5 0).after
        [sample_world (sample_frame 142 17 1 0 10) 8 0]).extract
          (sample_world (sample_frame 142 17 1 0 20) 8 0)).state.last_expire_ = 20 := by
  obtain ⟨s, _, hl, hs, _, _⟩ := C12_current_flow_survives_sweep
    ((pcap "trace" 1000 4 5 5 0).after [sample_world (sample_frame 142 17 1 0 10) 8 0])
    (sample_world (sample_frame 142 17 1 0 20) 8 0) (sample_frame 142 17 1 0 20)
    ⟨sample_conn 1 .udp, 128, 100⟩ ⟨[(sample_conn 1 .udp, ⟨200, 20⟩)], 128⟩
    rfl (by decide) (by decide)
  exact ⟨⟨s, hs, hl⟩, by decide, by decide⟩

/-- C13: a call that reads a frame whose EtherType is neither 0x0800 nor 0x86dd
returns the empty result (neither an event nor an error) and leaves the flow table, `last_expire_` and `last_timestamp_` unchanged. -/
theorem C13_non_ip_skipped (st : pcap_state) (w : world) (f : frame)
    (h : st.reads w = some f) (h4 : f.ether_type ≠ 0x0800) (h6 : f.ether_type ≠ 0x86dd) :
    (st.extract w).out = .returned .empty ∧
      (st.extract w).state.flows_ = st.flows_ ∧
      (st.extract w).state.last_expire_ = st.last_expire_ ∧
      (st.extract w).state.last_timestamp_ = st.last_timestamp_ := by
  have hp : parse_packet f = .empty :=
    parse_packet_not_ip (by unfold frame.is_ip; simp [h4, h6])
  obtain ⟨h1, h2, h3, ho⟩ := extract_not_value h (fun d => by rw [hp]; simp)
  refine ⟨?_, h1, h2, h3⟩
  rcases ho with ⟨_, ho⟩ | ⟨e, he, _⟩
  · exact ho
  · rw [hp] at he
    exact absurd he (by simp)

/-- C13 (example): an ARP frame (EtherType 0x0806) in a source with one flow. -/
theorem C13_non_ip_skipped_witness :
    ((sample_state 1000 4 [(sample_conn 1 .tcp, ⟨400, 5⟩)]).extract
        (sample_world sample_arp 8 0)).out = .returned .empty ∧
      ((sample_state 1000 4 [(sample_conn 1 .tcp, ⟨400, 5⟩)]).extract
        (sample_world sample_arp 8 0)).state.flows_ = [(sample_conn 1 .tcp, ⟨400, 5⟩)] ∧
      ((sample_state 1000 4 [(sample_conn 1 .tcp, ⟨400, 5⟩)]).extract
        (sample_world sample_arp 8 0)).state.last_expire_ = 0 ∧
      ((sample_state 1000 4 [(sample_conn 1 .tcp, ⟨400, 5⟩)]).extract
        (sample_world sample_arp 8 0)).state.last_timestamp_ = 0 :=
  C13_non_ip_skipped (sample_state 1000 4 [(sample_conn 1 .tcp, ⟨400, 5⟩)])
    (sample_world sample_arp 8 0) sample_arp rfl (by decide) (by decide)

/-- A call that dissects its frame does not return a header error. -/
theorem extract_value_not_header_error {st : pcap_state} {w : world} {f : frame}
    {d : dissected} (h : st.reads w = some f) (hd : parse_packet f = .value d) :
    (st.extract w).out.is_header_error = false := by
  cases ha : account st.cutoff_ (st.flows_.find_or_insert d.conn f.packet_time) d with
  | none =>
    rw [(extract_dropped h hd ha).2.2]
    rfl
  | some a =>
    rw [(extract_accounted h hd ha).2.2]
    split_ifs <;> rfl

/-- C14: a call that reads a frame returns a header-too-short error if and only
if the frame is IPv4 (EtherType 0x0800) with `wire_len < 34` or
`(first IP byte & 0x0f) * 4 < 20`, or IPv6 (EtherType 0x86dd) with
`wire_len < 54`; in that case it returns no event and leaves the flow table,
`last_expire_` and `last_timestamp_` unchanged. -/
theorem C14_header_too_short (st : pcap_state) (w : world) (f : frame)
    (h : st.reads w = some f) :
    ((st.extract w).out.is_header_error = true ↔
      ((f.ether_type = 0x0800 ∧ (f.wire_len < 34 ∨ (f.byte 14 &&& 0x0f) * 4 < 20)) ∨
        (f.ether_type = 0x86dd ∧ f.wire_len < 54))) ∧
    ((st.extract w).out.is_header_error = true →
      (st.extract w).out.is_event = false ∧
      (st.extract w).state.flows_ = st.flows_ ∧
      (st.extract w).state.last_expire_ = st.last_expire_ ∧
      (st.extract w).state.last_timestamp_ = st.last_timestamp_) := by
  have hiff : f.header_too_short = true ↔
      ((f.ether_type = 0x0800 ∧ (f.wire_len < 34 ∨ (f.byte 14 &&& 0x0f) * 4 < 20)) ∨
        (f.ether_type = 0x86dd ∧ f.wire_len < 54)) := by
    unfold frame.header_too_short
    simp only [decide_eq_true_eq]
  by_cases hs : f.header_too_short = true
  · obtain ⟨e, he, hts⟩ := parse_packet_too_short hs
    obtain ⟨h1, h2, h3, ho⟩ := extract_not_value h (fun d => by rw [he]; simp)
    have hout : (st.extract w).out = .returned (.error e) := by
      rcases ho with ⟨hp, _⟩ | ⟨e1, he1, ho⟩
      · rw [he] at hp
        exact absurd hp (by simp)
      · rw [he] at he1
        simp only [result.error.injEq] at he1
        rw [ho, he1]
    have herr : (st.extract w).out.is_header_error = true := by
      rw [hout]
      exact hts
    refine ⟨⟨fun _ => hiff.1 hs, fun _ => herr⟩, fun _ => ⟨?_, h1, h2, h3⟩⟩
    rw [hout]
    rfl
  · have hne : (st.extract w).out.is_header_error = false := by
      by_cases hip : f.is_ip = true
      · exact extract_value_not_header_error h (parse_packet_ok hip (by simpa using hs))
      · have hp := parse_packet_not_ip (by simpa using hip)
        obtain ⟨_, _, _, ho⟩ := extract_not_value h (fun d => by rw [hp]; simp)
        rcases ho with ⟨_, ho⟩ | ⟨e, he, _⟩
        · rw [ho]
          rfl
        · rw [hp] at he
          exact absurd he (by simp)
    refine ⟨⟨fun hc => ?_, fun hc => absurd (hiff.2 hc) hs⟩, fun hc => ?_⟩
    · rw [hne] at hc
      exact absurd hc (by simp)
    · rw [hne] at hc
      exact absurd hc (by simp)

/-- C14 (example): an IPv4 frame whose first IP byte is 0x44 (`ihl = 4`, 16
bytes) yields the error "IPv4 header too short: 16 bytes", no event, and the
table stays as it was. -/
theorem C14_header_too_short_witness :
    ((sample_state 1000 4 [(sample_conn 1 .tcp, ⟨400, 5⟩)]).extract
        (sample_world sample_ihl4 8 0)).out =
          .returned (.error (.ipv4_header_too_short_bytes 16)) ∧
      ((sample_state 1000 4 [(sample_conn 1 .tcp, ⟨400, 5⟩)]).extract
        (sample_world sample_ihl4 8 0)).out.is_event = false ∧
      ((sample_state 1000 4 [(sample_conn 1 .tcp, ⟨400, 5⟩)]).extract
        (sample_world sample_ihl4 8 0)).state.flows_ = [(sample_conn 1 .tcp, ⟨400, 5⟩)] := by
  have T := C14_header_too_short (sample_state 1000 4 [(sample_conn 1 .tcp, ⟨400, 5⟩)])
    (sample_world sample_ihl4 8 0) sample_ihl4 rfl
  have hc := T.2 (T.1.2 (Or.inl ⟨by decide, Or.inr (by decide)⟩))
  exact ⟨by decide, hc.1, hc.2.1⟩

/-! ## Which calls return an event -/

/-- The drop of line 184 happens exactly when the flow stands at the cutoff
after find-or-insert. -/
theorem account_eq_none_iff (cutoff : Nat) (t : flow_table) (d : dissected) (time : Nat) :
    account cutoff (t.find_or_insert d.conn time) d = none ↔
      (t.find_or_insert d.conn time).bytes_seen d.conn = some cutoff := by
  rw [account_eq, bytes_seen_find_or_insert_self]
  simp only [Option.getD_some, Option.some.injEq]
  constructor
  · intro h
    by_contra hc
    rw [if_neg hc] at h
    split_ifs at h
  · intro h
    rw [if_pos h]

/-- A call that dissects its frame, in a source with `max_flows_ >= 1`,
returns an event unless the flow stands at the cutoff after find-or-insert. -/
theorem extract_value_is_event {st : pcap_state} {w : world} {f : frame} {d : dissected}
    (h : st.reads w = some f) (hd : parse_packet f = .value d) (hm : 0 < st.max_flows_) :
    (st.extract w).out.is_event = true ↔
      (st.flows_.find_or_insert d.conn f.packet_time).bytes_seen d.conn ≠ some st.cutoff_ := by
  cases ha : account st.cutoff_ (st.flows_.find_or_insert d.conn f.packet_time) d with
  | none =>
    rw [(extract_dropped h hd ha).2.2]
    have := (account_eq_none_iff _ _ _ _).1 ha
    simp [outcome.is_event, this]
  | some a =>
    rw [(extract_accounted h hd ha).2.2, capacity_step_isSome hm, if_pos rfl]
    have : ¬ (st.flows_.find_or_insert d.conn f.packet_time).bytes_seen d.conn =
        some st.cutoff_ := by
      intro hc
      rw [(account_eq_none_iff _ _ _ _).2 hc] at ha
      exact absurd ha (by simp)
    simp [outcome.is_event, this]

/-- A call that reads a frame whose parsing yields no value returns no event. -/
theorem extract_not_value_not_event {st : pcap_state} {w : world} {f : frame}
    (h : st.reads w = some f) (hd : ∀ d, parse_packet f ≠ .value d) :
    (st.extract w).out.is_event = false := by
  obtain ⟨_, _, _, ho⟩ := extract_not_value h hd
  rcases ho with ⟨_, ho⟩ | ⟨e, _, ho⟩ <;> rw [ho] <;> rfl

/-- Every call that reads a frame, in a source with `max_flows_ >= 1`, falls in
exactly one of four classes: it returns an event, it drops the packet at the
cutoff, it skips an unknown EtherType, or it reports a header too short. -/
theorem call_classes {st : pcap_state} {w : world} {f : frame}
    (h : st.reads w = some f) (hm : 0 < st.max_flows_) :
    (if (st.extract w).out.is_event then 1 else 0) +
      (if dropped_by_cutoff (st, w) then 1 else 0) +
      (if unknown_ether_type (st, w) then 1 else 0) +
      (if header_too_short (st, w) then 1 else 0) = 1 := by
  unfold dropped_by_cutoff unknown_ether_type header_too_short
  simp only [h]
  by_cases hip : f.is_ip = true
  · by_cases hs : f.header_too_short = true
    · obtain ⟨e, he, _⟩ := parse_packet_too_short hs
      have hev := extract_not_value_not_event h (fun d => by rw [he]; simp)
      simp [hev, he, hip, hs]
    · have hd := parse_packet_ok hip (by simpa using hs)
      have hev := extract_value_is_event h hd hm
      simp only [hd, hip, Bool.not_true, Bool.false_eq_true, if_false, Nat.add_zero]
      simp only [Bool.not_eq_true] at hs
      simp only [hs, Bool.false_eq_true, if_false, Nat.add_zero]
      by_cases hc : (st.flows_.find_or_insert
          (parse_layer4 f f.addresses (sub_u32 f.header.len 14)
            (sub_u64 (sub_u32 f.header.len 14) f.ip_header_size) f.layer4_proto f.layer4).conn
          f.packet_time).bytes_seen
          (parse_layer4 f f.addresses (sub_u32 f.header.len 14)
            (sub_u64 (sub_u32 f.header.len 14) f.ip_header_size) f.layer4_proto f.layer4).conn =
          some st.cutoff_
      · have : (st.extract w).out.is_event = false := by
          by_contra hne
          exact (hev.1 (by simpa using hne)) hc
        simp [this, hc]
      · have : (st.extract w).out.is_event = true := hev.2 hc
        simp [this, hc]
  · have hp := parse_packet_not_ip (by simpa using hip)
    have hev := extract_not_value_not_event h (fun d => by rw [hp]; simp)
    have hs : f.header_too_short = false := by
      by_contra hc
      exact hip (is_ip_of_header_too_short (by simpa using hc))
    simp only [Bool.not_eq_true] at hip
    simp [hev, hp, hip, hs]

/-- The tally of the four classes over a run in which every call reads a
frame. -/
theorem run_tally : ∀ (ws : List world) (st : pcap_state), 0 < st.max_flows_ →
    (∀ c ∈ st.calls ws, (c.1.reads c.2).isSome = true) →
    (st.run ws).countP (fun s => s.out.is_event) + (st.calls ws).countP dropped_by_cutoff +
      (st.calls ws).countP unknown_ether_type + (st.calls ws).countP header_too_short =
        ws.length := by
  intro ws
  induction ws with
  | nil => intro st _ _; rfl
  | cons w ws ih =>
    intro st hm hall
    have hr : (st.reads w).isSome = true := hall (st, w) (by simp [pcap_state.calls])
    obtain ⟨f, hf⟩ := Option.isSome_iff_exists.1 hr
    have hcls : (if (st.extract w).out.is_event then 1 else 0) +
      (if dropped_by_cutoff (st, w) then 1 else 0) +
      (if unknown_ether_type (st, w) then 1 else 0) +
      (if header_too_short (st, w) then 1 else 0) = 1 := call_classes hf hm
    have hmf : (st.extract w).state.max_flows_ = st.max_flows_ := (extract_config hf).2.1
    have hrec : ((st.extract w).state.run ws).countP (fun s => s.out.is_event) +
        ((st.extract w).state.calls ws).countP dropped_by_cutoff +
        ((st.extract w).state.calls ws).countP unknown_ether_type +
        ((st.extract w).state.calls ws).countP header_too_short = ws.length :=
      ih (st.extract w).state (by rw [hmf]; exact hm)
        (fun c hc => hall c (by simp [pcap_state.calls, hc]))
    simp only [pcap_state.run, pcap_state.calls, List.countP_cons, List.length_cons]
    omega

/-- C15 (counterexample): with `max_flows_ = 0`, a 142-byte IPv4 UDP frame of a
new flow has the EtherType 0x0800, passes the length checks, and its flow
holds 0 bytes after find-or-insert, which differs from the cutoff 1000; yet
the call does not return an event: the remainder `flows_.size() % max_flows_`
of line 203 divides by zero. -/
theorem C15_counterexample :
    (sample_state 1000 0 []).reads (sample_world (sample_frame 142 17 2 0 10) 8 0) =
        some (sample_frame 142 17 2 0 10) ∧
      (sample_frame 142 17 2 0 10).ether_type = 0x0800 ∧
      (sample_frame 142 17 2 0 10).header_too_short = false ∧
      parse_packet (sample_frame 142 17 2 0 10) = .value ⟨sample_conn 2 .udp, 128, 100⟩ ∧
      (((sample_state 1000 0 []).flows_.find_or_insert (sample_conn 2 .udp)
          (sample_frame 142 17 2 0 10).packet_time).bytes_seen (sample_conn 2 .udp) = some 0 ∧
        (0 : Nat) ≠ (sample_state 1000 0 []).cutoff_) ∧
      ((sample_state 1000 0 []).extract
        (sample_world (sample_frame 142 17 2 0 10) 8 0)).out = .undefined .division_by_zero ∧
      ((sample_state 1000 0 []).extract
        (sample_world (sample_frame 142 17 2 0 10) 8 0)).out.is_event = false := by
  refine ⟨rfl, by decide, by decide, by decide, ⟨by decide, by decide⟩, rfl, rfl⟩

/-- C15 (amended): in a source with `max_flows_ >= 1`, a call that reads a frame returns
an event if and only if the frame's EtherType is 0x0800 or 0x86dd, the IP
header passes the length checks, and the byte count of the frame's flow after
find-or-insert differs from `cutoff_`; and over every sequence of calls that
each read a frame, the number of events plus the numbers of frames dropped at
the cutoff, skipped for their EtherType, and rejected for a header too short
is the number of frames. -/
theorem C15_event_iff_and_count (st : pcap_state) (hm : 0 < st.max_flows_) :
    (∀ w f, st.reads w = some f →
      ((st.extract w).out.is_event = true ↔
        ((f.ether_type = 0x0800 ∨ f.ether_type = 0x86dd) ∧ f.header_too_short = false ∧
          ∃ d, parse_packet f = .value d ∧
            (st.flows_.find_or_insert d.conn f.packet_time).bytes_seen d.conn ≠
              some st.cutoff_))) ∧
    (∀ ws, (∀ c ∈ st.calls ws, (c.1.reads c.2).isSome = true) →
      (st.run ws).countP (fun s => s.out.is_event) + (st.calls ws).countP dropped_by_cutoff +
          (st.calls ws).countP unknown_ether_type + (st.calls ws).countP header_too_short =
        ws.length ∧
      (st.run ws).countP (fun s => s.out.is_event) =
        ws.length - (st.calls ws).countP dropped_by_cutoff -
          (st.calls ws).countP unknown_ether_type - (st.calls ws).countP header_too_short) := by
  constructor
  · intro w f h
    constructor
    · intro hev
      have hval : ∃ d, parse_packet f = .value d := by
        by_contra hc
        have := extract_not_value_not_event h (fun d hd => hc ⟨d, hd⟩)
        rw [this] at hev
        exact absurd hev (by simp)
      obtain ⟨d, hd⟩ := hval
      obtain ⟨hip, hs⟩ := (parse_packet_value_iff f).1 ⟨d, hd⟩
      refine ⟨?_, hs, d, hd, (extract_value_is_event h hd hm).1 hev⟩
      unfold frame.is_ip at hip
      simpa using hip
    · rintro ⟨_, _, d, hd, hb⟩
      exact (extract_value_is_event h hd hm).2 hb
  · intro ws hall
    have := run_tally ws st hm hall
    exact ⟨this, by omega⟩

set_option maxRecDepth 100000 in
/-- C15 (example): cutoff 1000 and six frames: three TCP packets of one flow
with payload size 400, a fourth packet of that flow, an ARP frame and an IPv4
frame with `ihl = 4`. Three events are returned; one frame is dropped at the
cutoff, one skipped and one rejected. -/
theorem C15_event_iff_and_count_witness :
    ((pcap "trace" 1000 4 60 10 0).run
        [sample_world (sample_frame 454 6 1 0x50 10) 8 0,
          sample_world (sample_frame 454 6 1 0x50 10) 8 0,
          sample_world (sample_frame 454 6 1 0x50 10) 8 0,
          sample_world (sample_frame 454 6 1 0x50 10) 8 0,
          sample_world sample_arp 8 0,
          sample_world sample_ihl4 8 0]).countP (fun s => s.out.is_event) = 6 - 1 - 1 - 1 := by
  have hall : ∀ c ∈ (pcap "trace" 1000 4 60 10 0).calls
      [sample_world (sample_frame 454 6 1 0x50 10) 8 0,
        sample_world (sample_frame 454 6 1 0x50 10) 8 0,
        sample_world (sample_frame 454 6 1 0x50 10) 8 0,
        sample_world (sample_frame 454 6 1 0x50 10) 8 0,
        sample_world sample_arp 8 0,
        sample_world sample_ihl4 8 0], (c.1.reads c.2).isSome = true := by
    intro c hc
    simp only [pcap_state.calls, List.mem_cons, List.mem_singleton, List.not_mem_nil,
      or_false] at hc
    rcases hc with rfl | rfl | rfl | rfl | rfl | rfl <;> rfl
  have T := ((C15_event_iff_and_count (pcap "trace" 1000 4 60 10 0) (by decide)).2 _ hall).2
  have h1 : ((pcap "trace" 1000 4 60 10 0).calls
      [sample_world (sample_frame 454 6 1 0x50 10) 8 0,
        sample_world (sample_frame 454 6 1 0x50 10) 8 0,
        sample_world (sample_frame 454 6 1 0x50 10) 8 0,
        sample_world (sample_frame 454 6 1 0x50 10) 8 0,
        sample_world sample_arp 8 0,
        sample_world sample_ihl4 8 0]).countP dropped_by_cutoff = 1 := by decide
  have h2 : ((pcap "trace" 1000 4 60 10 0).calls
      [sample_world (sample_frame 454 6 1 0x50 10) 8 0,
        sample_world (sample_frame 454 6 1 0x50 10) 8 0,
        sample_world (sample_frame 454 6 1 0x50 10) 8 0,
        sample_world (sample_frame 454 6 1 0x50 10) 8 0,
        sample_world sample_arp 8 0,
        sample_world sample_ihl4 8 0]).countP unknown_ether_type = 1 := by decide
  have h3 : ((pcap "trace" 1000 4 60 10 0).calls
      [sample_world (sample_frame 454 6 1 0x50 10) 8 0,
        sample_world (sample_frame 454 6 1 0x50 10) 8 0,
        sample_world (sample_frame 454 6 1 0x50 10) 8 0,
        sample_world (sample_frame 454 6 1 0x50 10) 8 0,
        sample_world sample_arp 8 0,
        sample_world sample_ihl4 8 0]).countP header_too_short = 1 := by decide
  rw [h1, h2, h3] at T
  exact T

/-! ## Claims on the dissection -/

theorem sub_u64_eq {a b : Nat} (ha : a < 2 ^ 64) (hb : b ≤ a) : sub_u64 a b = a - b := by
  unfold sub_u64
  rw [Nat.mod_eq_of_lt ha, Nat.mod_eq_of_lt (by omega : b < 2 ^ 64)]
  have : a + 2 ^ 64 - b = (a - b) + 2 ^ 64 := by omega
  rw [this, Nat.add_mod_right, Nat.mod_eq_of_lt (by omega)]

/-- The frame that was dissected, in terms of its header fields. -/
theorem parse_packet_value {f : frame} {d : dissected} (hd : parse_packet f = .value d) :
    d = parse_layer4 f f.addresses (sub_u32 f.header.len 14)
      (sub_u64 (sub_u32 f.header.len 14) f.ip_header_size) f.layer4_proto f.layer4 := by
  obtain ⟨hip, hs⟩ := (parse_packet_value_iff f).1 ⟨d, hd⟩
  rw [parse_packet_ok hip hs] at hd
  simp only [result.value.injEq] at hd
  exact hd.symm

/-- The record `meta` of an event that a call returns for a dissected frame. -/
theorem extract_event_meta {st : pcap_state} {w : world} {f : frame} {d : dissected}
    {ev : event} (h : st.reads w = some f) (hd : parse_packet f = .value d)
    (ho : (st.extract w).out = .returned (.value ev)) :
    ev.meta_record = [meta_field.address d.conn.src, meta_field.address d.conn.dst,
      meta_field.port d.conn.sport, meta_field.port d.conn.dport] := by
  obtain ⟨n, hn⟩ := extract_event h hd ho
  rw [hn]
  rfl

/-- C16: for every IPv4 frame that passes the header checks, the connection's
source address is the 4 bytes at IP-header offsets 12..16 and the destination
the 4 bytes at 16..20, both tagged IPv4 and in the order of the frame; the
transport layer is parsed with IP-header byte 9 as protocol number and
`14 + (first_byte & 0x0f) * 4` as offset of the transport header; and an event
that a call returns for the frame carries these addresses in its record. -/
theorem C16_ipv4_dissection (f : frame) (h4 : f.ether_type = 0x0800)
    (hl : ¬ f.wire_len < 34) (hh : ¬ (f.byte 14 &&& 0x0f) * 4 < 20) :
    ∃ d, parse_packet f = .value d ∧
      d.conn.src = { fam := .ipv4, bytes := [f.byte (14 + 12), f.byte (14 + 13),
        f.byte (14 + 14), f.byte (14 + 15)] } ∧
      d.conn.dst = { fam := .ipv4, bytes := [f.byte (14 + 16), f.byte (14 + 17),
        f.byte (14 + 18), f.byte (14 + 19)] } ∧
      d = parse_layer4 f
        { connection.default with
            src := { fam := .ipv4, bytes := [f.byte (14 + 12), f.byte (14 + 13),
              f.byte (14 + 14), f.byte (14 + 15)] },
            dst := { fam := .ipv4, bytes := [f.byte (14 + 16), f.byte (14 + 17),
              f.byte (14 + 18), f.byte (14 + 19)] } }
        (sub_u32 f.header.len 14)
        (sub_u64 (sub_u32 f.header.len 14) ((f.byte 14 &&& 0x0f) * 4))
        (f.byte (14 + 9)) (14 + (f.byte 14 &&& 0x0f) * 4) ∧
      ∀ (st : pcap_state) (w : world) (ev : event), st.reads w = some f →
        (st.extract w).out = .returned (.value ev) →
        ev.meta_record = [meta_field.address d.conn.src, meta_field.address d.conn.dst,
          meta_field.port d.conn.sport, meta_field.port d.conn.dport] := by
  have hip : f.is_ip = true := by
    unfold frame.is_ip
    simp [h4]
  have hs : f.header_too_short = false := by
    unfold frame.header_too_short
    simp only [decide_eq_false_iff_not, not_or, not_and]
    refine ⟨fun _ => ⟨hl, hh⟩, fun h6 => ?_⟩
    rw [h4] at h6
    exact absurd h6 (by decide)
  have hd := parse_packet_ok hip hs
  have haddr : f.addresses =
      { connection.default with
          src := { fam := .ipv4, bytes := [f.byte (14 + 12), f.byte (14 + 13),
            f.byte (14 + 14), f.byte (14 + 15)] },
          dst := { fam := .ipv4, bytes := [f.byte (14 + 16), f.byte (14 + 17),
            f.byte (14 + 18), f.byte (14 + 19)] } } := by
    unfold frame.addresses
    rw [if_pos h4]
    rfl
  have hproto : f.layer4_proto = f.byte (14 + 9) := by
    unfold frame.layer4_proto
    rw [if_pos h4]
  have hsize : f.ip_header_size = (f.byte 14 &&& 0x0f) * 4 := by
    unfold frame.ip_header_size
    rw [if_pos h4]
  have hl4 : f.layer4 = 14 + (f.byte 14 &&& 0x0f) * 4 := by
    unfold frame.layer4
    rw [hsize]
  rw [haddr, hproto, hsize, hl4] at hd
  refine ⟨_, hd, ?_, ?_, rfl, ?_⟩
  · exact (parse_layer4_addresses _ _ _ _ _ _).1
  · exact (parse_layer4_addresses _ _ _ _ _ _).2
  · intro st w ev hr ho
    exact extract_event_meta hr hd ho

/-- C16 (example): a TCP frame from 0.0.0.7 with a 20-byte IPv4 header. -/
theorem C16_ipv4_dissection_witness :
    ∃ d, parse_packet (sample_frame 454 6 7 0x50 10) = .value d ∧
      d.conn.src = { fam := .ipv4, bytes := [0, 0, 0, 7] } ∧
      d.conn.dst = { fam := .ipv4, bytes := [0, 0, 0, 0] } := by
  obtain ⟨d, hd, hsrc, hdst, _⟩ := C16_ipv4_dissection (sample_frame 454 6 7 0x50 10)
    (by decide) (by decide) (by decide)
  exact ⟨d, hd, hsrc, hdst⟩

/-- C17: an IPv6 UDP frame of 100 bytes from 2001:db8::1 to 2001:db8::2 is
dissected with both addresses equal to the 4 bytes 20 01 0d b8 tagged IPv4:
the source is not the 16 bytes at IP-header offsets 8..24 tagged IPv6, and the
two hosts are not told apart. The protocol number is the next-header byte. -/
theorem C17_ipv6_addresses_truncated :
    parse_packet (sample_ipv6 100 17 1 2) =
      .value { conn := { src := { fam := .ipv4, bytes := [0x20, 0x01, 0x0d, 0xb8] },
                         dst := { fam := .ipv4, bytes := [0x20, 0x01, 0x0d, 0xb8] },
                         sport := { number := 0, type := .udp },
                         dport := { number := 0, type := .udp } },
               packet_size := 86, payload_size := 38 } ∧
    address.from_network (sample_ipv6 100 17 1 2) (14 + 8) .ipv6 =
      { fam := .ipv6, bytes := [0x20, 0x01, 0x0d, 0xb8, 0, 0, 0, 0, 0, 0, 0, 0, 0, 0, 0, 1] } ∧
    ({ fam := .ipv4, bytes := [0x20, 0x01, 0x0d, 0xb8] } : address) ≠
      address.from_network (sample_ipv6 100 17 1 2) (14 + 8) .ipv6 ∧
    (sample_ipv6 100 17 1 2).ether_type = 0x86dd ∧ ¬ (sample_ipv6 100 17 1 2).wire_len < 54 := by
  decide

/-- C18: for every dissected frame with protocol number `p` and transport
header at offset `l4`: if `p` is 6 (TCP) or 17 (UDP), `sport` and `dport` are
the big-endian 16-bit values of the bytes `l4, l4 + 1` and `l4 + 2, l4 + 3`,
tagged tcp resp. udp; if `p` is 1 (ICMP), `sport` is byte `l4` (the message
type) and `dport` is byte `l4 + 1` (the message code), both tagged icmp; and
an event that a call returns for the frame carries these ports. -/
theorem C18_ports (f : frame) (d : dissected) (hd : parse_packet f = .value d) :
    (f.layer4_proto = 6 →
      d.conn.sport = { number := f.byte f.layer4 * 256 + f.byte (f.layer4 + 1), type := .tcp } ∧
      d.conn.dport =
        { number := f.byte (f.layer4 + 2) * 256 + f.byte (f.layer4 + 3), type := .tcp }) ∧
    (f.layer4_proto = 17 →
      d.conn.sport = { number := f.byte f.layer4 * 256 + f.byte (f.layer4 + 1), type := .udp } ∧
      d.conn.dport =
        { number := f.byte (f.layer4 + 2) * 256 + f.byte (f.layer4 + 3), type := .udp }) ∧
    (f.layer4_proto = 1 →
      d.conn.sport = { number := f.byte f.layer4, type := .icmp } ∧
      d.conn.dport = { number := f.byte (f.layer4 + 1), type := .icmp }) ∧
    ∀ (st : pcap_state) (w : world) (ev : event), st.reads w = some f →
      (st.extract w).out = .returned (.value ev) →
      ev.meta_record = [meta_field.address d.conn.src, meta_field.address d.conn.dst,
        meta_field.port d.conn.sport, meta_field.port d.conn.dport] := by
  have hv := parse_packet_value hd
  refine ⟨?_, ?_, ?_, fun st w ev hr ho => extract_event_meta hr hd ho⟩
  · intro hp
    rw [hv]
    unfold parse_layer4
    rw [if_pos hp]
    exact ⟨rfl, rfl⟩
  · intro hp
    rw [hv]
    unfold parse_layer4
    rw [if_neg (by rw [hp]; decide), if_pos hp]
    exact ⟨rfl, rfl⟩
  · intro hp
    rw [hv]
    unfold parse_layer4
    rw [if_neg (by rw [hp]; decide), if_neg (by rw [hp]; decide), if_pos hp]
    exact ⟨rfl, rfl⟩

/-- C18 (example): a UDP frame from port 53 to port 4660 (0x1234) and an ICMP
echo request (type 8, code 0). -/
theorem C18_ports_witness :
    (parse_packet (sample_bytes [(12, 0x08), (14, 0x45), (23, 17), (35, 53), (36, 0x12),
        (37, 0x34)] 142 10) =
      .value ⟨⟨⟨.ipv4, [0, 0, 0, 0]⟩, ⟨.ipv4, [0, 0, 0, 0]⟩, ⟨53, .udp⟩, ⟨4660, .udp⟩⟩,
        128, 100⟩ ∧
      (⟨53, .udp⟩ : port) = { number := 0 * 256 + 53, type := .udp } ∧
      (⟨4660, .udp⟩ : port) = { number := 0x12 * 256 + 0x34, type := .udp }) ∧
    (parse_packet (sample_bytes [(12, 0x08), (14, 0x45), (23, 1), (34, 8)] 142 10) =
      .value ⟨⟨⟨.ipv4, [0, 0, 0, 0]⟩, ⟨.ipv4, [0, 0, 0, 0]⟩, ⟨8, .icmp⟩, ⟨0, .icmp⟩⟩,
        128, 100⟩ ∧
      (⟨8, .icmp⟩ : port) = { number := 8, type := .icmp } ∧
      (⟨0, .icmp⟩ : port) = { number := 0, type := .icmp }) :=
  ⟨⟨by decide,
    ((C18_ports (sample_bytes [(12, 0x08), (14, 0x45), (23, 17), (35, 53), (36, 0x12),
        (37, 0x34)] 142 10)
      ⟨⟨⟨.ipv4, [0, 0, 0, 0]⟩, ⟨.ipv4, [0, 0, 0, 0]⟩, ⟨53, .udp⟩, ⟨4660, .udp⟩⟩, 128, 100⟩
      (by decide)).2.1 (by decide))⟩,
   ⟨by decide,
    ((C18_ports (sample_bytes [(12, 0x08), (14, 0x45), (23, 1), (34, 8)] 142 10)
      ⟨⟨⟨.ipv4, [0, 0, 0, 0]⟩, ⟨.ipv4, [0, 0, 0, 0]⟩, ⟨8, .icmp⟩, ⟨0, .icmp⟩⟩, 128, 100⟩
      (by decide)).2.2.1 (by decide))⟩⟩

/-- The payload size of a dissected frame as the code computes it: two
subtractions modulo `2 ^ 64`. -/
theorem payload_size_eq {f : frame} {d : dissected} (hd : parse_packet f = .value d) :
    d.payload_size = sub_u64 (sub_u64 (sub_u32 f.header.len 14) f.ip_header_size)
        f.l4_header_size ∨
      (f.l4_header_size = 0 ∧
        d.payload_size = sub_u64 (sub_u32 f.header.len 14) f.ip_header_size) := by
  rw [parse_packet_value hd]
  unfold parse_layer4 frame.l4_header_size
  by_cases h6 : f.layer4_proto = 6
  · rw [if_pos h6, if_pos h6]
    exact Or.inl rfl
  · rw [if_neg h6, if_neg h6]
    by_cases h17 : f.layer4_proto = 17
    · rw [if_pos h17, if_pos h17]
      exact Or.inl rfl
    · rw [if_neg h17, if_neg h17]
      by_cases h1 : f.layer4_proto = 1
      · rw [if_pos h1, if_pos h1]
        exact Or.inl rfl
      · rw [if_neg h1, if_neg h1]
        exact Or.inr ⟨rfl, rfl⟩

theorem sub_u32_len {f : frame} {d : dissected} (hd : parse_packet f = .value d) :
    sub_u32 f.header.len 14 = f.wire_len - 14 ∧ 34 ≤ f.wire_len := by
  have h := (parse_packet_packet_size hd).2
  unfold frame.wire_len
  refine ⟨?_, h⟩
  unfold sub_u32
  have hlt : f.header.len % 2 ^ 32 < 2 ^ 32 := Nat.mod_lt _ (by norm_num)
  have : f.header.len % 2 ^ 32 + 2 ^ 32 - 14 % 2 ^ 32 =
      (f.header.len % 2 ^ 32 - 14) + 2 ^ 32 := by
    norm_num
    omega
  rw [this, Nat.add_mod_right, Nat.mod_eq_of_lt (by omega)]

/-- C19: for every frame that passes the header checks and has
`wire_len - 14 >= H_ip + H_l4`, the payload size that the flow accounting uses
is `wire_len - 14 - H_ip - H_l4`, with `H_ip = (first_byte & 0x0f) * 4` for
IPv4 and 40 for IPv6, and `H_l4 = (transport byte 12 >> 4) * 4` for TCP, 8 for
UDP and for ICMP, and 0 for any other protocol. -/
theorem C19_payload_size (f : frame) (d : dissected) (hd : parse_packet f = .value d)
    (hfit : f.ip_header_size + f.l4_header_size ≤ f.wire_len - 14) :
    d.payload_size = f.wire_len - 14 - f.ip_header_size - f.l4_header_size ∧
      f.ip_header_size = (if f.ether_type = 0x0800 then (f.byte 14 &&& 0x0f) * 4 else 40) ∧
      f.l4_header_size =
        (if f.layer4_proto = 6 then (f.byte (f.layer4 + 12) >>> 4) * 4
          else if f.layer4_proto = 17 then 8
          else if f.layer4_proto = 1 then 8
          else 0) := by
  obtain ⟨hlen, _⟩ := sub_u32_len hd
  have hw : f.wire_len < 2 ^ 32 := Nat.mod_lt _ (by norm_num)
  refine ⟨?_, rfl, rfl⟩
  rcases payload_size_eq hd with hp | ⟨h0, hp⟩
  · rw [hp, hlen, sub_u64_eq (a := f.wire_len - 14) (by omega) (by omega),
      sub_u64_eq (by omega) (by omega)]
  · rw [hp, hlen, sub_u64_eq (a := f.wire_len - 14) (by omega) (by omega), h0]
    rfl

/-- C19 (example): a 454-byte TCP frame with a 20-byte IPv4 header and data
offset 5: payload size 454 - 14 - 20 - 20 = 400. -/
theorem C19_payload_size_witness :
    (sample_frame 454 6 1 0x50 10).ip_header_size +
        (sample_frame 454 6 1 0x50 10).l4_header_size ≤
          (sample_frame 454 6 1 0x50 10).wire_len - 14 ∧
      (⟨sample_conn 1 .tcp, 440, 400⟩ : dissected).payload_size = 454 - 14 - 20 - 20 :=
  ⟨by decide, (C19_payload_size (sample_frame 454 6 1 0x50 10) ⟨sample_conn 1 .tcp, 440, 400⟩
    (by decide) (by decide)).1⟩

/-- C20 (counterexample): with `max_flows_ = 0`, a 142-byte IPv4 frame with
protocol 47 (GRE), which passes the header checks and whose new flow does not
stand at the cutoff 1000, is not emitted: the remainder
`flows_.size() % max_flows_` of line 203 divides by zero and the call returns
neither an event nor the empty result. -/
theorem C20_counterexample :
    (sample_state 1000 0 []).reads (sample_world (sample_frame 142 47 3 0 10) 8 0) =
        some (sample_frame 142 47 3 0 10) ∧
      parse_packet (sample_frame 142 47 3 0 10) = .value ⟨sample_conn 3 .unknown, 128, 108⟩ ∧
      (sample_frame 142 47 3 0 10).layer4_proto = 47 ∧
      ((sample_state 1000 0 []).flows_.find_or_insert (sample_conn 3 .unknown)
          (sample_frame 142 47 3 0 10).packet_time).bytes_seen (sample_conn 3 .unknown) ≠
        some (sample_state 1000 0 []).cutoff_ ∧
      ((sample_state 1000 0 []).extract
        (sample_world (sample_frame 142 47 3 0 10) 8 0)).out = .undefined .division_by_zero ∧
      ((sample_state 1000 0 []).extract
        (sample_world (sample_frame 142 47 3 0 10) 8 0)).out.is_event = false := by
  refine ⟨rfl, by decide, by decide, by decide, rfl, rfl⟩

/-- C20 (amended): for every IP frame that passes the header checks and whose transport
protocol is none of TCP (6), UDP (17), ICMP (1), in a source with
`max_flows_ >= 1`: the ports of the connection are the default port (number 0,
type unknown), the payload size is the packet size minus the IP header size
only (`wire_len - 14 - H_ip` when the IP header fits the packet), and the
call returns an event that carries the two default ports unless the flow
stands at the cutoff after find-or-insert, in which case it returns the empty
result. -/
theorem C20_unknown_transport (st : pcap_state) (w : world) (f : frame) (d : dissected)
    (h : st.reads w = some f) (hd : parse_packet f = .value d) (hm : 0 < st.max_flows_)
    (h6 : f.layer4_proto ≠ 6) (h17 : f.layer4_proto ≠ 17) (h1 : f.layer4_proto ≠ 1) :
    d.conn.sport = { number := 0, type := .unknown } ∧
      d.conn.dport = { number := 0, type := .unknown } ∧
      d.payload_size = sub_u64 d.packet_size f.ip_header_size ∧
      (f.ip_header_size ≤ f.wire_len - 14 →
        d.payload_size = f.wire_len - 14 - f.ip_header_size) ∧
      ((st.flows_.find_or_insert d.conn f.packet_time).bytes_seen d.conn ≠ some st.cutoff_ →
        ∃ ev, (st.extract w).out = .returned (.value ev) ∧
          ev.meta_record = [meta_field.address d.conn.src, meta_field.address d.conn.dst,
            meta_field.port { number := 0, type := .unknown },
            meta_field.port { number := 0, type := .unknown }]) ∧
      ((st.flows_.find_or_insert d.conn f.packet_time).bytes_seen d.conn = some st.cutoff_ →
        (st.extract w).out = .returned .empty) := by
  have hv := parse_packet_value hd
  have hform : d = (⟨f.addresses, sub_u32 f.header.len 14,
      sub_u64 (sub_u32 f.header.len 14) f.ip_header_size⟩ : dissected) := by
    rw [hv]
    unfold parse_layer4
    rw [if_neg h6, if_neg h17, if_neg h1]
  have hsp : d.conn.sport = { number := 0, type := .unknown } := by
    rw [hform]
    unfold frame.addresses
    split_ifs <;> rfl
  have hdp : d.conn.dport = { number := 0, type := .unknown } := by
    rw [hform]
    unfold frame.addresses
    split_ifs <;> rfl
  have hpl : d.payload_size = sub_u64 d.packet_size f.ip_header_size := by
    rw [hform]
  obtain ⟨hlen, _⟩ := sub_u32_len hd
  have hw : f.wire_len < 2 ^ 32 := Nat.mod_lt _ (by norm_num)
  refine ⟨hsp, hdp, hpl, ?_, ?_, ?_⟩
  · intro hfit
    rw [hpl, (parse_packet_packet_size hd).1, hlen, sub_u64_eq (by omega) hfit]
  · intro hb
    have hev := (extract_value_is_event h hd hm).2 hb
    cases ho : (st.extract w).out with
    | undefined u =>
      rw [ho] at hev
      exact absurd hev (by simp [outcome.is_event])
    | returned r =>
      cases r with
      | empty =>
        rw [ho] at hev
        exact absurd hev (by simp [outcome.is_event])
      | error e =>
        rw [ho] at hev
        exact absurd hev (by simp [outcome.is_event])
      | value ev =>
        refine ⟨ev, rfl, ?_⟩
        rw [extract_event_meta h hd ho, hsp, hdp]
  · intro hb
    exact (extract_dropped h hd ((account_eq_none_iff _ _ _ _).2 hb)).2.2

/-- C20 (example): a 142-byte IPv4 frame with protocol 47 (GRE) in a source
with cutoff 1000: an event with two default ports, payload size 142 - 14 - 20. -/
theorem C20_unknown_transport_witness :
    (⟨sample_conn 1 .unknown, 128, 108⟩ : dissected).payload_size = 142 - 14 - 20 ∧
      ∃ ev, ((sample_state 1000 4 []).extract
          (sample_world (sample_frame 142 47 1 0 10) 8 0)).out = .returned (.value ev) ∧
        ev.meta_record = [meta_field.address ⟨.ipv4, [0, 0, 0, 1]⟩,
          meta_field.address ⟨.ipv4, [0, 0, 0, 0]⟩,
          meta_field.port { number := 0, type := .unknown },
          meta_field.port { number := 0, type := .unknown }] := by
  have T := C20_unknown_transport (sample_state 1000 4 [])
    (sample_world (sample_frame 142 47 1 0 10) 8 0) (sample_frame 142 47 1 0 10)
    ⟨sample_conn 1 .unknown, 128, 108⟩ rfl (by decide) (by decide) (by decide) (by decide)
    (by decide)
  exact ⟨T.2.2.2.1 (by decide), T.2.2.2.2.1 (by decide)⟩

/-! ## Claims on the emitted event -/

/-- An event that a call returns comes from a dissected frame that passed the
accounting, and carries the packet size that the accounting left. -/
theorem extract_value_dissected {st : pcap_state} {w : world} {f : frame} {ev : event}
    (h : st.reads w = some f) (ho : (st.extract w).out = .returned (.value ev)) :
    ∃ d a, parse_packet f = .value d ∧
      account st.cutoff_ (st.flows_.find_or_insert d.conn f.packet_time) d = some a ∧
      ev = make_event w.nano f d a.packet_size := by
  cases hp : parse_packet f with
  | empty =>
    rcases (extract_not_value h (by simp [hp])).2.2.2 with ⟨_, h2⟩ | ⟨e, _, h2⟩ <;>
      rw [h2] at ho <;> simp at ho
  | error e0 =>
    rcases (extract_not_value h (by simp [hp])).2.2.2 with ⟨_, h2⟩ | ⟨e, _, h2⟩ <;>
      rw [h2] at ho <;> simp at ho
  | value d =>
    cases ha : account st.cutoff_ (st.flows_.find_or_insert d.conn f.packet_time) d with
    | none =>
      rw [(extract_dropped h hp ha).2.2] at ho
      simp at ho
    | some a =>
      refine ⟨d, a, rfl, ha, ?_⟩
      rw [(extract_accounted h hp ha).2.2] at ho
      split_ifs at ho
      · simp only [outcome.returned.injEq, result.value.injEq] at ho
        exact ho.symm

/-- The bytes of a slice are the bytes of the frame from its start on. -/
theorem getElem?_slice (f : frame) (i n j : Nat) (hj : j < n) :
    (f.slice i n)[j]? = some (f.byte (i + j)) := by
  simp [frame.slice, hj]

/-- C21 (counterexample): a 142-byte IPv4 frame with protocol 47 (GRE), which
is none of TCP, UDP, ICMP, is not skipped: the call returns an event, whose two
ports are the default port, whereas the ARP frame is skipped. -/
theorem C21_counterexample :
    (sample_frame 142 47 1 0 10).is_ip = true ∧
      (sample_frame 142 47 1 0 10).layer4_proto = 47 ∧
      ((sample_state 1000 4 []).extract
        (sample_world (sample_frame 142 47 1 0 10) 8 0)).out =
        .returned (.value (make_event true (sample_frame 142 47 1 0 10)
          ⟨sample_conn 1 .unknown, 128, 108⟩ 128)) ∧
      ((sample_state 1000 4 []).extract
        (sample_world (sample_frame 142 47 1 0 10) 8 0)).out ≠ .returned .empty ∧
      ((sample_state 1000 4 []).extract (sample_world sample_arp 8 0)).out =
        .returned .empty := by
  refine ⟨by decide, by decide, rfl, ?_, rfl⟩
  intro h
  have h2 : ((sample_state 1000 4 []).extract
      (sample_world (sample_frame 142 47 1 0 10) 8 0)).out.is_event = false := by
    rw [h]
    rfl
  exact absurd h2 (by decide)

/-- C21 (amended): for every IP frame that passes the header checks and whose
transport protocol is none of TCP (6), UDP (17), ICMP (1), in a source with
`max_flows_ >= 1`: the frame is not skipped as a frame with a non-IP EtherType
is. The call returns no error, and it returns an event, with the two ports at
their default, exactly when the flow does not stand at the cutoff after
find-or-insert; when it does, the call returns the empty result as for every
other frame of a flow at the cutoff. -/
theorem C21_unknown_transport_emitted (st : pcap_state) (w : world) (f : frame) (d : dissected)
    (h : st.reads w = some f) (hd : parse_packet f = .value d) (hm : 0 < st.max_flows_)
    (h6 : f.layer4_proto ≠ 6) (h17 : f.layer4_proto ≠ 17) (h1 : f.layer4_proto ≠ 1) :
    f.is_ip = true ∧
      (∀ e, (st.extract w).out ≠ .returned (.error e)) ∧
      ((st.extract w).out.is_event = true ↔
        (st.flows_.find_or_insert d.conn f.packet_time).bytes_seen d.conn ≠ some st.cutoff_) ∧
      ((st.extract w).out.is_event = false → (st.extract w).out = .returned .empty) ∧
      (∀ ev, (st.extract w).out = .returned (.value ev) →
        ev.meta_record = [meta_field.address d.conn.src, meta_field.address d.conn.dst,
          meta_field.port port.default, meta_field.port port.default]) := by
  have hv := parse_packet_value hd
  have hform : d = (⟨f.addresses, sub_u32 f.header.len 14,
      sub_u64 (sub_u32 f.header.len 14) f.ip_header_size⟩ : dissected) := by
    rw [hv]
    unfold parse_layer4
    rw [if_neg h6, if_neg h17, if_neg h1]
  have hsp : d.conn.sport = port.default := by
    rw [hform]
    unfold frame.addresses
    split_ifs <;> rfl
  have hdp : d.conn.dport = port.default := by
    rw [hform]
    unfold frame.addresses
    split_ifs <;> rfl
  have hev := extract_value_is_event h hd hm
  refine ⟨((parse_packet_value_iff f).1 ⟨d, hd⟩).1, ?_, hev, ?_, ?_⟩
  · intro e he
    cases ha : account st.cutoff_ (st.flows_.find_or_insert d.conn f.packet_time) d with
    | none =>
      rw [(extract_dropped h hd ha).2.2] at he
      simp at he
    | some a =>
      rw [(extract_accounted h hd ha).2.2] at he
      split_ifs at he
      simp at he
  · intro hne
    have hb : (st.flows_.find_or_insert d.conn f.packet_time).bytes_seen d.conn =
        some st.cutoff_ := by
      by_contra hc
      rw [hev.2 hc] at hne
      exact absurd hne (by simp)
    exact (extract_dropped h hd ((account_eq_none_iff _ _ _ _).2 hb)).2.2
  · intro ev ho
    rw [extract_event_meta h hd ho, hsp, hdp]

/-- C21 (example): the GRE frame in a source with cutoff 1000 and room for 4
flows yields an event; the same frame in a flow that stands at the cutoff
yields the empty result. -/
theorem C21_unknown_transport_emitted_witness :
    ((sample_state 1000 4 []).extract
        (sample_world (sample_frame 142 47 1 0 10) 8 0)).out.is_event = true ∧
      ((sample_state 1000 4 [(sample_conn 1 .unknown, ⟨1000, 9⟩)]).extract
        (sample_world (sample_frame 142 47 1 0 10) 8 0)).out = .returned .empty :=
  ⟨(C21_unknown_transport_emitted (sample_state 1000 4 [])
      (sample_world (sample_frame 142 47 1 0 10) 8 0) (sample_frame 142 47 1 0 10)
      ⟨sample_conn 1 .unknown, 128, 108⟩ rfl (by decide) (by decide) (by decide) (by decide)
      (by decide)).2.2.1.2 (by decide),
   (C21_unknown_transport_emitted (sample_state 1000 4 [(sample_conn 1 .unknown, ⟨1000, 9⟩)])
      (sample_world (sample_frame 142 47 1 0 10) 8 0) (sample_frame 142 47 1 0 10)
      ⟨sample_conn 1 .unknown, 128, 108⟩ rfl (by decide) (by decide) (by decide) (by decide)
      (by decide)).2.2.2.1 (by decide)⟩

/-- C22: for every event that a call returns for the frame it read, the
payload is the run of frame bytes that starts at offset 14 (byte `j` of the
payload is byte `14 + j` of the frame, so no byte of the 14-byte link header is
part of it) and has the recorded packet length; the record `meta` is (src,
dst, sport, dport) of the connection key in that order. The recorded length is
`wire_len - 14` when the flow's count plus the payload size stays within the
cutoff, and otherwise `wire_len - 14` minus the overshoot in the arithmetic of
lines 185-191; for a flow within the cutoff and a payload size within the
packet that is `wire_len - 14 - (bytes + payload_size - cutoff)`. -/
theorem C22_payload_and_meta (st : pcap_state) (w : world) (f : frame) (ev : event)
    (h : st.reads w = some f) (ho : (st.extract w).out = .returned (.value ev)) :
    ∃ d, parse_packet f = .value d ∧
      ev.payload = f.slice 14 ev.payload.length ∧
      (∀ j, j < ev.payload.length → ev.payload[j]? = some (f.byte (14 + j))) ∧
      ev.meta_record = [meta_field.address d.conn.src, meta_field.address d.conn.dst,
        meta_field.port d.conn.sport, meta_field.port d.conn.dport] ∧
      ev.payload.length =
        (if add_u64 ((st.flows_.bytes_seen d.conn).getD 0) d.payload_size ≤ st.cutoff_ then
          f.wire_len - 14
        else to_u32 (sub_u64 (f.wire_len - 14)
          (sub_u64 (add_u64 ((st.flows_.bytes_seen d.conn).getD 0) d.payload_size)
            st.cutoff_))) ∧
      ((st.flows_.bytes_seen d.conn).getD 0 ≤ st.cutoff_ →
        (st.flows_.bytes_seen d.conn).getD 0 + d.payload_size < 2 ^ 64 →
        d.payload_size ≤ f.wire_len - 14 →
        ev.payload.length =
          f.wire_len - 14 - ((st.flows_.bytes_seen d.conn).getD 0 + d.payload_size - st.cutoff_)) := by
  obtain ⟨d, a, hd, ha, hev⟩ := extract_value_dissected h ho
  have hlen : ev.payload.length = a.packet_size := by
    rw [hev]
    simp only [make_event, length_slice]
  have hps : d.packet_size = f.wire_len - 14 := by
    rw [(parse_packet_packet_size hd).1]
    exact (sub_u32_len hd).1
  have hw : f.wire_len < 2 ^ 32 := Nat.mod_lt _ (by norm_num)
  have hacc : a.packet_size =
      (if add_u64 ((st.flows_.bytes_seen d.conn).getD 0) d.payload_size ≤ st.cutoff_ then
        f.wire_len - 14
      else to_u32 (sub_u64 (f.wire_len - 14)
        (sub_u64 (add_u64 ((st.flows_.bytes_seen d.conn).getD 0) d.payload_size)
          st.cutoff_))) := by
    rw [account_eq, bytes_seen_find_or_insert_self] at ha
    simp only [Option.getD_some] at ha
    split_ifs at ha with h1 h2
    · simp only [Option.some.injEq] at ha
      rw [if_pos h2, ← ha, hps]
    · simp only [Option.some.injEq] at ha
      rw [if_neg h2, ← ha, hps]
  refine ⟨d, hd, ?_, ?_, ?_, ?_, ?_⟩
  · rw [hlen, hev]
    rfl
  · intro j hj
    rw [hlen] at hj
    rw [hev]
    exact getElem?_slice f 14 a.packet_size j hj
  · rw [hev]
    rfl
  · rw [hlen, hacc]
  · intro hb hsum hp
    rw [hlen, hacc]
    have hadd : add_u64 ((st.flows_.bytes_seen d.conn).getD 0) d.payload_size =
        (st.flows_.bytes_seen d.conn).getD 0 + d.payload_size := Nat.mod_eq_of_lt hsum
    rw [hadd]
    by_cases hc : (st.flows_.bytes_seen d.conn).getD 0 + d.payload_size ≤ st.cutoff_
    · rw [if_pos hc]
      omega
    · rw [if_neg hc, sub_u64_eq hsum (by omega), trimmed_length (by omega) (by omega)]

/-- C22 (example): a 142-byte TCP frame of a flow that stands at 960 of 1000
bytes: the event has the 80 bytes of the frame from offset 14 on, and its
record is (0.0.0.1, 0.0.0.0, 0/tcp, 0/tcp). -/
theorem C22_payload_and_meta_witness :
    ∃ d, parse_packet (sample_frame 142 6 1 0x50 10) = .value d ∧
      (make_event true (sample_frame 142 6 1 0x50 10) ⟨sample_conn 1 .tcp, 128, 88⟩ 80).payload =
        (sample_frame 142 6 1 0x50 10).slice 14
          (make_event true (sample_frame 142 6 1 0x50 10)
            ⟨sample_conn 1 .tcp, 128, 88⟩ 80).payload.length ∧
      (make_event true (sample_frame 142 6 1 0x50 10)
        ⟨sample_conn 1 .tcp, 128, 88⟩ 80).payload.length = 80 := by
  obtain ⟨d, h1, h2, _, _, _, _⟩ := C22_payload_and_meta
    (sample_state 1000 4 [(sample_conn 1 .tcp, ⟨960, 9⟩)])
    (sample_world (sample_frame 142 6 1 0x50 10) 8 0) (sample_frame 142 6 1 0x50 10)
    (make_event true (sample_frame 142 6 1 0x50 10) ⟨sample_conn 1 .tcp, 128, 88⟩ 80) rfl rfl
  exact ⟨d, h1, h2, by simp only [make_event, length_slice]⟩

/-- A value within the range of a signed 64-bit count is kept. -/
theorem wrap_i64_of_range {x : Int} (h1 : -(2 ^ 63) ≤ x) (h2 : x < 2 ^ 63) : wrap_i64 x = x := by
  unfold wrap_i64
  omega

theorem wrap_i64_range (x : Int) : -(2 ^ 63) ≤ wrap_i64 x ∧ wrap_i64 x < 2 ^ 63 := by
  unfold wrap_i64
  omega

theorem wrap_i64_add (a b : Int) : wrap_i64 (wrap_i64 a + b) = wrap_i64 (a + b) := by
  unfold wrap_i64
  omega

theorem wrap_i64_mul (a : Int) : wrap_i64 (wrap_i64 a * 1000) = wrap_i64 (a * 1000) := by
  unfold wrap_i64
  omega

/-- The timestamp is `tv_sec * 10^9 + ts_sub` nanoseconds as a signed 64-bit
count, in either build. -/
theorem packet_timestamp_eq (nano : Bool) (h : pcap_pkthdr) :
    packet_timestamp nano h =
      wrap_i64 (h.tv_sec * 1000000000 + (if nano then h.tv_usec else h.tv_usec * 1000)) := by
  cases nano
  · simp only [packet_timestamp, packet_count, Bool.false_eq_true, if_false]
    rw [wrap_i64_add, wrap_i64_mul]
    congr 1
    ring
  · simp only [packet_timestamp, packet_count, if_true]
    rw [wrap_i64_add]

/-- C23 (counterexample): in a build with nanosecond precision, a frame
captured at `tv_sec = 9223372037` and `tv_usec = 0` is returned as an event
whose timestamp is -9223372036709551616 ns, not `9223372037 * 10^9`: the
product does not fit the signed 64-bit nanosecond count. -/
theorem C23_counterexample :
    ∃ ev, ((sample_paced 0).extract (sample_world (sample_timed 9223372037 0) 8 0)).out =
        .returned (.value ev) ∧
      (sample_world (sample_timed 9223372037 0) 8 0).nano = true ∧
      ev.timestamp = -9223372036709551616 ∧
      ev.timestamp ≠ 9223372037 * 1000000000 + 0 :=
  ⟨_, rfl, rfl, by decide, by decide⟩

/-- C23 (amended): for every event that a call returns for the frame it read,
the timestamp is `ts_sec * 10^9 + ts_sub` nanoseconds as a signed 64-bit count,
`ts_sub * 1000` taking the place of `ts_sub` in a build without nanosecond
precision; it is `ts_sec * 10^9 + ts_sub` itself when that lies between
`-2^63` and `2^63 - 1`; any other call, in whatever state, that returns an
event for a frame with the same capture timestamp in a build of the same
precision gives it the same timestamp. -/
theorem C23_event_timestamp (st : pcap_state) (w : world) (f : frame) (ev : event)
    (h : st.reads w = some f) (ho : (st.extract w).out = .returned (.value ev)) :
    ev.timestamp = wrap_i64 (f.header.tv_sec * 1000000000 +
        (if w.nano then f.header.tv_usec else f.header.tv_usec * 1000)) ∧
      (-(2 ^ 63) ≤ f.header.tv_sec * 1000000000 +
          (if w.nano then f.header.tv_usec else f.header.tv_usec * 1000) →
        f.header.tv_sec * 1000000000 +
          (if w.nano then f.header.tv_usec else f.header.tv_usec * 1000) < 2 ^ 63 →
        ev.timestamp = f.header.tv_sec * 1000000000 +
          (if w.nano then f.header.tv_usec else f.header.tv_usec * 1000)) ∧
      ∀ (st2 : pcap_state) (w2 : world) (f2 : frame) (ev2 : event),
        st2.reads w2 = some f2 → (st2.extract w2).out = .returned (.value ev2) →
        w2.nano = w.nano → f2.header.tv_sec = f.header.tv_sec →
        f2.header.tv_usec = f.header.tv_usec → ev2.timestamp = ev.timestamp := by
  obtain ⟨d, a, _, _, hev⟩ := extract_value_dissected h ho
  have ht : ev.timestamp = wrap_i64 (f.header.tv_sec * 1000000000 +
      (if w.nano then f.header.tv_usec else f.header.tv_usec * 1000)) := by
    rw [hev, ← packet_timestamp_eq]
    rfl
  refine ⟨ht, ?_, ?_⟩
  · intro h1 h2
    rw [ht, wrap_i64_of_range h1 h2]
  · intro st2 w2 f2 ev2 h2 ho2 hn hs hu
    obtain ⟨d2, a2, _, _, hev2⟩ := extract_value_dissected h2 ho2
    rw [hev, hev2]
    simp only [make_event, packet_timestamp_eq, hn, hs, hu]

/-- C23 (example): a frame captured at 10 s and 100 ms, in a build with
nanosecond precision: the timestamp of its event is 10 100 000 000 ns. -/
theorem C23_event_timestamp_witness :
    (make_event true (sample_timed 10 100000000) ⟨sample_conn 1 .tcp, 128, 88⟩ 128).timestamp =
      10 * 1000000000 + 100000000 :=
  (C23_event_timestamp (sample_paced 0) (sample_world (sample_timed 10 100000000) 8 0)
    (sample_timed 10 100000000)
    (make_event true (sample_timed 10 100000000) ⟨sample_conn 1 .tcp, 128, 88⟩ 128) rfl rfl).2.1
    (by decide) (by decide)

/-! ## Claims on the pacing and on the end of the input -/

/-- What the frame part of `extract` does to the pacing state: a call that
returns an event paces on its timestamp, any other call leaves
`last_timestamp_` alone and has no effect. -/
theorem extract_packet_pacing (st : pcap_state) (w : world) (f : frame) :
    (st.extract_packet w f).state.pseudo_realtime_ = st.pseudo_realtime_ ∧
      (∀ t, (st.extract_packet w f).timestamp = some t →
        (st.extract_packet w f).effects =
          (pace st.pseudo_realtime_ st.last_timestamp_ t (packet_count w.nano f.header)).1 ∧
        (st.extract_packet w f).state.last_timestamp_ =
          (pace st.pseudo_realtime_ st.last_timestamp_ t (packet_count w.nano f.header)).2) ∧
      ((st.extract_packet w f).timestamp = none →
        (st.extract_packet w f).effects = [] ∧
        (st.extract_packet w f).state.last_timestamp_ = st.last_timestamp_) := by
  unfold pcap_state.extract_packet
  cases hp : parse_packet f with
  | empty => simp [step.timestamp]
  | error e => simp [step.timestamp]
  | value d =>
    simp only
    cases ha : account st.cutoff_ (st.flows_.find_or_insert d.conn f.packet_time) d with
    | none => simp [step.timestamp]
    | some a =>
      simp only
      cases hc : capacity_step st.max_flows_ w
          (expire_step st.expire_interval_ st.max_age_ f.packet_time
            (init_last_expire st.last_expire_ f.packet_time) a.flows).2 with
      | none => simp [step.timestamp]
      | some flows =>
        simp only [step.timestamp, Option.some.injEq, reduceCtorEq, false_implies, and_true,
          true_and]
        intro t ht
        subst ht
        exact ⟨rfl, rfl⟩

/-- The opening phase of a call that does not open a live interface, or of a
source without pacing, leaves the pacing state alone and has no effect. -/
theorem open_input_not_live {st : pcap_state} {w : world}
    (hl : st.live w = false ∨ st.pseudo_realtime_ ≤ 0) :
    (∃ s e, st.open_input w = .error (s, e) ∧ s.pseudo_realtime_ = st.pseudo_realtime_ ∧
        s.last_timestamp_ = st.last_timestamp_) ∨
      (∃ s, st.open_input w = .ok (s, []) ∧ s.pseudo_realtime_ = st.pseudo_realtime_ ∧
        s.last_timestamp_ = st.last_timestamp_) := by
  unfold pcap_state.live at hl
  unfold pcap_state.open_input
  by_cases hc : (!st.pcap_ && !st.done_) = true
  · rw [if_pos hc]
    rw [hc, Bool.true_and] at hl
    cases hf : w.findalldevs with
    | none => exact Or.inl ⟨_, _, rfl, rfl, rfl⟩
    | some ifaces =>
      rw [hf] at hl
      simp only [decide_eq_false_iff_not] at hl
      simp only
      by_cases hi : st.input_ ∈ ifaces
      · have hq : ¬ st.pseudo_realtime_ > 0 := by
          rcases hl with hl | hl
          · exact absurd hi hl
          · omega
        rw [if_pos hi, if_neg hq]
        split_ifs
        · exact Or.inl ⟨_, _, rfl, rfl, rfl⟩
        · exact Or.inr ⟨_, rfl, rfl, rfl⟩
      · rw [if_neg hi]
        split_ifs
        · exact Or.inl ⟨_, _, rfl, rfl, rfl⟩
        · exact Or.inl ⟨_, _, rfl, rfl, rfl⟩
        · exact Or.inr ⟨_, rfl, rfl, rfl⟩
  · rw [if_neg hc]
    exact Or.inr ⟨_, rfl, rfl, rfl⟩

/-- The pacing of a call that does not open a live interface, or of a source
without pacing; `c` is `timestamp.count()` of the frame that the call reads. -/
theorem extract_pacing {st : pcap_state} {w : world}
    (hl : st.live w = false ∨ st.pseudo_realtime_ ≤ 0) :
    (st.extract w).state.pseudo_realtime_ = st.pseudo_realtime_ ∧
      (∀ t, (st.extract w).timestamp = some t →
        ∃ c, (∀ f, w.next = .packet f → c = packet_count w.nano f.header) ∧
          (st.extract w).effects = (pace st.pseudo_realtime_ st.last_timestamp_ t c).1 ∧
          (st.extract w).state.last_timestamp_ =
            (pace st.pseudo_realtime_ st.last_timestamp_ t c).2) ∧
      ((st.extract w).timestamp = none →
        (st.extract w).effects = [] ∧
        (st.extract w).state.last_timestamp_ = st.last_timestamp_) := by
  unfold pcap_state.extract
  rcases open_input_not_live hl with ⟨s, e, ho, h1, h2⟩ | ⟨s, ho, h1, h2⟩
  · simp [ho, h1, h2, step.timestamp]
  · simp only [ho]
    by_cases hp : s.pcap_ = true
    · simp only [hp, Bool.not_true, Bool.false_eq_true, if_false]
      cases hn : w.next with
      | timed_out => simp [h1, h2, step.timestamp]
      | end_of_trace => simp [h1, h2, step.timestamp]
      | failure => simp [h1, h2, step.timestamp]
      | packet f =>
        have := extract_packet_pacing s w f
        simp only [List.nil_append, step.timestamp] at this ⊢
        rw [h1, h2] at this
        refine ⟨this.1, ?_, this.2.2⟩
        intro t ht
        refine ⟨packet_count w.nano f.header, ?_, this.2.1 t ht⟩
        intro f2 hf2
        simp only [next_ex.packet.injEq] at hf2
        rw [hf2]
    · simp [hp, h1, h2, step.timestamp]

theorem calls_append (st : pcap_state) (ws : List world) (w : world) :
    st.calls (ws ++ [w]) = st.calls ws ++ [(st.after ws, w)] := by
  induction ws generalizing st with
  | nil => rfl
  | cons w0 ws ih => exact congrArg (fun l => (st, w0) :: l) (ih _)

/-- With pacing in force and no call opening a live interface,
`last_timestamp_` is the timestamp of the last event returned so far. -/
theorem after_pacing {st : pcap_state} (ws : List world)
    (hl : ∀ c ∈ st.calls ws, c.1.live c.2 = false) (hf : 0 < st.pseudo_realtime_) :
    (st.after ws).pseudo_realtime_ = st.pseudo_realtime_ ∧
      (st.after ws).last_timestamp_ =
        ((event_timestamps (st.run ws)).getLast?).getD st.last_timestamp_ := by
  induction ws generalizing st with
  | nil => exact ⟨rfl, rfl⟩
  | cons w ws ih =>
    have hw : st.live w = false := hl (st, w) (by simp [pcap_state.calls])
    obtain ⟨h1, h2, h3⟩ := extract_pacing (Or.inl hw)
    have hrest : ∀ c ∈ (st.extract w).state.calls ws, c.1.live c.2 = false := by
      intro c hc
      exact hl c (by simp [pcap_state.calls, hc])
    obtain ⟨i1, i2⟩ := ih hrest (by rw [h1]; exact hf)
    refine ⟨by rw [pcap_state.after, i1, h1], ?_⟩
    rw [pcap_state.after, i2, pcap_state.run]
    unfold event_timestamps
    rw [List.filterMap_cons]
    cases ht : (st.extract w).timestamp with
    | none =>
      simp only
      rw [(h3 ht).2]
    | some t =>
      obtain ⟨c, _, _, e2⟩ := h2 t ht
      simp only
      rw [e2, List.getLast?_cons]
      simp only [pace, if_pos hf, Option.getD_some]

/-- C24 (counterexample): with factor 2, a first event at timestamp 0 and a
second one 100 ms later, no sleep is requested before the second event, where
(t_1 - t_0) / f is 50 ms: `last_timestamp_` is 0 after the first event, which
line 244 takes for "no previous event". And with factor 2, a first event at
`tv_sec = -5000000000` (timestamp `-5 * 10^18`) and a second one at
`tv_sec = 5000000000` (timestamp `5 * 10^18`), the timestamps do not decrease
but their difference `10^19` does not fit the signed 64-bit count of `delta`:
the duration passed to `sleep_for` is -4223372036854775808, not
`10^19 / 2`. -/
theorem C24_counterexample :
    (((sample_paced 2).run [sample_world (sample_timed 0 0) 8 0,
        sample_world (sample_timed 0 100000000) 8 0]).map step.timestamp =
        [some 0, some 100000000] ∧
      ((sample_paced 2).run [sample_world (sample_timed 0 0) 8 0,
        sample_world (sample_timed 0 100000000) 8 0]).map (fun s => sleeps s.effects) =
        [[], []] ∧
      (100000000 - 0 : Int).tdiv 2 = 50000000) ∧
    (((sample_paced 2).run [sample_world (sample_timed (-5000000000) 0) 8 0,
        sample_world (sample_timed 5000000000 0) 8 0]).map step.timestamp =
        [some (-5000000000000000000), some 5000000000000000000] ∧
      ((sample_paced 2).run [sample_world (sample_timed (-5000000000) 0) 8 0,
        sample_world (sample_timed 5000000000 0) 8 0]).map (fun s => sleeps s.effects) =
        [[], [-4223372036854775808]] ∧
      (5000000000000000000 - (-5000000000000000000) : Int).tdiv 2 = 5000000000000000000) := by
  refine ⟨⟨rfl, rfl, by decide⟩, by decide, by decide, by decide⟩

/-- C24 (amended): with `pseudo_realtime_ = f > 0` in a source that starts
with `last_timestamp_ = 0` and whose calls open no live interface: before the
first event that a call returns no sleep is requested; before every later
event, whose predecessor had the timestamp `prev`, the one sleep requested is
`(t - prev) / f` in integer nanoseconds when `prev` is not 0, the difference
being a signed 64-bit count, which is `t - prev` itself when that lies between
`-2^63` and `2^63 - 1`; and no sleep is requested when `prev` is 0. -/
theorem C24_sleep_between_events (st : pcap_state) (pre : List world) (w : world) (ev : event)
    (hf : 0 < st.pseudo_realtime_) (h0 : st.last_timestamp_ = 0)
    (hl : ∀ c ∈ st.calls (pre ++ [w]), c.1.live c.2 = false)
    (ho : ((st.after pre).extract w).out = .returned (.value ev)) :
    (event_timestamps (st.run pre) = [] →
        sleeps ((st.after pre).extract w).effects = []) ∧
      (∀ prev, (event_timestamps (st.run pre)).getLast? = some prev →
        (prev ≠ 0 → sleeps ((st.after pre).extract w).effects =
          [(wrap_i64 (ev.timestamp - prev)).tdiv st.pseudo_realtime_]) ∧
        (prev ≠ 0 → -(2 ^ 63) ≤ ev.timestamp - prev → ev.timestamp - prev < 2 ^ 63 →
          sleeps ((st.after pre).extract w).effects =
            [(ev.timestamp - prev).tdiv st.pseudo_realtime_]) ∧
        (prev = 0 → sleeps ((st.after pre).extract w).effects = [])) := by
  have hpre : ∀ c ∈ st.calls pre, c.1.live c.2 = false := by
    intro c hc
    exact hl c (by rw [calls_append]; exact List.mem_append_left _ hc)
  have hw : (st.after pre).live w = false :=
    hl (st.after pre, w) (by rw [calls_append]; simp)
  obtain ⟨a1, a2⟩ := after_pacing pre hpre hf
  have ht : ((st.after pre).extract w).timestamp = some ev.timestamp := by
    simp only [step.timestamp, ho]
  obtain ⟨c, _, he, _⟩ := (extract_pacing (Or.inl hw)).2.1 _ ht
  rw [a1, a2, h0] at he
  rw [he]
  constructor
  · intro hn
    rw [hn]
    simp only [List.getLast?_nil, Option.getD_none, pace, if_pos hf]
    by_cases hlt : ev.timestamp < 0 <;> simp [sleeps, hlt]
  · intro prev hp
    rw [hp]
    simp only [Option.getD_some, pace, if_pos hf]
    have hs : prev ≠ 0 → sleeps
        ((if ev.timestamp < prev then [effect.warn_non_monotonic c prev] else []) ++
          if prev ≠ 0 then
            [effect.sleep_for ((wrap_i64 (ev.timestamp - prev)).tdiv st.pseudo_realtime_)]
          else []) = [(wrap_i64 (ev.timestamp - prev)).tdiv st.pseudo_realtime_] := by
      intro hne
      by_cases hlt : ev.timestamp < prev <;> simp [sleeps, hlt, hne]
    refine ⟨hs, ?_, ?_⟩
    · intro hne h1 h2
      rw [hs hne, wrap_i64_of_range h1 h2]
    · intro hz
      by_cases hlt : ev.timestamp < prev <;> simp [sleeps, hlt, hz]

/-- C24 (example): factor 2 and events at 10 s, 10.1 s and 10.3 s: no sleep
before the first, 50 ms before the second and 100 ms before the third. -/
theorem C24_sleep_between_events_witness :
    sleeps ((sample_paced 2).extract (sample_world (sample_timed 10 0) 8 0)).effects = [] ∧
      sleeps (((sample_paced 2).after [sample_world (sample_timed 10 0) 8 0]).extract
        (sample_world (sample_timed 10 100000000) 8 0)).effects =
        [(10100000000 - 10000000000 : Int).tdiv 2] ∧
      sleeps (((sample_paced 2).after [sample_world (sample_timed 10 0) 8 0,
          sample_world (sample_timed 10 100000000) 8 0]).extract
        (sample_world (sample_timed 10 300000000) 8 0)).effects =
        [(10300000000 - 10100000000 : Int).tdiv 2] ∧
      (10100000000 - 10000000000 : Int).tdiv 2 = 50000000 ∧
      (10300000000 - 10100000000 : Int).tdiv 2 = 100000000 :=
  ⟨(C24_sleep_between_events (sample_paced 2) [] (sample_world (sample_timed 10 0) 8 0)
      (make_event true (sample_timed 10 0) ⟨sample_conn 1 .tcp, 128, 88⟩ 128)
      (by decide) rfl (by decide) rfl).1 rfl,
   ((C24_sleep_between_events (sample_paced 2) [sample_world (sample_timed 10 0) 8 0]
      (sample_world (sample_timed 10 100000000) 8 0)
      (make_event true (sample_timed 10 100000000) ⟨sample_conn 1 .tcp, 128, 88⟩ 128)
      (by decide) rfl (by decide) rfl).2 10000000000 (by decide)).2.1 (by decide) (by decide)
      (by decide),
   ((C24_sleep_between_events (sample_paced 2) [sample_world (sample_timed 10 0) 8 0,
        sample_world (sample_timed 10 100000000) 8 0]
      (sample_world (sample_timed 10 300000000) 8 0)
      (make_event true (sample_timed 10 300000000) ⟨sample_conn 1 .tcp, 128, 88⟩ 128)
      (by decide) rfl (by decide) rfl).2 10100000000 (by decide)).2.1 (by decide) (by decide)
      (by decide),
   by decide, by decide⟩

/-- A call of a source without pacing has no effect and leaves the pacing
state alone. -/
theorem extract_unpaced {st : pcap_state} (w : world) (hf : st.pseudo_realtime_ ≤ 0) :
    (st.extract w).effects = [] ∧
      (st.extract w).state.last_timestamp_ = st.last_timestamp_ ∧
      (st.extract w).state.pseudo_realtime_ = st.pseudo_realtime_ := by
  obtain ⟨h1, h2, h3⟩ := extract_pacing (w := w) (Or.inr hf)
  have hq : ¬ st.pseudo_realtime_ > 0 := by omega
  cases ht : (st.extract w).timestamp with
  | none => exact ⟨(h3 ht).1, (h3 ht).2, h1⟩
  | some t =>
    obtain ⟨c, _, e1, e2⟩ := h2 t ht
    simp only [pace, if_neg hq] at e1 e2
    exact ⟨e1, e2, h1⟩

/-- C25: with `pseudo_realtime_ <= 0`, whatever the state of the source and
whatever the calls receive: no call requests a sleep (no call has any effect
at all), and `last_timestamp_` keeps its value through every call. -/
theorem C25_pacing_disabled (st : pcap_state) (ws : List world) (hf : st.pseudo_realtime_ ≤ 0) :
    ∀ s ∈ st.run ws, sleeps s.effects = [] ∧ s.effects = [] ∧
      s.state.last_timestamp_ = st.last_timestamp_ := by
  induction ws generalizing st with
  | nil =>
    intro s hs
    simp [pcap_state.run] at hs
  | cons w ws ih =>
    obtain ⟨h1, h2, h3⟩ := extract_unpaced w hf
    intro s hs
    simp only [pcap_state.run, List.mem_cons] at hs
    rcases hs with rfl | hs
    · exact ⟨by rw [h1]; rfl, h1, h2⟩
    · have := ih (st.extract w).state (by rw [h3]; exact hf) s hs
      rw [h2] at this
      exact this

/-- C25 (example): factor 0 and events at 10 s and 10.1 s: both calls return
their event, none has an effect, and `last_timestamp_` stays 0. -/
theorem C25_pacing_disabled_witness :
    ((sample_paced 0).run [sample_world (sample_timed 10 0) 8 0,
        sample_world (sample_timed 10 100000000) 8 0]).map (fun s => s.out.is_event) =
        [true, true] ∧
      ∀ s ∈ (sample_paced 0).run [sample_world (sample_timed 10 0) 8 0,
          sample_world (sample_timed 10 100000000) 8 0],
        sleeps s.effects = [] ∧ s.effects = [] ∧ s.state.last_timestamp_ = 0 :=
  ⟨rfl, C25_pacing_disabled (sample_paced 0) [sample_world (sample_timed 10 0) 8 0,
    sample_world (sample_timed 10 100000000) 8 0] (by decide)⟩

/-- C27: a read error (`pcap_next_ex` returning -1) in a source with an open
input makes the call return the error and leaves `pcap_` null and `done_` set;
every further call then skips the opening and reaches `pcap_next_ex` with the
null handle, whatever it receives, instead of returning the terminal outcome.
After the end of the trace (-2) the handle stays open, and a further call for
which `pcap_next_ex` answers -2 again returns the empty result again. -/
theorem C27_null_handle_after_read_error :
    (∀ (st : pcap_state) (w1 w2 : world),
      (({ st with pcap_ := true }).extract ({ w1 with next := .failure })).out =
          .returned (.error .next_packet) ∧
        (({ st with pcap_ := true }).extract ({ w1 with next := .failure })).state.pcap_ = false ∧
        (({ st with pcap_ := true }).extract ({ w1 with next := .failure })).state.done_ = true ∧
        ((({ st with pcap_ := true }).extract ({ w1 with next := .failure })).state.extract w2).out =
          .undefined .null_handle) ∧
      ((sample_state 1000 4 []).run [sample_failure, sample_failure]).map (fun s => s.out) =
        [.returned (.error .next_packet), .undefined .null_handle] ∧
      ((sample_state 1000 4 []).run [sample_end, sample_end]).map
          (fun s => (s.out, s.state.pcap_, s.state.done_)) =
        [(.returned .empty, true, true), (.returned .empty, true, true)] := by
  refine ⟨?_, rfl, rfl⟩
  intro st w1 w2
  refine ⟨rfl, rfl, rfl, rfl⟩

/-! ## Claims on the segmentizer -/

/-- The writer of section 4.5 leaves the id of the segment alone when it
writes. -/
theorem spec_writer_write_id (bytes : List event → Nat) (w : chunk_writer) (s : segment)
    (e : event) : ((spec_writer bytes).write w s e).2.2.id = s.id := by
  simp only [spec_writer, chunk_writer.write, chunk_writer.flush]
  split_ifs <;> rfl

/-- The writer of section 4.5 leaves the segment alone to which it is
attached. -/
theorem spec_writer_attach_to (bytes : List event → Nat) (w : chunk_writer) (s : segment) :
    ((spec_writer bytes).attach_to w s).2 = s := rfl

/-- The call of `process` when `write` returns true. -/
theorem process_of_write_true {W : Type} (ops : writer_ops W) (st : segmentizer W)
    (i : process_input) (h : (ops.write st.writer_ st.segment_ i.e).1 = true) :
    st.process ops i =
      ({ segment_ := (ops.write st.writer_ st.segment_ i.e).2.2,
         writer_ := (ops.write st.writer_ st.segment_ i.e).2.1 },
        if i.timed_add && decide (i.last > 0) then [message.statistics i.last] else []) := by
  unfold segmentizer.process
  simp only [h, if_true]

/-- The call of `process` when `write` returns false. -/
theorem process_of_write_false {W : Type} (ops : writer_ops W) (st : segmentizer W)
    (i : process_input) (h : (ops.write st.writer_ st.segment_ i.e).1 = false) :
    st.process ops i =
      ({ segment_ := (ops.attach_to (ops.write st.writer_ st.segment_ i.e).2.1
            { id := i.random, chunks := [] }).2,
         writer_ := (ops.attach_to (ops.write st.writer_ st.segment_ i.e).2.1
            { id := i.random, chunks := [] }).1 },
        [message.segment (ops.write st.writer_ st.segment_ i.e).2.2]) := by
  unfold segmentizer.process
  simp only [h, Bool.false_eq_true, if_false]

/-- C28: three events with `max_events_per_chunk = 2` and
`max_segment_size = 25`, every event taking 10 bytes: at `before_exit` the
segment holds the chunk of the first two events and the third event does not
fit, so the first flush fails; `before_exit` then replaces the segment without
sending it, and the consumer receives the third event only. When the same
happens in `process` (four events, `write` returning false at the fourth), the
segment is sent before it is replaced and all four events arrive in order. -/
theorem C28_segment_lost_at_exit :
    ((segmentizer.create sample_writer 100 2 25).run sample_writer
        [sample_input 1, sample_input 2, sample_input 3]).1.segment_ =
        { id := 100, chunks := [[sample_event 1, sample_event 2]] } ∧
      ((segmentizer.create sample_writer 100 2 25).run sample_writer
        [sample_input 1, sample_input 2, sample_input 3]).2 = [] ∧
      (sample_writer.flush
        ((segmentizer.create sample_writer 100 2 25).run sample_writer
          [sample_input 1, sample_input 2, sample_input 3]).1.writer_
        ((segmentizer.create sample_writer 100 2 25).run sample_writer
          [sample_input 1, sample_input 2, sample_input 3]).1.segment_).1 = false ∧
      (segmentizer.create sample_writer 100 2 25).lifetime sample_writer
        [sample_input 1, sample_input 2, sample_input 3] { random := 200, assertions := true } =
        [message.segment { id := 200, chunks := [[sample_event 3]] }] ∧
      received ((segmentizer.create sample_writer 100 2 25).lifetime sample_writer
        [sample_input 1, sample_input 2, sample_input 3] { random := 200, assertions := true }) =
        [sample_event 3] ∧
      (segmentizer.create sample_writer 100 2 25).lifetime sample_writer
        [sample_input 1, sample_input 2, sample_input 3, sample_input 4]
        { random := 200, assertions := true } =
        [message.segment { id := 100, chunks := [[sample_event 1, sample_event 2]] },
         message.segment { id := 104, chunks := [[sample_event 3, sample_event 4]] }] ∧
      received ((segmentizer.create sample_writer 100 2 25).lifetime sample_writer
        [sample_input 1, sample_input 2, sample_input 3, sample_input 4]
        { random := 200, assertions := true }) =
        [sample_event 1, sample_event 2, sample_event 3, sample_event 4] := by
  refine ⟨rfl, rfl, rfl, rfl, rfl, rfl, rfl⟩

/-- C29: for a writer that leaves the id of the segment alone when it writes
and the segment alone to which it is attached: `process` sends a segment
exactly when `write` returned false. In that case its one message is the
current segment as the writer left it, the new `segment_` is empty with the
id just drawn, and the writer is the one attached to it. When `write` returned
true, no segment is sent, the only message possible is the statistics one,
and the id of `segment_` is the one it had. -/
theorem C29_process_sends_iff {W : Type} (ops : writer_ops W) (st : segmentizer W)
    (i : process_input)
    (hid : ∀ w s e, (ops.write w s e).2.2.id = s.id)
    (hat : ∀ w s, (ops.attach_to w s).2 = s) :
    (sent_segments (st.process ops i).2 ≠ [] ↔
        (ops.write st.writer_ st.segment_ i.e).1 = false) ∧
      ((ops.write st.writer_ st.segment_ i.e).1 = false →
        (st.process ops i).2 = [message.segment (ops.write st.writer_ st.segment_ i.e).2.2] ∧
        (ops.write st.writer_ st.segment_ i.e).2.2.id = st.segment_.id ∧
        (st.process ops i).1.segment_ = { id := i.random, chunks := [] } ∧
        (st.process ops i).1.segment_.events = 0 ∧
        (st.process ops i).1.writer_ =
          (ops.attach_to (ops.write st.writer_ st.segment_ i.e).2.1
            { id := i.random, chunks := [] }).1) ∧
      ((ops.write st.writer_ st.segment_ i.e).1 = true →
        sent_segments (st.process ops i).2 = [] ∧
        (st.process ops i).2 =
          (if i.timed_add && decide (i.last > 0) then [message.statistics i.last] else []) ∧
        (st.process ops i).1.segment_ = (ops.write st.writer_ st.segment_ i.e).2.2 ∧
        (st.process ops i).1.segment_.id = st.segment_.id) := by
  cases hw : (ops.write st.writer_ st.segment_ i.e).1 with
  | false =>
    rw [process_of_write_false ops st i hw, hat]
    refine ⟨⟨fun _ => rfl, fun _ => by simp [sent_segments]⟩, fun _ => ⟨rfl, hid _ _ _, rfl, rfl, rfl⟩,
      fun h => absurd h (by simp)⟩
  | true =>
    rw [process_of_write_true ops st i hw]
    have hs : sent_segments
        (if (i.timed_add && decide (i.last > 0)) = true then [message.statistics i.last]
          else []) = [] := by
      split_ifs <;> rfl
    refine ⟨⟨fun h => absurd hs h, fun h => absurd h (by simp)⟩, fun h => absurd h (by simp),
      fun _ => ⟨hs, rfl, rfl, hid _ _ _⟩⟩

/-- C29 (example): the segment holds two events of 10 bytes, the chunk one,
with `max_events_per_chunk = 2` and `max_segment_size = 25`: the write of the
next event returns false, and `process` sends the segment 100 and goes on with
the empty segment 104. -/
theorem C29_process_sends_iff_witness :
    ((⟨⟨100, [[sample_event 1, sample_event 2]]⟩,
          ⟨[sample_event 3], 2, 25, fun c => 10 * c.length⟩⟩ :
        segmentizer chunk_writer).process sample_writer (sample_input 4)).2 =
        [message.segment ⟨100, [[sample_event 1, sample_event 2]]⟩] ∧
      ((⟨⟨100, [[sample_event 1, sample_event 2]]⟩,
          ⟨[sample_event 3], 2, 25, fun c => 10 * c.length⟩⟩ :
        segmentizer chunk_writer).process sample_writer (sample_input 4)).1.segment_ =
        ⟨104, []⟩ :=
  ⟨((C29_process_sends_iff sample_writer
      (⟨⟨100, [[sample_event 1, sample_event 2]]⟩,
        ⟨[sample_event 3], 2, 25, fun c => 10 * c.length⟩⟩ : segmentizer chunk_writer)
      (sample_input 4) (spec_writer_write_id _) (spec_writer_attach_to _)).2.1 rfl).1,
   ((C29_process_sends_iff sample_writer
      (⟨⟨100, [[sample_event 1, sample_event 2]]⟩,
        ⟨[sample_event 3], 2, 25, fun c => 10 * c.length⟩⟩ : segmentizer chunk_writer)
      (sample_input 4) (spec_writer_write_id _) (spec_writer_attach_to _)).2.1 rfl).2.2.1⟩

/-- The call of `before_exit` when the first flush succeeds. -/
theorem before_exit_of_flush {W : Type} (ops : writer_ops W) (st : segmentizer W)
    (x : exit_input) (h : (ops.flush st.writer_ st.segment_).1 = true) :
    (st.before_exit ops x).sent = [message.segment (ops.flush st.writer_ st.segment_).2.2] ∧
      (st.before_exit ops x).assertion_failed = false ∧
      (st.before_exit ops x).error_logged = false := by
  unfold segmentizer.before_exit
  simp only [h, if_true]
  exact ⟨trivial, trivial, trivial⟩

/-- The call of `before_exit` when the first flush fails: what the second
flush leaves in the fresh segment decides between the send and the failure of
the assertion. -/
theorem before_exit_of_flush_failed {W : Type} (ops : writer_ops W) (st : segmentizer W)
    (x : exit_input) (h : (ops.flush st.writer_ st.segment_).1 = false) :
    (st.before_exit ops x).error_logged =
        !(ops.flush
          (ops.attach_to (ops.flush st.writer_ st.segment_).2.1
            { id := x.random, chunks := [] }).1
          (ops.attach_to (ops.flush st.writer_ st.segment_).2.1
            { id := x.random, chunks := [] }).2).1 ∧
      ((x.assertions = true ∧
          (ops.flush
            (ops.attach_to (ops.flush st.writer_ st.segment_).2.1
              { id := x.random, chunks := [] }).1
            (ops.attach_to (ops.flush st.writer_ st.segment_).2.1
              { id := x.random, chunks := [] }).2).2.2.events = 0) →
        (st.before_exit ops x).sent = [] ∧ (st.before_exit ops x).assertion_failed = true) ∧
      (¬ (x.assertions = true ∧
          (ops.flush
            (ops.attach_to (ops.flush st.writer_ st.segment_).2.1
              { id := x.random, chunks := [] }).1
            (ops.attach_to (ops.flush st.writer_ st.segment_).2.1
              { id := x.random, chunks := [] }).2).2.2.events = 0) →
        (st.before_exit ops x).sent =
          [message.segment (ops.flush
            (ops.attach_to (ops.flush st.writer_ st.segment_).2.1
              { id := x.random, chunks := [] }).1
            (ops.attach_to (ops.flush st.writer_ st.segment_).2.1
              { id := x.random, chunks := [] }).2).2.2] ∧
        (st.before_exit ops x).assertion_failed = false) := by
  unfold segmentizer.before_exit
  simp only [h, Bool.false_eq_true, if_false]
  refine ⟨?_, ?_, ?_⟩
  · split_ifs <;> rfl
  · intro hc
    have : (x.assertions && decide ((ops.flush
        (ops.attach_to (ops.flush st.writer_ st.segment_).2.1
          { id := x.random, chunks := [] }).1
        (ops.attach_to (ops.flush st.writer_ st.segment_).2.1
          { id := x.random, chunks := [] }).2).2.2.events = 0)) = true := by
      simp [hc.1, hc.2]
    rw [if_pos this]
    exact ⟨rfl, rfl⟩
  · intro hc
    have : ¬ (x.assertions && decide ((ops.flush
        (ops.attach_to (ops.flush st.writer_ st.segment_).2.1
          { id := x.random, chunks := [] }).1
        (ops.attach_to (ops.flush st.writer_ st.segment_).2.1
          { id := x.random, chunks := [] }).2).2.2.events = 0)) = true := by
      simpa using hc
    rw [if_neg this]
    exact ⟨rfl, rfl⟩

/-- C30 (counterexample): one event of 10 bytes with `max_segment_size = 5`:
both flushes of `before_exit` fail, the fresh segment has no event, and in a
build that evaluates `assert` the assertion of line 56 fails before the send:
no segment is sent. A build without assertions sends the empty segment 200. -/
theorem C30_counterexample :
    (((segmentizer.create sample_writer 100 1000 5).run sample_writer [sample_input 1]).1.before_exit
        sample_writer { random := 200, assertions := true }).sent = [] ∧
      (((segmentizer.create sample_writer 100 1000 5).run sample_writer [sample_input 1]).1.before_exit
        sample_writer { random := 200, assertions := true }).assertion_failed = true ∧
      (((segmentizer.create sample_writer 100 1000 5).run sample_writer [sample_input 1]).1.before_exit
        sample_writer { random := 200, assertions := true }).error_logged = true ∧
      (segmentizer.create sample_writer 100 1000 5).lifetime sample_writer [sample_input 1]
        { random := 200, assertions := true } = [] ∧
      (segmentizer.create sample_writer 100 1000 5).lifetime sample_writer [sample_input 1]
        { random := 200, assertions := false } = [message.segment { id := 200, chunks := [] }] := by
  refine ⟨rfl, rfl, rfl, rfl, rfl⟩

/-- C30 (amended): `before_exit` sends at most one segment message. It sends
exactly one, the segment as the flush left it, when the first flush succeeds.
When the first flush fails it sends exactly one, the fresh segment as the
second flush left it, unless the build evaluates `assert` and that segment has
no event: then the assertion of line 56 fails and nothing is sent. With the
writer of section 4.5: when the retry succeeds the fresh segment holds the
chunk and is sent; when both flushes fail it is empty, so that it is sent only
by a build without assertions. After a single processed event with
`max_events_per_chunk = 1000`, the chunk of the event fitting an empty
segment, the one segment sent in the whole life is the first one and it holds
exactly that event. -/
theorem C30_before_exit_sends {W : Type} (ops : writer_ops W) (st : segmentizer W)
    (x : exit_input) :
    (sent_segments (st.before_exit ops x).sent).length ≤ 1 ∧
      ((ops.flush st.writer_ st.segment_).1 = true →
        (st.before_exit ops x).sent = [message.segment (ops.flush st.writer_ st.segment_).2.2] ∧
        (st.before_exit ops x).assertion_failed = false) ∧
      ((ops.flush st.writer_ st.segment_).1 = false →
        ((x.assertions = true ∧ (st.before_exit ops x).state.segment_.events = 0) →
          (st.before_exit ops x).sent = [] ∧ (st.before_exit ops x).assertion_failed = true) ∧
        (¬ (x.assertions = true ∧ (st.before_exit ops x).state.segment_.events = 0) →
          (st.before_exit ops x).sent = [message.segment (st.before_exit ops x).state.segment_] ∧
          (st.before_exit ops x).assertion_failed = false)) ∧
      (∀ (bytes : List event → Nat) (s : segmentizer chunk_writer),
        ((spec_writer bytes).flush s.writer_ s.segment_).1 = false →
        (s.writer_.bytes s.writer_.chunk ≤ s.writer_.max_segment_size →
          (s.before_exit (spec_writer bytes) x).sent =
            [message.segment { id := x.random, chunks := [s.writer_.chunk] }]) ∧
        (s.writer_.max_segment_size < s.writer_.bytes s.writer_.chunk →
          (s.before_exit (spec_writer bytes) x).sent =
            if x.assertions then [] else [message.segment { id := x.random, chunks := [] }])) ∧
      (∀ (bytes : List event → Nat) (i : process_input) (random max_segment_size : Nat),
        bytes [i.e] ≤ max_segment_size →
        sent_segments ((segmentizer.create (spec_writer bytes) random 1000
            max_segment_size).lifetime (spec_writer bytes) [i] x) =
          [{ id := random, chunks := [[i.e]] }]) := by
  refine ⟨?_, ?_, ?_, ?_, ?_⟩
  · cases hfl : (ops.flush st.writer_ st.segment_).1 with
    | true =>
      rw [(before_exit_of_flush ops st x hfl).1]
      simp [sent_segments]
    | false =>
      obtain ⟨_, h2, h3⟩ := before_exit_of_flush_failed ops st x hfl
      by_cases hc : x.assertions = true ∧
          (ops.flush
            (ops.attach_to (ops.flush st.writer_ st.segment_).2.1
              { id := x.random, chunks := [] }).1
            (ops.attach_to (ops.flush st.writer_ st.segment_).2.1
              { id := x.random, chunks := [] }).2).2.2.events = 0
      · rw [(h2 hc).1]
        simp [sent_segments]
      · rw [(h3 hc).1]
        simp [sent_segments]
  · intro hfl
    exact ⟨(before_exit_of_flush ops st x hfl).1, (before_exit_of_flush ops st x hfl).2.1⟩
  · intro hfl
    have hseg : (st.before_exit ops x).state.segment_ =
        (ops.flush
          (ops.attach_to (ops.flush st.writer_ st.segment_).2.1
            { id := x.random, chunks := [] }).1
          (ops.attach_to (ops.flush st.writer_ st.segment_).2.1
            { id := x.random, chunks := [] }).2).2.2 := by
      unfold segmentizer.before_exit
      simp only [hfl, Bool.false_eq_true, if_false]
      split_ifs <;> rfl
    rw [hseg]
    exact (before_exit_of_flush_failed ops st x hfl).2
  · intro bytes s hfl
    have hne : s.writer_.chunk ≠ [] := by
      intro hc
      simp [spec_writer, chunk_writer.flush, hc] at hfl
    have hfull : ¬ s.writer_.segment_bytes s.segment_ + s.writer_.bytes s.writer_.chunk ≤
        s.writer_.max_segment_size := by
      intro hc
      simp [spec_writer, chunk_writer.flush, hne, hc] at hfl
    have hfirst : (spec_writer bytes).flush s.writer_ s.segment_ = (false, s.writer_, s.segment_) := by
      simp only [spec_writer, chunk_writer.flush, if_neg hne, if_neg hfull]
    obtain ⟨_, h2, h3⟩ := before_exit_of_flush_failed (spec_writer bytes) s x hfl
    rw [hfirst] at h2 h3
    constructor
    · intro hfit
      have hagain : (spec_writer bytes).flush
          ((spec_writer bytes).attach_to s.writer_ { id := x.random, chunks := [] }).1
          ((spec_writer bytes).attach_to s.writer_ { id := x.random, chunks := [] }).2 =
          (true, { s.writer_ with chunk := [] },
            { id := x.random, chunks := [s.writer_.chunk] }) := by
        simp [spec_writer, chunk_writer.flush, chunk_writer.attach_to, hne,
          chunk_writer.segment_bytes, hfit]
      simp only [hagain] at h3
      refine (h3 ?_).1
      intro hc
      have hpos : 0 < s.writer_.chunk.length := List.length_pos.2 hne
      have := hc.2
      simp only [segment.events, List.map_cons, List.map_nil, List.sum_cons, List.sum_nil] at this
      omega
    · intro hbig
      have hagain : (spec_writer bytes).flush
          ((spec_writer bytes).attach_to s.writer_ { id := x.random, chunks := [] }).1
          ((spec_writer bytes).attach_to s.writer_ { id := x.random, chunks := [] }).2 =
          (false, s.writer_, { id := x.random, chunks := [] }) := by
        have : ¬ s.writer_.bytes s.writer_.chunk ≤ s.writer_.max_segment_size := by omega
        simp [spec_writer, chunk_writer.flush, chunk_writer.attach_to, hne,
          chunk_writer.segment_bytes, this]
      simp only [hagain] at h2 h3
      cases ha : x.assertions with
      | true =>
        rw [ha] at h2
        exact (h2 ⟨rfl, rfl⟩).1
      | false =>
        rw [ha] at h3
        exact (h3 (by simp)).1
  · intro bytes i random max_segment_size hfit
    have hrun : (segmentizer.create (spec_writer bytes) random 1000 max_segment_size).run
        (spec_writer bytes) [i] =
        ((⟨⟨random, []⟩, ⟨[i.e], 1000, max_segment_size, bytes⟩⟩ : segmentizer chunk_writer),
          if i.timed_add && decide (i.last > 0) then [message.statistics i.last] else []) := by
      simp [segmentizer.run, segmentizer.create, segmentizer.process, spec_writer,
        chunk_writer.write]
    unfold segmentizer.lifetime
    rw [hrun]
    have hexit : ((⟨⟨random, []⟩, ⟨[i.e], 1000, max_segment_size, bytes⟩⟩ :
          segmentizer chunk_writer).before_exit (spec_writer bytes) x).sent =
        [message.segment { id := random, chunks := [[i.e]] }] := by
      simp [segmentizer.before_exit, spec_writer, chunk_writer.flush,
        chunk_writer.segment_bytes, hfit]
    simp only [hexit]
    split_ifs <;> rfl

/-- C30 (example): one event of 10 bytes, `max_events_per_chunk = 1000` and
`max_segment_size = 25`: the life of the segmentizer sends the segment 100
with that event, and nothing else. -/
theorem C30_before_exit_sends_witness :
    sent_segments ((segmentizer.create sample_writer 100 1000 25).lifetime sample_writer
        [sample_input 1] { random := 200, assertions := true }) =
      [{ id := 100, chunks := [[sample_event 1]] }] :=
  (C30_before_exit_sends sample_writer (segmentizer.create sample_writer 100 1000 25)
    { random := 200, assertions := true }).2.2.2.2 (fun c => 10 * c.length) (sample_input 1)
    100 25 (by decide)

/-! ## Claims on the escaping -/

theorem unescape_loop_nil (u : List Nat → unescaped) (fuel : Nat) (acc : List Nat) :
    unescape_loop u fuel [] acc = .value acc := by
  cases fuel <;> rfl

/-- When the unescaper undoes what the escaper writes for one character, in
front of whatever follows, `unescape` undoes `escape`. -/
theorem unescape_loop_escape (escaper : Nat → List Nat) (u : List Nat → unescaped)
    (P : Nat → Prop)
    (h : ∀ c tail, P c → escaper c ++ tail ≠ [] ∧ u (escaper c ++ tail) = .ok [c] tail)
    (s : List Nat) (hs : ∀ c ∈ s, P c) (fuel : Nat) (hfuel : s.length ≤ fuel) (acc : List Nat) :
    unescape_loop u fuel (escape escaper s) acc = .value (acc ++ s) := by
  induction s generalizing fuel acc with
  | nil => simp [escape, unescape_loop_nil]
  | cons c cs ih =>
    obtain ⟨hne, hu⟩ := h c (escape escaper cs) (hs c (List.mem_cons_self _ _))
    cases fuel with
    | zero => simp at hfuel
    | succ n =>
      simp only [escape]
      cases hl : escaper c ++ escape escaper cs with
      | nil => exact absurd hl hne
      | cons x xs =>
        rw [hl] at hu
        simp only [unescape_loop, hu]
        rw [ih (fun c1 h1 => hs c1 (List.mem_cons_of_mem _ h1)) n
          (by simpa using hfuel) (acc ++ [c])]
        simp

theorem length_le_length_escape (escaper : Nat → List Nat) (hne : ∀ c, escaper c ≠ [])
    (s : List Nat) : s.length ≤ (escape escaper s).length := by
  induction s with
  | nil => simp [escape]
  | cons c cs ih =>
    have : 0 < (escaper c).length := List.length_pos.2 (hne c)
    simp only [escape, List.length_cons, List.length_append]
    omega

theorem unescape_escape (escaper : Nat → List Nat) (u : List Nat → unescaped)
    (P : Nat → Prop) (hne : ∀ c, escaper c ≠ [])
    (h : ∀ c tail, P c → u (escaper c ++ tail) = .ok [c] tail)
    (s : List Nat) (hs : ∀ c ∈ s, P c) :
    unescape (escape escaper s) u = .value s := by
  unfold unescape
  have := unescape_loop_escape escaper u P
    (fun c tail hc => ⟨by simp [hne c], h c tail hc⟩) s hs _
    (length_le_length_escape escaper hne s) []
  simpa using this

set_option maxRecDepth 100000 in
theorem hex_coding_valid : hex_coding.valid c_locale := by
  unfold coding.valid
  decide

/-- What `hex_unescaper` makes of the two hex digits of a byte. -/
theorem hex_unescaper_byte_to_hex {ct : ctype} {cd : coding} (hv : cd.valid ct) {c : Nat}
    (hc : c < 256) (tail : List Nat) :
    hex_unescaper ct cd ((cd.byte_to_hex c).1 :: (cd.byte_to_hex c).2 :: tail) = .ok [c] tail := by
  obtain ⟨h1, h2, h3⟩ := hv c hc
  simp [hex_unescaper, h1, h2, h3]

theorem json_unescaper_escaper {ct : ctype} {cd : coding} (hv : cd.valid ct) (c : Nat)
    (tail : List Nat) (hc : c < 256) :
    json_unescaper ct cd (json_escaper ct cd c ++ tail) = .ok [c] tail := by
  obtain ⟨h1, h2, h3⟩ := hv c hc
  unfold json_escaper
  split_ifs with c1 c2 c3 c4 c5 c6 c7
  · rcases c1 with rfl | rfl <;> simp [json_unescaper]
  · subst c2; simp [json_unescaper]
  · subst c3; simp [json_unescaper]
  · subst c4; simp [json_unescaper]
  · subst c5; simp [json_unescaper]
  · subst c6; simp [json_unescaper]
  · have a1 : c ≠ 0x22 := fun h => c1 (Or.inl h)
    have a2 : c ≠ 0x5c := fun h => c1 (Or.inr h)
    simp [json_unescaper, a1, a2]
  · simp only [json_unescaper, List.cons_append, List.nil_append, List.length_cons]
    rw [if_neg (by omega), if_neg (by omega), if_neg (by omega)]
    simp [h1, h2, h3]

/-- C31: for a `byte_to_hex` that yields two hex digits from which
`hex_to_byte` gives the byte back, whatever the locale: for every byte string
`s`, `unescape(escape(s, json_escaper), json_unescaper)` returns `s`. -/
theorem C31_json_round_trip (ct : ctype) (cd : coding) (hv : cd.valid ct) (s : List Nat)
    (hs : ∀ c ∈ s, c < 256) :
    unescape (escape (json_escaper ct cd) s) (json_unescaper ct cd) = .value s ∧
      (unescape (escape (json_escaper ct cd) s) (json_unescaper ct cd)).str = some s := by
  have h := unescape_escape (json_escaper ct cd) (json_unescaper ct cd) (fun c => c < 256)
    (fun c => by unfold json_escaper; split_ifs <;> simp)
    (fun c tail hc => json_unescaper_escaper hv c tail hc) s hs
  exact ⟨h, by rw [h]; rfl⟩

/-- C31 (example): the string of `A`, a double quote, a backslash, a line
feed, the byte 0 and the byte 255 is escaped to `A\"\\\n\u0000\u00FF`
and comes back. -/
theorem C31_json_round_trip_witness :
    escape (json_escaper c_locale hex_coding) [0x41, 0x22, 0x5c, 10, 0, 0xff] =
        bytes_of "A\\\"\\\\\\n\\u0000\\u00FF" ∧
      unescape (escape (json_escaper c_locale hex_coding) [0x41, 0x22, 0x5c, 10, 0, 0xff])
        (json_unescaper c_locale hex_coding) = .value [0x41, 0x22, 0x5c, 10, 0, 0xff] :=
  ⟨by decide, (C31_json_round_trip c_locale hex_coding hex_coding_valid
    [0x41, 0x22, 0x5c, 10, 0, 0xff] (by decide)).1⟩

theorem byte_unescaper_escaper {ct : ctype} {cd : coding} (hv : cd.valid ct) (c : Nat)
    (tail : List Nat) (hc : c < 256 ∧ c ≠ 0x5c) :
    byte_unescaper ct cd (print_escaper ct cd c ++ tail) = .ok [c] tail := by
  unfold print_escaper hex_escaper
  split_ifs
  · simp [byte_unescaper, hc.2]
  · simp [byte_unescaper, hex_unescaper_byte_to_hex hv hc.1]

/-- C32 (counterexample): in the "C" locale the backslash is printable, so
`byte_escape` copies it, and `byte_unescape` takes it for the start of an
escape: the string of one backslash comes back as the empty string of a
failure, `a\bcde` comes back as `abcde`, and `\x41` as `A`. -/
theorem C32_counterexample :
    escape (print_escaper c_locale hex_coding) (bytes_of "\\") = bytes_of "\\" ∧
      unescape (escape (print_escaper c_locale hex_coding) (bytes_of "\\"))
        (byte_unescaper c_locale hex_coding) = .failed ∧
      unescape (escape (print_escaper c_locale hex_coding) (bytes_of "a\\bcde"))
        (byte_unescaper c_locale hex_coding) = .value (bytes_of "abcde") ∧
      unescape (escape (print_escaper c_locale hex_coding) (bytes_of "\\x41"))
        (byte_unescaper c_locale hex_coding) = .value (bytes_of "A") := by
  decide

/-- C32 (amended): for a `byte_to_hex` that yields two hex digits from which
`hex_to_byte` gives the byte back, whatever the locale: for every byte string
`s` without a backslash, `unescape(escape(s, print_escaper), byte_unescaper)`
returns `s`; `print_escaper` copies a printable character and replaces any
other one by a backslash, `x` and its two hex digits. -/
theorem C32_byte_round_trip (ct : ctype) (cd : coding) (hv : cd.valid ct) (s : List Nat)
    (hs : ∀ c ∈ s, c < 256) (hb : 0x5c ∉ s) :
    unescape (escape (print_escaper ct cd) s) (byte_unescaper ct cd) = .value s ∧
      (∀ c, ct.isprint c = true → print_escaper ct cd c = [c]) ∧
      (∀ c, ct.isprint c = false →
        print_escaper ct cd c = [0x5c, 0x78, (cd.byte_to_hex c).1, (cd.byte_to_hex c).2]) := by
  refine ⟨?_, ?_, ?_⟩
  · exact unescape_escape (print_escaper ct cd) (byte_unescaper ct cd)
      (fun c => c < 256 ∧ c ≠ 0x5c)
      (fun c => by unfold print_escaper hex_escaper; split_ifs <;> simp)
      (fun c tail hc => byte_unescaper_escaper hv c tail hc) s
      (fun c hc => ⟨hs c hc, fun h => hb (h ▸ hc)⟩)
  · intro c hc
    simp [print_escaper, hc]
  · intro c hc
    simp [print_escaper, hex_escaper, hc]

/-- C32 (example): the string of `a`, a tab, `b` and the byte 255 is escaped
to `a\x09b\xFF` and comes back. -/
theorem C32_byte_round_trip_witness :
    escape (print_escaper c_locale hex_coding) [0x61, 9, 0x62, 0xff] = bytes_of "a\\x09b\\xFF" ∧
      unescape (escape (print_escaper c_locale hex_coding) [0x61, 9, 0x62, 0xff])
        (byte_unescaper c_locale hex_coding) = .value [0x61, 9, 0x62, 0xff] :=
  ⟨by decide, (C32_byte_round_trip c_locale hex_coding hex_coding_valid [0x61, 9, 0x62, 0xff]
    (by decide) (by decide)).1⟩

/-- C33: `double_unescaper` takes two characters `x`, `y` at a time, writes
`x`, and writes `y` only when `x = y` and `x` is not in `esc`; a `y` that
differs from `x` is dropped. So `ab` with the empty escape set is escaped to
`ab` and comes back as `a`, and `a|b|c` with the escape set `|` is escaped to
`a||b||c` and comes back as `a||c`. -/
theorem C33_double_unescape_drops :
    escape (double_escaper []) (bytes_of "ab") = bytes_of "ab" ∧
      unescape (escape (double_escaper []) (bytes_of "ab")) (double_unescaper []) =
        .value (bytes_of "a") ∧
      escape (double_escaper (bytes_of "|")) (bytes_of "a|b|c") = bytes_of "a||b||c" ∧
      unescape (escape (double_escaper (bytes_of "|")) (bytes_of "a|b|c"))
        (double_unescaper (bytes_of "|")) = .value (bytes_of "a||c") ∧
      (∀ (esc : List Nat) (x y : Nat) (rest : List Nat), x ≠ y →
        double_unescaper esc (x :: y :: rest) = .ok [x] rest) := by
  refine ⟨by decide, by decide, by decide, by decide, ?_⟩
  intro esc x y rest hxy
  simp [double_unescaper, hxy]

theorem percent_unescaper_escaper {ct : ctype} {cd : coding} (hv : cd.valid ct)
    (hp : ct.isalnum 0x25 = false) (c : Nat) (tail : List Nat) (hc : c < 256) :
    percent_unescaper ct cd (percent_escaper ct cd c ++ tail) = .ok [c] tail := by
  unfold percent_escaper
  split_ifs with hu
  · have : c ≠ 0x25 := by
      intro h
      subst h
      simp [is_unreserved, hp] at hu
    simp [percent_unescaper, this]
  · simp [percent_unescaper, hex_unescaper_byte_to_hex hv hc]

theorem percent_clean_cons {ct : ctype} {c : Nat} {rest : List Nat} (hc : c ≠ 0x25)
    (hu : is_unreserved ct c = true) (hr : percent_clean ct rest = true) :
    percent_clean ct (c :: rest) = true := by
  match rest with
  | [] => simp [percent_clean, hc, hu]
  | [d] =>
    show (decide (c ≠ 0x25) && is_unreserved ct c && percent_clean ct [d]) = true
    rw [hu, hr]
    simp [hc]
  | d :: h1 :: rest2 =>
    rw [percent_clean, if_neg hc, hu, hr]
    rfl

theorem percent_clean_escape {ct : ctype} {cd : coding} (hv : cd.valid ct)
    (hp : ct.isalnum 0x25 = false) (s : List Nat) (hs : ∀ c ∈ s, c < 256) :
    percent_clean ct (escape (percent_escaper ct cd) s) = true := by
  induction s with
  | nil => rfl
  | cons c cs ih =>
    have ihc := ih (fun c1 h1 => hs c1 (List.mem_cons_of_mem _ h1))
    obtain ⟨h1, h2, _⟩ := hv c (hs c (List.mem_cons_self _ _))
    simp only [escape]
    by_cases hu : is_unreserved ct c = true
    · have : c ≠ 0x25 := by
        intro h
        subst h
        simp [is_unreserved, hp] at hu
      have he : percent_escaper ct cd c = [c] := by simp [percent_escaper, hu]
      rw [he]
      exact percent_clean_cons this hu ihc
    · have he : percent_escaper ct cd c =
          [0x25, (cd.byte_to_hex c).1, (cd.byte_to_hex c).2] := by
        simp [percent_escaper, hu]
      rw [he]
      simp only [List.cons_append, List.nil_append]
      rw [percent_clean, if_pos rfl, h1, h2, ihc]
      rfl

/-- C34: for a `byte_to_hex` that yields two hex digits from which
`hex_to_byte` gives the byte back, and a locale in which `%` is not
alphanumeric: for every byte string `s`,
`unescape(escape(s, percent_escaper), percent_unescaper)` returns `s`, and
`escape(s, percent_escaper)` consists of unreserved characters
(alphanumerics, `-`, `_`, `.`, `~`) and of `%` followed by two hex digits
only. -/
theorem C34_percent_round_trip (ct : ctype) (cd : coding) (hv : cd.valid ct)
    (hp : ct.isalnum 0x25 = false) (s : List Nat) (hs : ∀ c ∈ s, c < 256) :
    unescape (escape (percent_escaper ct cd) s) (percent_unescaper ct cd) = .value s ∧
      percent_clean ct (escape (percent_escaper ct cd) s) = true := by
  refine ⟨?_, percent_clean_escape hv hp s hs⟩
  exact unescape_escape (percent_escaper ct cd) (percent_unescaper ct cd) (fun c => c < 256)
    (fun c => by unfold percent_escaper; split_ifs <;> simp)
    (fun c tail hc => percent_unescaper_escaper hv hp c tail hc) s hs

/-- C34 (example): `a b%~` and the byte 255 are escaped to `a%20b%25~%FF` and
come back. -/
theorem C34_percent_round_trip_witness :
    escape (percent_escaper c_locale hex_coding) [0x61, 0x20, 0x62, 0x25, 0x7e, 0xff] =
        bytes_of "a%20b%25~%FF" ∧
      unescape (escape (percent_escaper c_locale hex_coding) [0x61, 0x20, 0x62, 0x25, 0x7e, 0xff])
        (percent_unescaper c_locale hex_coding) = .value [0x61, 0x20, 0x62, 0x25, 0x7e, 0xff] ∧
      percent_clean c_locale
        (escape (percent_escaper c_locale hex_coding) [0x61, 0x20, 0x62, 0x25, 0x7e, 0xff]) =
        true :=
  ⟨by decide, C34_percent_round_trip c_locale hex_coding hex_coding_valid (by decide)
    [0x61, 0x20, 0x62, 0x25, 0x7e, 0xff] (by decide)⟩

/-- C37: with three characters after the `u` the test `l - f < 4` of line 181
passes, since `f` stands at the `u`, and line 187 reads the character at `l`:
the strings `\u00A` and `\u12A` end in a read at the end of the input. With
fewer characters after the `u`, and with a single backslash, `json_unescaper`
returns false; with four characters it reads within the input. -/
theorem C37_json_unescaper_reads_past_end :
    unescape (bytes_of "\\u00A") (json_unescaper c_locale hex_coding) = .past_end ∧
      unescape (bytes_of "\\u12A") (json_unescaper c_locale hex_coding) = .past_end ∧
      (∀ (ct : ctype) (cd : coding) (b0 b1 b2 : Nat),
        json_unescaper ct cd [0x5c, 0x75, b0, b1, b2] = .past_end) ∧
      unescape (bytes_of "\\u00") (json_unescaper c_locale hex_coding) = .failed ∧
      unescape (bytes_of "\\u0") (json_unescaper c_locale hex_coding) = .failed ∧
      unescape (bytes_of "\\u") (json_unescaper c_locale hex_coding) = .failed ∧
      unescape (bytes_of "\\") (json_unescaper c_locale hex_coding) = .failed ∧
      unescape (bytes_of "\\u00A9") (json_unescaper c_locale hex_coding) = .value [0xa9] := by
  refine ⟨by decide, by decide, ?_, by decide, by decide, by decide, by decide, by decide⟩
  intro ct cd b0 b1 b2
  simp [json_unescaper]

/-! ## Claims on `split` -/

theorem sep_at_iff (str sep : List Nat) (i : Nat) :
    sep_at str sep i = true ↔ sep <+: str.drop i := by
  unfold sep_at
  exact List.isPrefixOf_iff_prefix

/-- A separator that starts at `i` fits in the string and is the part of the
string from `i` on. -/
theorem sep_at_fits {str sep : List Nat} {i : Nat} (hi : i ≤ str.length)
    (h : sep_at str sep i = true) :
    i + sep.length ≤ str.length ∧ (str.drop i).take sep.length = sep := by
  rw [sep_at_iff] at h
  have hl := h.length_le
  rw [List.length_drop] at hl
  obtain ⟨t, ht⟩ := h
  refine ⟨by omega, ?_⟩
  rw [← ht]
  simp

theorem split_loop_eq (str sep esc : List Nat) (max_splits : Nat) (include_sep : Bool)
    (fuel i prev splits : Nat) (pos : List (Nat × Nat)) :
    split_loop str sep esc max_splits include_sep (fuel + 1) i prev splits pos =
      if i = str.length then some (prev, pos)
      else if !sep_at str sep i then
        split_loop str sep esc max_splits include_sep fuel (i + 1) prev splits pos
      else if escaped_at str esc i then
        split_loop str sep esc max_splits include_sep fuel (i + 1) prev splits pos
      else if splits = max_splits then some (prev, pos)
      else
        split_loop str sep esc max_splits include_sep fuel (i + sep.length) (i + sep.length)
          ((splits + 1) % 2 ^ 64)
          (pos ++ [(prev, i)] ++ (if include_sep then [(i, i + sep.length)] else [])) := by
  conv_lhs => unfold split_loop

theorem split_loop_end (str sep esc : List Nat) (max_splits : Nat) (include_sep : Bool)
    (fuel prev splits : Nat) (pos : List (Nat × Nat)) :
    split_loop str sep esc max_splits include_sep fuel str.length prev splits pos =
      some (prev, pos) := by
  unfold split_loop
  simp

/-- The loop of `split` ends for a non-empty separator, and it keeps every
invariant that its two kinds of steps keep: when it is left, `i` is at the end
of the string or at a separator on which `splits` has reached `max_splits`. -/
theorem split_loop_inv (str sep esc : List Nat) (max_splits : Nat) (include_sep : Bool)
    (hsep : sep ≠ []) (Inv : Nat → Nat → Nat → List (Nat × Nat) → Prop)
    (hskip : ∀ i prev splits pos, Inv i prev splits pos → i < str.length →
      (sep_at str sep i = false ∨ escaped_at str esc i = true) → Inv (i + 1) prev splits pos)
    (hsplit : ∀ i prev splits pos, Inv i prev splits pos → i < str.length →
      sep_at str sep i = true → escaped_at str esc i = false → splits ≠ max_splits →
      Inv (i + sep.length) (i + sep.length) ((splits + 1) % 2 ^ 64)
        (pos ++ [(prev, i)] ++ (if include_sep then [(i, i + sep.length)] else []))) :
    ∀ fuel i prev splits pos, i ≤ str.length → str.length - i ≤ fuel → Inv i prev splits pos →
      ∃ i1 prev1 splits1 pos1,
        split_loop str sep esc max_splits include_sep fuel i prev splits pos =
          some (prev1, pos1) ∧
        Inv i1 prev1 splits1 pos1 ∧ i1 ≤ str.length ∧
        (i1 = str.length ∨ splits1 = max_splits) := by
  intro fuel
  induction fuel with
  | zero =>
    intro i prev splits pos hi hf hinv
    have : i = str.length := by omega
    subst this
    exact ⟨_, prev, splits, pos, split_loop_end _ _ _ _ _ _ _ _ _, hinv, Nat.le_refl _,
      Or.inl rfl⟩
  | succ fuel ih =>
    intro i prev splits pos hi hf hinv
    rw [split_loop_eq]
    by_cases hend : i = str.length
    · rw [if_pos hend]
      exact ⟨i, prev, splits, pos, rfl, hinv, hi, Or.inl hend⟩
    · rw [if_neg hend]
      have hlt : i < str.length := by omega
      by_cases hs : sep_at str sep i = true
      · have hfit := (sep_at_fits hi hs).1
        have hpos : 0 < sep.length := List.length_pos.2 hsep
        simp only [hs, Bool.not_true, Bool.false_eq_true, if_false]
        by_cases he : escaped_at str esc i = true
        · rw [if_pos he]
          exact ih (i + 1) prev splits pos (by omega) (by omega)
            (hskip i prev splits pos hinv hlt (Or.inr he))
        · rw [if_neg he]
          by_cases hm : splits = max_splits
          · rw [if_pos hm]
            exact ⟨i, prev, splits, pos, rfl, hinv, hi, Or.inr hm⟩
          · rw [if_neg hm]
            exact ih (i + sep.length) (i + sep.length) _ _ hfit (by omega)
              (hsplit i prev splits pos hinv hlt hs (by simpa using he) hm)
      · have hs2 : sep_at str sep i = false := by simpa using hs
        simp only [hs2, Bool.not_false, if_true]
        exact ih (i + 1) prev splits pos (by omega) (by omega)
          (hskip i prev splits pos hinv hlt (Or.inl hs2))

theorem contiguous_le {a b : Nat} {rs : List (Nat × Nat)} (h : contiguous a rs b) : a ≤ b := by
  induction rs generalizing a with
  | nil => exact Nat.le_of_eq h
  | cons r rest ih =>
    obtain ⟨h1, h2, h3⟩ := h
    have := ih h3
    omega

theorem contiguous_append {a b c : Nat} {rs rs2 : List (Nat × Nat)} (h : contiguous a rs b)
    (h2 : contiguous b rs2 c) : contiguous a (rs ++ rs2) c := by
  induction rs generalizing a with
  | nil =>
    have : a = b := h
    subst this
    exact h2
  | cons r rest ih =>
    obtain ⟨e1, e2, e3⟩ := h
    exact ⟨e1, e2, ih e3⟩

/-- The strings of contiguous ranges from `a` to `b` make up the part of the
string from `a` to `b`. -/
theorem flatten_to_strings (str : List Nat) {a b : Nat} {rs : List (Nat × Nat)}
    (h : contiguous a rs b) : (to_strings str rs).flatten = (str.drop a).take (b - a) := by
  induction rs generalizing a with
  | nil =>
    have : a = b := h
    subst this
    simp [to_strings]
  | cons r rest ih =>
    obtain ⟨e1, e2, e3⟩ := h
    have hle := contiguous_le e3
    have hrec := ih e3
    simp only [to_strings, List.map_cons, List.flatten_cons] at hrec ⊢
    rw [hrec, substr, e1.symm]
    have : b - r.1 = (r.2 - r.1) + (b - r.2) := by omega
    rw [this, List.take_add, List.drop_drop]
    congr 3
    omega

theorem split_returns (str sep esc : List Nat) (max_splits : Nat) (include_sep : Bool)
    (hsep : sep ≠ []) : ∃ ranges, split str sep esc max_splits include_sep = some ranges := by
  obtain ⟨i1, prev1, splits1, pos1, h, _⟩ := split_loop_inv str sep esc max_splits include_sep
    hsep (fun _ _ _ _ => True) (fun _ _ _ _ _ _ _ => trivial) (fun _ _ _ _ _ _ _ _ _ => trivial)
    str.length 0 0 0 [] (Nat.zero_le _) (by omega) trivial
  unfold split
  rw [h]
  exact ⟨_, rfl⟩

/-- With `include_sep`, the ranges are contiguous from the start to the end of
the string. -/
theorem split_contiguous (str sep esc : List Nat) (max_splits : Nat) (hsep : sep ≠ [])
    {ranges : List (Nat × Nat)} (h : split str sep esc max_splits true = some ranges) :
    contiguous 0 ranges str.length := by
  obtain ⟨i1, prev1, splits1, pos1, hl, hinv, hi1, _⟩ := split_loop_inv str sep esc max_splits
    true hsep (fun i prev _ pos => contiguous 0 pos prev ∧ prev ≤ i)
    (fun i prev splits pos hinv _ _ => ⟨hinv.1, by omega⟩)
    (fun i prev splits pos hinv _ _ _ _ => by
      refine ⟨?_, Nat.le_refl _⟩
      simp only [if_true, List.append_assoc]
      refine contiguous_append hinv.1 ?_
      exact ⟨rfl, hinv.2, rfl, Nat.le_add_right _ _, rfl⟩)
    str.length 0 0 0 [] (Nat.zero_le _) (by omega) ⟨rfl, Nat.le_refl _⟩
  unfold split at h
  rw [hl] at h
  simp only [Option.map_some', Option.some.injEq] at h
  rw [← h]
  by_cases hp : prev1 = str.length
  · simp only [hp, ne_eq, not_true_eq_false, if_false]
    rw [← hp]
    exact hinv.1
  · simp only [ne_eq, hp, not_false_eq_true, if_true]
    exact contiguous_append hinv.1 ⟨rfl, by show prev1 ≤ str.length; omega, rfl⟩

theorem foldl_join (sep : List Nat) (rest : List (List Nat)) (acc : List Nat) :
    rest.foldl (fun result y => result ++ (sep ++ y)) acc =
      acc ++ (rest.map (fun y => sep ++ y)).flatten := by
  induction rest generalizing acc with
  | nil => simp
  | cons y rest ih => simp [ih]

theorem join_cons (sep x : List Nat) (rest : List (List Nat)) :
    join (x :: rest) sep = x ++ (rest.map (fun y => sep ++ y)).flatten := by
  simp only [join, foldl_join]

/-- The joined string of fields of which the last is `y`: every other field
is followed by the separator. -/
theorem join_append_singleton (sep y : List Nat) (xs : List (List Nat)) :
    join (xs ++ [y]) sep = (xs.map (fun x => x ++ sep)).flatten ++ y := by
  induction xs with
  | nil => simp [join]
  | cons x xs ih =>
    rw [List.cons_append, join_cons]
    cases hxs : xs ++ [y] with
    | nil => simp at hxs
    | cons z zs =>
      rw [hxs, join_cons] at ih
      simp only [List.map_cons, List.flatten_cons, List.append_assoc]
      rw [← ih]

/-- An occurrence of `sep` in the first `n` characters of a list starts at an
offset at which `sep` is a prefix of the rest. -/
theorem infix_take {sep l : List Nat} {n : Nat} (h : sep <:+: l.take n) :
    ∃ q, q + sep.length ≤ n ∧ sep <+: l.drop q := by
  obtain ⟨s, t, hst⟩ := h
  refine ⟨s.length, ?_, ?_⟩
  · have := congrArg List.length hst
    simp only [List.length_append, List.length_take] at this
    omega
  · have hl : l = s ++ sep ++ t ++ l.drop n := by
      rw [hst, List.take_append_drop]
    refine ⟨t ++ l.drop n, ?_⟩
    conv_rhs => rw [hl]
    simp

/-- With an empty escape string, no limit and without the separators: no
field contains the separator, and the fields joined by the separator are the
string, up to one separator at its end. -/
theorem split_fields (str sep : List Nat) (hsep : sep ≠ []) (hlen : str.length < 2 ^ 64)
    {ranges : List (Nat × Nat)} (h : split str sep [] unlimited false = some ranges) :
    (∀ field ∈ to_strings str ranges, ¬ sep <:+: field) ∧
      (join (to_strings str ranges) sep = str ∨
        join (to_strings str ranges) sep ++ sep = str) := by
  have hpos : 0 < sep.length := List.length_pos.2 hsep
  obtain ⟨i1, prev1, splits1, pos1, hl, hinv, hi1, hexit⟩ := split_loop_inv str sep [] unlimited
    false hsep
    (fun i prev splits pos => prev ≤ i ∧ i ≤ str.length ∧ splits ≤ prev ∧
      ((pos.map (fun r => substr str r ++ sep)).flatten = str.take prev) ∧
      (∀ r ∈ pos, ¬ sep <:+: substr str r) ∧
      (∀ p, prev ≤ p → p < i → sep_at str sep p = false))
    (fun i prev splits pos hinv hlt hs => by
      obtain ⟨h1, h2, h3, h4, h5, h6⟩ := hinv
      refine ⟨by omega, by omega, h3, h4, h5, ?_⟩
      intro p hp1 hp2
      by_cases hpi : p = i
      · subst hpi
        rcases hs with hs | hs
        · exact hs
        · simp [escaped_at] at hs
      · exact h6 p hp1 (by omega))
    (fun i prev splits pos hinv hlt hs _ _ => by
      obtain ⟨h1, h2, h3, h4, h5, h6⟩ := hinv
      obtain ⟨hfit, htake⟩ := sep_at_fits h2 hs
      have hfield : ¬ sep <:+: substr str (prev, i) := by
        intro hin
        obtain ⟨q, hq, hpre⟩ := infix_take hin
        rw [List.drop_drop] at hpre
        have hm : sep_at str sep (prev + q) = true := (sep_at_iff _ _ _).2 hpre
        have := h6 (prev + q) (by omega) (by simp only at hq; omega)
        rw [hm] at this
        exact absurd this (by simp)
      refine ⟨Nat.le_refl _, hfit, ?_, ?_, ?_, ?_⟩
      · rw [Nat.mod_eq_of_lt (by omega)]
        omega
      · simp only [Bool.false_eq_true, if_false, List.append_nil, List.map_append, List.map_cons,
          List.map_nil, List.flatten_append, List.flatten_cons, List.flatten_nil, h4, substr]
        have e1 : i + sep.length = prev + ((i - prev) + sep.length) := by omega
        rw [e1, ← List.take_append_drop prev (str.take (prev + ((i - prev) + sep.length)))]
        rw [List.take_take, Nat.min_eq_left (by omega)]
        congr 1
        rw [List.drop_take, Nat.add_sub_cancel_left, List.take_add, List.drop_drop]
        have e2 : prev + (i - prev) = i := by omega
        rw [e2, htake]
      · intro r hr
        simp only [Bool.false_eq_true, if_false, List.append_nil, List.mem_append,
          List.mem_singleton] at hr
        rcases hr with hr | rfl
        · exact h5 r hr
        · exact hfield
      · intro p hp1 hp2
        omega)
    str.length 0 0 0 [] (Nat.zero_le _) (by omega)
    ⟨Nat.le_refl _, Nat.zero_le _, Nat.le_refl _, by simp, by simp, by intro p _ hp; omega⟩
  obtain ⟨h1, h2, h3, h4, h5, h6⟩ := hinv
  have hend : i1 = str.length := by
    rcases hexit with he | he
    · exact he
    · by_contra hne
      unfold unlimited at he
      omega
  subst hend
  unfold split at h
  rw [hl] at h
  simp only [Option.map_some', Option.some.injEq] at h
  rw [← h]
  by_cases hp : prev1 = str.length
  · simp only [hp, ne_eq, not_true_eq_false, if_false]
    refine ⟨?_, ?_⟩
    · intro field hf
      obtain ⟨r, hr, rfl⟩ := List.mem_map.1 hf
      exact h5 r hr
    · rw [hp, List.take_length] at h4
      cases hlast : pos1.reverse with
      | nil =>
        have : pos1 = [] := by simpa using hlast
        subst this
        left
        simpa [to_strings, join] using h4
      | cons r rest =>
        have hpos1 : pos1 = rest.reverse ++ [r] := by
          have := congrArg List.reverse hlast
          simpa using this
        right
        rw [hpos1] at h4 ⊢
        have h4b : (rest.reverse.map (fun r => substr str r ++ sep)).flatten ++
            (substr str r ++ sep) = str := by simpa using h4
        simp only [to_strings, List.map_append, List.map_cons, List.map_nil]
        rw [join_append_singleton, List.map_map, List.append_assoc]
        exact h4b
  · simp only [ne_eq, hp, not_false_eq_true, if_true]
    refine ⟨?_, ?_⟩
    · intro field hf
      simp only [to_strings, List.map_append, List.map_cons, List.map_nil, List.mem_append,
        List.mem_map, List.mem_singleton] at hf
      rcases hf with ⟨r, hr, rfl⟩ | rfl
      · exact h5 r hr
      · intro hin
        obtain ⟨q, hq, hpre⟩ := infix_take hin
        rw [List.drop_drop] at hpre
        have hm : sep_at str sep (prev1 + q) = true := (sep_at_iff _ _ _).2 hpre
        have := h6 (prev1 + q) (by omega) (by simp only at hq; omega)
        rw [hm] at this
        exact absurd this (by simp)
    · left
      simp only [to_strings, List.map_append, List.map_cons, List.map_nil]
      rw [join_append_singleton, List.map_map]
      have e : (pos1.map ((fun x => x ++ sep) ∘ substr str)).flatten = str.take prev1 := h4
      rw [e, substr]
      simp only
      rw [List.take_of_length_le
        (by simp : (str.drop prev1).length ≤ str.length - prev1), List.take_append_drop]

/-- C35: in `\,a` with the separator `,` and the escape string `\`, the
separator at offset 1 is immediately preceded by the escape string, which is
the very first character of the string, and still counts: `split` returns the
two fields `\` and `a`. The test of line 377 is `esc.size() < i - begin`, so an
escape string that ends at offset `esc.size()` is never looked at; in `a\,b`
the same separator at offset 2 is escaped and there is one field. -/
theorem C35_escape_at_start_ignored :
    split (bytes_of "\\,a") (bytes_of ",") (bytes_of "\\") unlimited false =
        some [(0, 1), (2, 3)] ∧
      to_strings (bytes_of "\\,a") [(0, 1), (2, 3)] = [bytes_of "\\", bytes_of "a"] ∧
      sep_at (bytes_of "\\,a") (bytes_of ",") 1 = true ∧
      (bytes_of "\\").isPrefixOf ((bytes_of "\\,a").drop (1 - (bytes_of "\\").length)) = true ∧
      escaped_at (bytes_of "\\,a") (bytes_of "\\") 1 = false ∧
      (∀ str esc : List Nat, escaped_at str esc esc.length = false) ∧
      split (bytes_of "a\\,b") (bytes_of ",") (bytes_of "\\") unlimited false =
        some [(0, 4)] ∧
      escaped_at (bytes_of "a\\,b") (bytes_of "\\") 2 = true := by
  refine ⟨by decide, by decide, by decide, by decide, by decide, ?_, by decide, by decide⟩
  intro str esc
  simp [escaped_at]

/-- C38: for every string, every non-empty `sep`, every `esc` and every
`max_splits`, `split` returns. With `include_sep = true` the ranges returned
are contiguous and in order from the start to the end of the string, and
their strings concatenated are the string. With `include_sep = false`, an
empty `esc` and the default `max_splits` (for a string shorter than `2 ^ 64`),
no field contains `sep`, and the fields joined by `sep` are the string or the
string without the one `sep` at its end. -/
theorem C38_split_partitions (str sep esc : List Nat) (max_splits : Nat) (hsep : sep ≠ []) :
    (∀ include_sep, ∃ ranges, split str sep esc max_splits include_sep = some ranges) ∧
      (∀ ranges, split str sep esc max_splits true = some ranges →
        contiguous 0 ranges str.length ∧ (to_strings str ranges).flatten = str) ∧
      (str.length < 2 ^ 64 → ∀ ranges, split str sep [] unlimited false = some ranges →
        (∀ field ∈ to_strings str ranges, ¬ sep <:+: field) ∧
        (join (to_strings str ranges) sep = str ∨
          join (to_strings str ranges) sep ++ sep = str)) := by
  refine ⟨fun include_sep => split_returns str sep esc max_splits include_sep hsep, ?_, ?_⟩
  · intro ranges h
    have hc := split_contiguous str sep esc max_splits hsep h
    refine ⟨hc, ?_⟩
    rw [flatten_to_strings str hc]
    simp
  · intro hlen ranges h
    exact split_fields str sep hsep hlen h

/-- C38 (example): `a,b,,c,` with the separator `,`: with `include_sep` the
eight ranges from offset 0 to offset 7 make up the string; without, the
fields are `a`, `b`, the empty string and `c`, and joined by `,` they are the
string without the `,` at its end. -/
theorem C38_split_partitions_witness :
    split (bytes_of "a,b,,c,") (bytes_of ",") [] unlimited true =
        some [(0, 1), (1, 2), (2, 3), (3, 4), (4, 4), (4, 5), (5, 6), (6, 7)] ∧
      (to_strings (bytes_of "a,b,,c,")
        [(0, 1), (1, 2), (2, 3), (3, 4), (4, 4), (4, 5), (5, 6), (6, 7)]).flatten =
        bytes_of "a,b,,c," ∧
      to_strings (bytes_of "a,b,,c,") [(0, 1), (2, 3), (4, 4), (5, 6)] =
        [bytes_of "a", bytes_of "b", [], bytes_of "c"] ∧
      (join (to_strings (bytes_of "a,b,,c,") [(0, 1), (2, 3), (4, 4), (5, 6)]) (bytes_of ",") =
          bytes_of "a,b,,c," ∨
        join (to_strings (bytes_of "a,b,,c,") [(0, 1), (2, 3), (4, 4), (5, 6)]) (bytes_of ",") ++
          bytes_of "," = bytes_of "a,b,,c,") :=
  ⟨by decide,
   ((C38_split_partitions (bytes_of "a,b,,c,") (bytes_of ",") [] unlimited (by decide)).2.1
      [(0, 1), (1, 2), (2, 3), (3, 4), (4, 4), (4, 5), (5, 6), (6, 7)] (by decide)).2,
   by decide,
   ((C38_split_partitions (bytes_of "a,b,,c,") (bytes_of ",") [] unlimited (by decide)).2.2
      (by decide) [(0, 1), (2, 3), (4, 4), (5, 6)] (by decide)).2⟩

/-! ## Claims on the byte parsers -/

/-- The first byte: `a |= *f++` on `a = 0`. -/
theorem extract_1_zero (w b : Nat) (rest : List Int) (hw : 256 ≤ 2 ^ w) (hb : b < 256) :
    extract_1 w ((b : Int) :: rest) 0 = some (rest, b) := by
  have h1 : ((b : Int) % 2 ^ w).toNat = b := by
    have : ((b : Int) % 2 ^ w) = ((b % 2 ^ w : Nat) : Int) := by norm_cast
    rw [this, Int.toNat_ofNat, Nat.mod_eq_of_lt (by omega)]
  simp [extract_1, h1]

/-- A further byte: `a <<= 8` and `a |= *f++`, when the shift does not leave
the type. -/
theorem extract_1_shl8 (w a b : Nat) (rest : List Int) (hw : 256 ≤ 2 ^ w)
    (ha : a * 256 < 2 ^ w) (hb : b < 256) :
    extract_1 w ((b : Int) :: rest) (shl8 w a) = some (rest, a * 256 + b) := by
  have h1 : ((b : Int) % 2 ^ w).toNat = b := by
    have : ((b : Int) % 2 ^ w) = ((b % 2 ^ w : Nat) : Int) := by norm_cast
    rw [this, Int.toNat_ofNat, Nat.mod_eq_of_lt (by omega)]
  have h2 : shl8 w a = 2 ^ 8 * a := by
    unfold shl8
    rw [Nat.shiftLeft_eq, Nat.mod_eq_of_lt (by norm_num; omega)]
    ring
  have h3 : 2 ^ 8 * a ||| b = a * 256 + b := by
    rw [← Nat.mul_add_lt_is_or (by norm_num; omega) a]
    ring
  simp only [extract_1, h1, h2, h3]

theorem extract_2_zero (w b0 b1 : Nat) (rest : List Int) (hw : 65536 ≤ 2 ^ w)
    (h0 : b0 < 256) (h1 : b1 < 256) :
    extract_2 w ((b0 : Int) :: (b1 : Int) :: rest) 0 = some (rest, b0 * 256 + b1) := by
  unfold extract_2
  rw [extract_1_zero w b0 _ (by omega) h0]
  exact extract_1_shl8 w b0 b1 rest (by omega) (by omega) h1

theorem extract_2_shl8 (w a b0 b1 : Nat) (rest : List Int) (hw : 65536 ≤ 2 ^ w)
    (ha : (a + 1) * 65536 ≤ 2 ^ w) (h0 : b0 < 256) (h1 : b1 < 256) :
    extract_2 w ((b0 : Int) :: (b1 : Int) :: rest) (shl8 w a) =
      some (rest, (a * 256 + b0) * 256 + b1) := by
  unfold extract_2
  rw [extract_1_shl8 w a b0 _ (by omega) (by omega) h0]
  exact extract_1_shl8 w (a * 256 + b0) b1 rest (by omega) (by omega) h1

theorem extract_4_zero (w b0 b1 b2 b3 : Nat) (rest : List Int) (hw : 4294967296 ≤ 2 ^ w)
    (h0 : b0 < 256) (h1 : b1 < 256) (h2 : b2 < 256) (h3 : b3 < 256) :
    extract_4 w ((b0 : Int) :: (b1 : Int) :: (b2 : Int) :: (b3 : Int) :: rest) 0 =
      some (rest, ((b0 * 256 + b1) * 256 + b2) * 256 + b3) := by
  unfold extract_4
  rw [extract_2_zero w b0 b1 _ (by omega) h0 h1]
  exact extract_2_shl8 w (b0 * 256 + b1) b2 b3 rest (by omega) (by omega) h2 h3

theorem extract_4_shl8 (w a b0 b1 b2 b3 : Nat) (rest : List Int) (hw : 4294967296 ≤ 2 ^ w)
    (ha : (a + 1) * 4294967296 ≤ 2 ^ w)
    (h0 : b0 < 256) (h1 : b1 < 256) (h2 : b2 < 256) (h3 : b3 < 256) :
    extract_4 w ((b0 : Int) :: (b1 : Int) :: (b2 : Int) :: (b3 : Int) :: rest) (shl8 w a) =
      some (rest, (((a * 256 + b0) * 256 + b1) * 256 + b2) * 256 + b3) := by
  unfold extract_4
  rw [extract_2_shl8 w a b0 b1 _ (by omega) (by omega) h0 h1]
  exact extract_2_shl8 w ((a * 256 + b0) * 256 + b1) b2 b3 rest (by omega) (by omega) h2 h3

theorem extract_8_zero (b0 b1 b2 b3 b4 b5 b6 b7 : Nat) (rest : List Int)
    (h0 : b0 < 256) (h1 : b1 < 256) (h2 : b2 < 256) (h3 : b3 < 256)
    (h4 : b4 < 256) (h5 : b5 < 256) (h6 : b6 < 256) (h7 : b7 < 256) :
    extract_8 64 ((b0 : Int) :: (b1 : Int) :: (b2 : Int) :: (b3 : Int) :: (b4 : Int) ::
        (b5 : Int) :: (b6 : Int) :: (b7 : Int) :: rest) 0 =
      some (rest, ((((((b0 * 256 + b1) * 256 + b2) * 256 + b3) * 256 + b4) * 256 + b5) * 256 +
        b6) * 256 + b7) := by
  unfold extract_8
  rw [extract_4_zero 64 b0 b1 b2 b3 _ (by norm_num) h0 h1 h2 h3]
  exact extract_4_shl8 64 (((b0 * 256 + b1) * 256 + b2) * 256 + b3) b4 b5 b6 b7 rest
    (by norm_num) (by norm_num; omega) h4 h5 h6 h7

theorem byte_swap_2 (b0 b1 : Nat) (h0 : b0 < 256) (h1 : b1 < 256) :
    byte_swap 2 (b0 * 256 + b1) = b1 * 256 + b0 := by
  simp only [byte_swap, be_bytes, be_value, List.nil_append, List.singleton_append,
    List.reverse_cons, List.reverse_nil, List.foldl_cons, List.foldl_nil]
  omega

theorem byte_swap_4 (b0 b1 b2 b3 : Nat) (h0 : b0 < 256) (h1 : b1 < 256) (h2 : b2 < 256)
    (h3 : b3 < 256) :
    byte_swap 4 (((b0 * 256 + b1) * 256 + b2) * 256 + b3) =
      ((b3 * 256 + b2) * 256 + b1) * 256 + b0 := by
  simp only [byte_swap, be_bytes, be_value, List.nil_append, List.singleton_append,
    List.cons_append, List.reverse_cons, List.reverse_nil, List.foldl_cons, List.foldl_nil]
  omega

theorem byte_swap_8 (b0 b1 b2 b3 b4 b5 b6 b7 : Nat)
    (h0 : b0 < 256) (h1 : b1 < 256) (h2 : b2 < 256) (h3 : b3 < 256)
    (h4 : b4 < 256) (h5 : b5 < 256) (h6 : b6 < 256) (h7 : b7 < 256) :
    byte_swap 8 (((((((b0 * 256 + b1) * 256 + b2) * 256 + b3) * 256 + b4) * 256 + b5) * 256 +
        b6) * 256 + b7) =
      ((((((b7 * 256 + b6) * 256 + b5) * 256 + b4) * 256 + b3) * 256 + b2) * 256 + b1) * 256 +
        b0 := by
  simp only [byte_swap, be_bytes, be_value, List.nil_append, List.singleton_append,
    List.cons_append, List.reverse_cons, List.reverse_nil, List.foldl_cons, List.foldl_nil]
  omega

/-- For `N` in 1, 2, 4, 8 and every input that starts with `N` values of `*f`
between 0 and 255, as an iterator over `unsigned char` delivers them,
`byte_parser<uintN_t, no_swap>` succeeds, leaves the iterator behind these `N`
values, and yields the sum of `byte_i * 256^(N-1-i)`; the variants with the
policy `swap` yield `byte_swap` of that value, which for a `byte_swap` that
reverses the order of the bytes is the value of the same bytes read in reverse
order. -/
theorem byte_parsers_of_unsigned (swap_fn : Nat → Nat) (b0 b1 b2 b3 b4 b5 b6 b7 : Nat)
    (rest : List Int)
    (h0 : b0 < 256) (h1 : b1 < 256) (h2 : b2 < 256) (h3 : b3 < 256)
    (h4 : b4 < 256) (h5 : b5 < 256) (h6 : b6 < 256) (h7 : b7 < 256) :
    byte_parser_parse 1 false swap_fn ((b0 : Int) :: rest) = some (rest, b0) ∧
      byte_parser_parse 2 false swap_fn ((b0 : Int) :: (b1 : Int) :: rest) =
        some (rest, b0 * 256 + b1) ∧
      byte_parser_parse 4 false swap_fn ((b0 : Int) :: (b1 : Int) :: (b2 : Int) :: (b3 : Int) :: rest) =
        some (rest, b0 * 256 ^ 3 + b1 * 256 ^ 2 + b2 * 256 + b3) ∧
      byte_parser_parse 8 false swap_fn ((b0 : Int) :: (b1 : Int) :: (b2 : Int) :: (b3 : Int) ::
          (b4 : Int) :: (b5 : Int) :: (b6 : Int) :: (b7 : Int) :: rest) =
        some (rest, b0 * 256 ^ 7 + b1 * 256 ^ 6 + b2 * 256 ^ 5 + b3 * 256 ^ 4 + b4 * 256 ^ 3 +
          b5 * 256 ^ 2 + b6 * 256 + b7) ∧
      byte_parser_parse 2 true swap_fn ((b0 : Int) :: (b1 : Int) :: rest) =
        some (rest, swap_fn (b0 * 256 + b1)) ∧
      byte_parser_parse 4 true swap_fn ((b0 : Int) :: (b1 : Int) :: (b2 : Int) :: (b3 : Int) :: rest) =
        some (rest, swap_fn (b0 * 256 ^ 3 + b1 * 256 ^ 2 + b2 * 256 + b3)) ∧
      byte_parser_parse 8 true swap_fn ((b0 : Int) :: (b1 : Int) :: (b2 : Int) :: (b3 : Int) ::
          (b4 : Int) :: (b5 : Int) :: (b6 : Int) :: (b7 : Int) :: rest) =
        some (rest, swap_fn (b0 * 256 ^ 7 + b1 * 256 ^ 6 + b2 * 256 ^ 5 + b3 * 256 ^ 4 +
          b4 * 256 ^ 3 + b5 * 256 ^ 2 + b6 * 256 + b7)) ∧
      byte_swap 2 (b0 * 256 + b1) = b1 * 256 + b0 ∧
      byte_swap 4 (b0 * 256 ^ 3 + b1 * 256 ^ 2 + b2 * 256 + b3) =
        b3 * 256 ^ 3 + b2 * 256 ^ 2 + b1 * 256 + b0 ∧
      byte_swap 8 (b0 * 256 ^ 7 + b1 * 256 ^ 6 + b2 * 256 ^ 5 + b3 * 256 ^ 4 + b4 * 256 ^ 3 +
          b5 * 256 ^ 2 + b6 * 256 + b7) =
        b7 * 256 ^ 7 + b6 * 256 ^ 6 + b5 * 256 ^ 5 + b4 * 256 ^ 4 + b3 * 256 ^ 3 +
          b2 * 256 ^ 2 + b1 * 256 + b0 := by
  have e4 : b0 * 256 ^ 3 + b1 * 256 ^ 2 + b2 * 256 + b3 =
      ((b0 * 256 + b1) * 256 + b2) * 256 + b3 := by ring
  have e8 : b0 * 256 ^ 7 + b1 * 256 ^ 6 + b2 * 256 ^ 5 + b3 * 256 ^ 4 + b4 * 256 ^ 3 +
      b5 * 256 ^ 2 + b6 * 256 + b7 =
      ((((((b0 * 256 + b1) * 256 + b2) * 256 + b3) * 256 + b4) * 256 + b5) * 256 + b6) * 256 +
        b7 := by ring
  have r4 : b3 * 256 ^ 3 + b2 * 256 ^ 2 + b1 * 256 + b0 =
      ((b3 * 256 + b2) * 256 + b1) * 256 + b0 := by ring
  have r8 : b7 * 256 ^ 7 + b6 * 256 ^ 6 + b5 * 256 ^ 5 + b4 * 256 ^ 4 + b3 * 256 ^ 3 +
      b2 * 256 ^ 2 + b1 * 256 + b0 =
      ((((((b7 * 256 + b6) * 256 + b5) * 256 + b4) * 256 + b3) * 256 + b2) * 256 + b1) * 256 +
        b0 := by ring
  have p1 := extract_1_zero 8 b0 rest (by norm_num) h0
  have p2 := extract_2_zero 16 b0 b1 rest (by norm_num) h0 h1
  have p4 := extract_4_zero 32 b0 b1 b2 b3 rest (by norm_num) h0 h1 h2 h3
  have p8 := extract_8_zero b0 b1 b2 b3 b4 b5 b6 b7 rest h0 h1 h2 h3 h4 h5 h6 h7
  rw [e4, e8, r4, r8]
  refine ⟨?_, ?_, ?_, ?_, ?_, ?_, ?_, byte_swap_2 b0 b1 h0 h1, byte_swap_4 b0 b1 b2 b3 h0 h1 h2 h3,
    byte_swap_8 b0 b1 b2 b3 b4 b5 b6 b7 h0 h1 h2 h3 h4 h5 h6 h7⟩
  · simp [byte_parser_parse, p1]
  · simp [byte_parser_parse, p2]
  · simp [byte_parser_parse, p4]
  · simp [byte_parser_parse, p8]
  · simp [byte_parser_parse, p2]
  · simp [byte_parser_parse, p4]
  · simp [byte_parser_parse, p8]

/-- The bytes 01 02 03 FF 05 06 07 80 followed by 09, read through an
iterator over `unsigned char`: `b16be` yields 0x0102, `b32be` 0x010203FF,
`b64be` 0x010203FF05060780, and `b32le` 0xFF030201, each leaving the rest of
the input. -/
theorem byte_parsers_of_unsigned_example :
    byte_parser_parse 2 false (byte_swap 2) [1, 2, 3, 0xff, 5, 6, 7, 0x80, 9] =
        some ([3, 0xff, 5, 6, 7, 0x80, 9], 0x0102) ∧
      byte_parser_parse 4 false (byte_swap 4) [1, 2, 3, 0xff, 5, 6, 7, 0x80, 9] =
        some ([5, 6, 7, 0x80, 9], 0x010203ff) ∧
      byte_parser_parse 8 false (byte_swap 8) [1, 2, 3, 0xff, 5, 6, 7, 0x80, 9] =
        some ([9], 0x010203ff05060780) ∧
      byte_parser_parse 4 true (byte_swap 4) [1, 2, 3, 0xff, 5, 6, 7, 0x80, 9] =
        some ([5, 6, 7, 0x80, 9], 0xff030201) := by
  have T2 := byte_parsers_of_unsigned (byte_swap 2) 1 2 3 0xff 5 6 7 0x80
    [3, 0xff, 5, 6, 7, 0x80, 9]
    (by decide) (by decide) (by decide) (by decide) (by decide) (by decide) (by decide)
    (by decide)
  have T4 := byte_parsers_of_unsigned (byte_swap 4) 1 2 3 0xff 5 6 7 0x80 [5, 6, 7, 0x80, 9]
    (by decide) (by decide) (by decide) (by decide) (by decide) (by decide) (by decide)
    (by decide)
  have T8 := byte_parsers_of_unsigned (byte_swap 8) 1 2 3 0xff 5 6 7 0x80 [9]
    (by decide) (by decide) (by decide) (by decide) (by decide) (by decide) (by decide)
    (by decide)
  refine ⟨T2.2.1, T4.2.2.1, T8.2.2.2.1, ?_⟩
  have h := T4.2.2.2.2.2.1
  rw [T4.2.2.2.2.2.2.2.2.1] at h
  exact h

/-- C36: the byte parsers do not yield the sum of `byte_i * 256^(N-1-i)` for
every input of `N` bytes. Read through an iterator over `char` where `char` is
signed, as from a `std::string`, the byte 0x80 is the value -128, and
`a |= *f++` sets every higher bit of `a`: for the bytes 01 80, `b16be` yields
0xff80 where the bytes in network byte order are 0x0180, and `b16le` yields
0x80ff where the reversed bytes are 0x8001; for the bytes 01 02 80 03, `b32be`
yields 0xffff8003 where the bytes are 0x01028003; for eight bytes that start
with 01 and end with 80, `b64be` yields 0xffffffffffffff80. Each call succeeds
and leaves the iterator behind the `N` bytes. A single byte is parsed as
claimed (`byte` yields 0x80), and so are the two bytes 01 80 when an iterator
over `unsigned char` delivers the values 1 and 128. -/
theorem C36_char_sign_extension :
    [char_value 0x01, char_value 0x80] = [1, -128] ∧
      byte_parser_parse 2 false (byte_swap 2) [char_value 0x01, char_value 0x80] =
        some ([], 0xff80) ∧
      be_value [0x01, 0x80] = 0x0180 ∧
      byte_parser_parse 2 true (byte_swap 2) [char_value 0x01, char_value 0x80] =
        some ([], 0x80ff) ∧
      be_value [0x80, 0x01] = 0x8001 ∧
      byte_parser_parse 4 false (byte_swap 4)
          [char_value 0x01, char_value 0x02, char_value 0x80, char_value 0x03] =
        some ([], 0xffff8003) ∧
      be_value [0x01, 0x02, 0x80, 0x03] = 0x01028003 ∧
      byte_parser_parse 8 false (byte_swap 8)
          [char_value 0x01, char_value 0, char_value 0, char_value 0, char_value 0,
            char_value 0, char_value 0, char_value 0x80] =
        some ([], 0xffffffffffffff80) ∧
      be_value [0x01, 0, 0, 0, 0, 0, 0, 0x80] = 0x0100000000000080 ∧
      byte_parser_parse 1 false (byte_swap 1) [char_value 0x80] = some ([], 0x80) ∧
      byte_parser_parse 2 false (byte_swap 2) [1, 128] = some ([], 0x0180) := by
  decide

/-! ## Claims on the bound of the table and on the header sizes -/

theorem length_expire_step_le (i m time le : Nat) (t : flow_table) :
    (expire_step i m time le t).2.length ≤ t.length := by
  unfold expire_step
  split
  · exact List.length_filter_le _ _
  · exact Nat.le_refl _

/-- The frame part of `extract`, with a positive cutoff and `max_flows_ >= 1`,
keeps the table below `max_flows_` entries. -/
theorem extract_packet_capacity (st : pcap_state) (w : world) (f : frame)
    (hc : 0 < st.cutoff_) (hm : 0 < st.max_flows_) (hnd : st.flows_.keys.Nodup)
    (hlen : st.flows_.length < st.max_flows_) :
    (st.extract_packet w f).state.flows_.length < st.max_flows_ ∧
      (st.extract_packet w f).state.max_flows_ = st.max_flows_ ∧
      (st.extract_packet w f).state.cutoff_ = st.cutoff_ := by
  unfold pcap_state.extract_packet
  split
  · exact ⟨hlen, rfl, rfl⟩
  · exact ⟨hlen, rfl, rfl⟩
  · rename_i d hd
    simp only
    have hfi := length_find_or_insert st.flows_ d.conn f.packet_time
    split
    · rename_i ha
      refine ⟨?_, rfl, rfl⟩
      have hb := (account_eq_none_iff _ _ _ _).1 ha
      rw [bytes_seen_find_or_insert_self] at hb
      simp only [Option.some.injEq] at hb
      have hk : d.conn ∈ st.flows_.keys := by
        by_contra hn
        have := (find_eq_none_iff st.flows_ d.conn).2 hn
        simp only [flow_table.bytes_seen, this, Option.map_none', Option.getD_none] at hb
        omega
      simp only
      rw [hfi, if_pos hk]
      exact hlen
    · rename_i a ha
      have hnd1 := nodup_expire_step st.expire_interval_ st.max_age_ f.packet_time
        (init_last_expire st.last_expire_ f.packet_time)
        (nodup_account ha (nodup_find_or_insert d.conn f.packet_time hnd))
      have hl1 := length_expire_step_le st.expire_interval_ st.max_age_ f.packet_time
        (init_last_expire st.last_expire_ f.packet_time) a.flows
      have hl2 : a.flows.length = (st.flows_.find_or_insert d.conn f.packet_time).length := by
        have := congrArg List.length (account_keys ha)
        simpa [flow_table.keys] using this
      have hl3 : (st.flows_.find_or_insert d.conn f.packet_time).length ≤ st.flows_.length + 1 := by
        rw [hfi]
        split_ifs <;> omega
      obtain ⟨c1, c2⟩ := capacity_step_eq hm w hnd1
      split
      · rename_i hcs
        have := capacity_step_isSome hm w
          (expire_step st.expire_interval_ st.max_age_ f.packet_time
            (init_last_expire st.last_expire_ f.packet_time) a.flows).2
        rw [hcs] at this
        exact absurd this (by simp)
      · rename_i flows hcs
        refine ⟨?_, rfl, rfl⟩
        simp only
        by_cases hfull : (expire_step st.expire_interval_ st.max_age_ f.packet_time
            (init_last_expire st.last_expire_ f.packet_time) a.flows).2 ≠ [] ∧
            (expire_step st.expire_interval_ st.max_age_ f.packet_time
              (init_last_expire st.last_expire_ f.packet_time) a.flows).2.length %
              st.max_flows_ = 0
        · obtain ⟨l1, e, l2, he, hs⟩ := c1 hfull
          rw [hcs] at hs
          simp only [Option.some.injEq] at hs
          rw [he] at hl1
          rw [hs]
          simp only [List.length_append, List.length_cons] at hl1 ⊢
          omega
        · have hs := c2 hfull
          rw [hcs] at hs
          simp only [Option.some.injEq] at hs
          rw [hs]
          by_contra hge
          apply hfull
          have heq : (expire_step st.expire_interval_ st.max_age_ f.packet_time
              (init_last_expire st.last_expire_ f.packet_time) a.flows).2.length =
              st.max_flows_ := by omega
          refine ⟨?_, by rw [heq, Nat.mod_self]⟩
          intro hnil
          rw [hnil] at heq
          simp at heq
          omega

/-- Every call of `extract`, with a positive cutoff and `max_flows_ >= 1`,
keeps the table below `max_flows_` entries. -/
theorem extract_capacity (st : pcap_state) (w : world)
    (hc : 0 < st.cutoff_) (hm : 0 < st.max_flows_) (hnd : st.flows_.keys.Nodup)
    (hlen : st.flows_.length < st.max_flows_) :
    (st.extract w).state.flows_.length < st.max_flows_ ∧
      (st.extract w).state.max_flows_ = st.max_flows_ ∧
      (st.extract w).state.cutoff_ = st.cutoff_ := by
  unfold pcap_state.extract
  split
  · rename_i st1 e h
    rcases open_input_error h with h1 | h1
    · subst h1; exact ⟨hlen, rfl, rfl⟩
    · subst h1; exact ⟨hm, rfl, rfl⟩
  · rename_i st1 effs h
    have h1 := open_input_ok h
    have hf : st1.flows_ = st.flows_ := by rw [h1]
    have e1 : st1.max_flows_ = st.max_flows_ := by rw [h1]
    have e2 : st1.cutoff_ = st.cutoff_ := by rw [h1]
    have base : st1.flows_.length < st.max_flows_ ∧ st1.max_flows_ = st.max_flows_ ∧
        st1.cutoff_ = st.cutoff_ := ⟨by rw [hf]; exact hlen, e1, e2⟩
    split_ifs
    · exact base
    · split
      · exact base
      · exact base
      · exact base
      · rename_i f hn
        have := extract_packet_capacity st1 w f (by rw [e2]; exact hc) (by rw [e1]; exact hm)
          (by rw [hf]; exact hnd) (by rw [hf, e1]; exact hlen)
        rw [e1, e2] at this
        exact this

/-- C39: with `cutoff_ > 0` and `max_flows_ >= 1`, starting from an empty flow
table: after every call of `extract`, whatever the calls receive, the table
has fewer than `max_flows_` entries; with `max_flows_ = 1` it is empty after
every call. -/
theorem C39_table_below_max_flows (st : pcap_state) (ws : List world)
    (hc : 0 < st.cutoff_) (hm : 1 ≤ st.max_flows_) (h0 : st.flows_ = []) :
    (∀ s ∈ st.run ws, s.state.flows_.length < st.max_flows_) ∧
      (st.max_flows_ = 1 → ∀ s ∈ st.run ws, s.state.flows_ = []) := by
  have key : ∀ (ws : List world) (st : pcap_state), 0 < st.cutoff_ → 0 < st.max_flows_ →
      st.flows_.keys.Nodup → st.flows_.length < st.max_flows_ →
      ∀ s ∈ st.run ws, s.state.flows_.length < st.max_flows_ := by
    intro ws
    induction ws with
    | nil =>
      intro st _ _ _ _ s hs
      simp [pcap_state.run] at hs
    | cons w ws ih =>
      intro st hc hm hnd hlen s hs
      obtain ⟨c1, c2, c3⟩ := extract_capacity st w hc hm hnd hlen
      simp only [pcap_state.run, List.mem_cons] at hs
      rcases hs with rfl | hs
      · exact c1
      · have := ih (st.extract w).state (by rw [c3]; exact hc) (by rw [c2]; exact hm)
          (extract_nodup st w hnd) (by rw [c2]; exact c1) s hs
        rw [c2] at this
        exact this
  have hall := key ws st hc hm (by rw [h0]; exact List.nodup_nil) (by rw [h0]; exact hm)
  refine ⟨hall, ?_⟩
  intro h1 s hs
  have := hall s hs
  rw [h1] at this
  exact List.length_eq_zero.1 (by omega)

set_option maxRecDepth 100000 in
/-- C39 (example): with cutoff 1000 and `max_flows_ = 2`, three frames of three
flows leave one entry each time. -/
theorem C39_table_below_max_flows_witness :
    ((sample_state 1000 2 []).run [sample_world (sample_frame 142 6 1 0x50 10) 8 0,
        sample_world (sample_frame 142 6 2 0x50 11) 8 0,
        sample_world (sample_frame 142 6 3 0x50 12) 8 0]).map
        (fun s => s.state.flows_.length) = [1, 1, 1] ∧
      ∀ s ∈ (sample_state 1000 2 []).run [sample_world (sample_frame 142 6 1 0x50 10) 8 0,
          sample_world (sample_frame 142 6 2 0x50 11) 8 0,
          sample_world (sample_frame 142 6 3 0x50 12) 8 0],
        s.state.flows_.length < 2 :=
  ⟨by decide, (C39_table_below_max_flows (sample_state 1000 2 [])
    [sample_world (sample_frame 142 6 1 0x50 10) 8 0,
      sample_world (sample_frame 142 6 2 0x50 11) 8 0,
      sample_world (sample_frame 142 6 3 0x50 12) 8 0] (by decide) (by decide) rfl).1⟩

/-- C40: a 48-byte IPv4 frame with protocol TCP whose data offset claims a
20-byte TCP header passes the EtherType and the IP header-length checks, but
its header sizes 20 + 20 exceed `wire_len - 14 = 34`: the payload size wraps
to `2 ^ 64 - 6`, and with cutoff 1000 the recorded length of the event is
1040, more than `wire_len - 14`. -/
theorem C40_header_sizes_exceed_packet :
    (sample_frame 48 6 1 0x50 10).is_ip = true ∧
      (sample_frame 48 6 1 0x50 10).header_too_short = false ∧
      (sample_frame 48 6 1 0x50 10).ip_header_size = 20 ∧
      (sample_frame 48 6 1 0x50 10).l4_header_size = 20 ∧
      (sample_frame 48 6 1 0x50 10).wire_len - 14 = 34 ∧
      parse_packet (sample_frame 48 6 1 0x50 10) =
        .value ⟨sample_conn 1 .tcp, 34, 2 ^ 64 - 6⟩ ∧
      ((sample_state 1000 4 []).extract (sample_world (sample_frame 48 6 1 0x50 10) 8 0)).out =
        .returned (.value (make_event true (sample_frame 48 6 1 0x50 10)
          ⟨sample_conn 1 .tcp, 34, 2 ^ 64 - 6⟩ 1040)) ∧
      (make_event true (sample_frame 48 6 1 0x50 10)
        ⟨sample_conn 1 .tcp, 34, 2 ^ 64 - 6⟩ 1040).payload.length = 1040 := by
  refine ⟨by decide, by decide, by decide, by decide, by decide, by decide, rfl, ?_⟩
  simp only [make_event, length_slice]

end vast
